import Mathlib

/-!
# TizenRT memory manager (`os/include/tinyara/mm/mm.h`) and `fsync` (`os/fs/vfs/fs_fsync.c`)

The development embeds the preprocessor logic of `mm.h` as functions of a build
configuration and proves the numeric contracts of the chunk header layout and of the
size-class index.  The chunk header is embedded from `struct mm_allocnode_s`: two
`mmsize_t` fields, the allocated flag packed in bit 15/31 of `preceding`.  The functions
of the allocation engine and of the heap guard, of which `mm.h` only holds the
prototypes, are modelled from the specification; the invariants of the engine are
proved for every heap reachable from `mm_initialize` over a region whose chunk sizes
stay below the flag bit.  `file_fsync` and `fsync` are embedded from their source with
the calls they make recorded in the state.

C objects of type `int` are 32 bits wide throughout (the only `int` width TizenRT
targets provide); unsigned quantities are natural numbers reduced modulo `2 ^ w`
wherever the C expression can wrap.
-/

namespace TizenRT

/-! ## Build configuration -/

/-- Representation widths a target can give to pointers and to `size_t`. -/
inductive Width where
  | w16
  | w32
  | w64
  deriving DecidableEq, Repr

/-- Number of value bits of a representation width. -/
def Width.bits : Width → Nat
  | .w16 => 16
  | .w32 => 32
  | .w64 => 64

/-- Value of `sizeof` for a representation width. -/
def Width.bytes (w : Width) : Nat := w.bits / 8

/-- Width of the C type `int`. -/
def INT_BITS : Nat := 32

/-- Everything `mm.h` reads from `tinyara/config.h` and from the toolchain.
`uintptr` is the width of a data pointer (`UINTPTR_MAX = 2 ^ bits - 1`),
`size_t` the width of `size_t`, `pid_t_bytes` is `sizeof(pid_t)`. -/
structure Config where
  CONFIG_SMALL_MEMORY : Bool
  CONFIG_MM_SMALL : Bool
  CONFIG_HAVE_LONG_LONG : Bool
  CONFIG_DEBUG_MM_HEAPINFO : Bool
  uintptr : Width
  size_t : Width
  pid_t_bytes : Nat
  deriving DecidableEq, Repr

/-- Lines 79-86: `CONFIG_SMALL_MEMORY` forces `CONFIG_MM_SMALL`. -/
def Config.mmSmall (cfg : Config) : Bool :=
  cfg.CONFIG_SMALL_MEMORY || cfg.CONFIG_MM_SMALL

/-- The test `UINTPTR_MAX <= UINT32_MAX`. -/
def Config.ptrLe32 (cfg : Config) : Bool :=
  decide (2 ^ cfg.uintptr.bits - 1 ≤ 2 ^ 32 - 1)

/-- `MM_MIN_SHIFT`, lines 146-174. -/
def MM_MIN_SHIFT (cfg : Config) : Nat :=
  if cfg.mmSmall && cfg.ptrLe32 then 4
  else if cfg.CONFIG_HAVE_LONG_LONG then
    (if cfg.ptrLe32 then 4 else 5)
  else 4

/-- `MM_MAX_SHIFT`, lines 146-174. -/
def MM_MAX_SHIFT (cfg : Config) : Nat :=
  if cfg.mmSmall && cfg.ptrLe32 then 15
  else if cfg.CONFIG_HAVE_LONG_LONG then 22
  else 22

/-- `MM_MIN_CHUNK = (1 << MM_MIN_SHIFT)`. -/
def MM_MIN_CHUNK (cfg : Config) : Nat := 1 <<< MM_MIN_SHIFT cfg

/-- `MM_MAX_CHUNK = (1 << MM_MAX_SHIFT)`. -/
def MM_MAX_CHUNK (cfg : Config) : Nat := 1 <<< MM_MAX_SHIFT cfg

/-- `MM_NNODES = (MM_MAX_SHIFT - MM_MIN_SHIFT + 1)`. -/
def MM_NNODES (cfg : Config) : Nat := MM_MAX_SHIFT cfg - MM_MIN_SHIFT cfg + 1

/-- `MM_GRAN_MASK = (MM_MIN_CHUNK-1)`. -/
def MM_GRAN_MASK (cfg : Config) : Nat := MM_MIN_CHUNK cfg - 1

/-- `SIZE_MAX`. -/
def SIZE_MAX (cfg : Config) : Nat := 2 ^ cfg.size_t.bits - 1

/-- Width in which `a OP k` is evaluated for a `size_t` operand `a` and an `int`
constant `k` (usual arithmetic conversions): `size_t` when it is at least as wide
as `int`, otherwise `int`. -/
def arithBits (cfg : Config) : Nat := max cfg.size_t.bits INT_BITS

/-- Bit pattern of `~k` at width `w` for a constant `k`. -/
def bitNot (w k : Nat) : Nat := 2 ^ w - 1 - k

/-- `MM_ALIGN_UP(a) = (((a) + MM_GRAN_MASK) & ~MM_GRAN_MASK)`. -/
def MM_ALIGN_UP (cfg : Config) (a : Nat) : Nat :=
  ((a + MM_GRAN_MASK cfg) % 2 ^ arithBits cfg) &&& bitNot (arithBits cfg) (MM_GRAN_MASK cfg)

/-- `MM_ALIGN_DOWN(a) = ((a) & ~MM_GRAN_MASK)`. -/
def MM_ALIGN_DOWN (cfg : Config) (a : Nat) : Nat :=
  (a % 2 ^ arithBits cfg) &&& bitNot (arithBits cfg) (MM_GRAN_MASK cfg)

/-! ## Chunk header layout -/

/-- `MM_ALLOC_BIT`, lines 190-194. -/
def MM_ALLOC_BIT (cfg : Config) : Nat :=
  if cfg.mmSmall then 0x8000 else 0x80000000

/-- Width in bits of `mmsize_t`, lines 218-224: `uint16_t` under `CONFIG_MM_SMALL`,
`size_t` otherwise. -/
def mmsizeBits (cfg : Config) : Nat :=
  if cfg.mmSmall then 16 else cfg.size_t.bits

/-- `MMSIZE_MAX`, lines 218-224. -/
def MMSIZE_MAX (cfg : Config) : Nat :=
  if cfg.mmSmall then 0xffff else SIZE_MAX cfg

/-- `sizeof(mmsize_t)`. -/
def sizeof_mmsize_t (cfg : Config) : Nat :=
  if cfg.mmSmall then 2 else cfg.size_t.bytes

/-- `sizeof(mmaddress_t)`, line 229: `mmaddress_t` is `size_t`. -/
def sizeof_mmaddress_t (cfg : Config) : Nat := cfg.size_t.bytes

/-- `sizeof(uint16_t)`. -/
def sizeof_uint16_t : Nat := 2

/-- `SIZEOF_MM_MALLOC_DEBUG_INFO`, lines 249-250 (defined under
`CONFIG_DEBUG_MM_HEAPINFO`). -/
def SIZEOF_MM_MALLOC_DEBUG_INFO (cfg : Config) : Nat :=
  sizeof_mmaddress_t cfg + cfg.pid_t_bytes + sizeof_uint16_t

/-- `SIZEOF_MM_ALLOCNODE`, lines 271-289. -/
def SIZEOF_MM_ALLOCNODE (cfg : Config) : Nat :=
  if cfg.mmSmall then
    (if cfg.CONFIG_DEBUG_MM_HEAPINFO then
      sizeof_mmsize_t cfg + sizeof_mmsize_t cfg + SIZEOF_MM_MALLOC_DEBUG_INFO cfg
    else sizeof_mmsize_t cfg + sizeof_mmsize_t cfg)
  else
    (if cfg.CONFIG_DEBUG_MM_HEAPINFO then
      sizeof_mmsize_t cfg + sizeof_mmsize_t cfg + SIZEOF_MM_MALLOC_DEBUG_INFO cfg
    else sizeof_mmsize_t cfg + sizeof_mmsize_t cfg)

/-- `MM_PTR_SIZE = sizeof(FAR struct mm_freenode_s *)`. -/
def MM_PTR_SIZE (cfg : Config) : Nat := cfg.uintptr.bytes

/-- `SIZEOF_MM_FREENODE`, lines 305-311. -/
def SIZEOF_MM_FREENODE (cfg : Config) : Nat :=
  if cfg.CONFIG_DEBUG_MM_HEAPINFO then
    SIZEOF_MM_ALLOCNODE cfg - SIZEOF_MM_MALLOC_DEBUG_INFO cfg + 2 * MM_PTR_SIZE cfg
  else SIZEOF_MM_ALLOCNODE cfg + 2 * MM_PTR_SIZE cfg

/-- Conversion of an unsigned integer `v` of `srcBits` bits to a pointer of
`ptrBits` bits: most-significant bits are discarded when the pointer is narrower,
the value is zero-extended when it is wider. -/
def intToPtr (ptrBits v : Nat) : Nat := v % 2 ^ ptrBits

/-- Two's complement value of the `w`-bit pattern `p`. -/
def toSigned (w p : Nat) : Int :=
  if p % 2 ^ w < 2 ^ (w - 1) then ((p % 2 ^ w : Nat) : Int)
  else ((p % 2 ^ w : Nat) : Int) - ((2 ^ w : Nat) : Int)

/-- Conversion of a pointer of `ptrBits` bits to `int`: most-significant bits are
discarded when the pointer is wider than `int`, the pointer is sign-extended when it
is narrower, and the bits are unchanged otherwise. -/
def ptrToInt (ptrBits p : Nat) : Int :=
  if INT_BITS ≤ ptrBits then toSigned INT_BITS p else toSigned ptrBits p

/-- `MM_IS_ALLOCATED(n) = ((int)((struct mm_allocnode_s*)(n)->preceding) < 0)`, line 195,
as a function of the value `preceding` of `n->preceding`: the member access binds
tighter than the cast, so the field value is converted to a pointer and then to `int`. -/
def MM_IS_ALLOCATED (cfg : Config) (preceding : Nat) : Bool :=
  decide (ptrToInt cfg.uintptr.bits (intToPtr cfg.uintptr.bits (preceding % 2 ^ mmsizeBits cfg)) < 0)

/-- The configurations the header's comments provide for, on a target whose `size_t`
is as wide as its pointers: `CONFIG_MM_SMALL` with 2- or 4-byte pointers, the default
chunk header with 4-byte pointers, and `CONFIG_HAVE_LONG_LONG` with 8-byte pointers. -/
def Config.selected (cfg : Config) : Bool :=
  decide (cfg.size_t = cfg.uintptr) &&
  ((cfg.mmSmall && (decide (cfg.uintptr = .w16) || decide (cfg.uintptr = .w32))) ||
   (!cfg.mmSmall && decide (cfg.uintptr = .w32)) ||
   (!cfg.mmSmall && cfg.CONFIG_HAVE_LONG_LONG && decide (cfg.uintptr = .w64)))

/-! ## Size-class index -/

/-- Position of the highest set bit of `v` (0 for `v ≤ 1`), by repeated halving;
`fuel` bounds the number of halvings and any `fuel ≥ v` is enough. -/
def highBitPos : Nat → Nat → Nat
  | 0, _ => 0
  | fuel + 1, v => if 1 < v then highBitPos fuel (v >>> 1) + 1 else 0

/-- Modelled from the spec: `mm_size2ndx.c` is not among the sources (only the
prototype `int mm_size2ndx(size_t size)` is).  Section 4.1: the largest bucket
absorbs every size at or above the maximum range, any other size is classified by
the position of its highest set bit above the minimum granularity. -/
def mm_size2ndx (cfg : Config) (size : Nat) : Nat :=
  if MM_MAX_CHUNK cfg ≤ size then MM_NNODES cfg - 1
  else highBitPos (size >>> MM_MIN_SHIFT cfg) (size >>> MM_MIN_SHIFT cfg)

/-! ## Allocation engine

`mm.h` declares the chunk header (`struct mm_allocnode_s`, lines 258-267) and the heap
(`struct mm_heap_s`, lines 332-368), but of `mm_initialize`, `mm_addregion`,
`mm_addfreechunk`, `mm_malloc` and `mm_free` it holds only the prototypes.  The header
is embedded from its declaration: two `mmsize_t` fields, the allocated flag packed in
bit 15/31 of `preceding`.  The bodies of the functions are modelled from the
specification (sections 3, 4.2, 4.3) for a heap with a single region, every store to a
header field being a store to an `mmsize_t`.  Addresses are byte offsets from the start
of the region: the head sentinel occupies the first `SIZEOF_MM_ALLOCNODE` bytes, the
chunks follow in memory order, the tail sentinel occupies the last
`SIZEOF_MM_ALLOCNODE` bytes. -/

/-- Conversion to `mmsize_t` (lines 218-224), the type of the two header fields:
`uint16_t` under `CONFIG_MM_SMALL`, `size_t` otherwise.  The most-significant bits that
do not fit are discarded. -/
def to_mmsize_t (cfg : Config) (v : Nat) : Nat := v % 2 ^ mmsizeBits cfg

/-- The chunk header `struct mm_allocnode_s`, lines 258-267: `size` is the size of this
chunk, `preceding` the size of the preceding chunk with bit 15/31 (`MM_ALLOC_BIT`) set
when this chunk is allocated (comment at lines 253-256).  Both fields are `mmsize_t`
values.  The three members under `CONFIG_DEBUG_MM_HEAPINFO` (call address, pid,
reserved) are never read by the engine; their bytes are counted by
`SIZEOF_MM_ALLOCNODE`. -/
structure mm_allocnode_s where
  size : Nat
  preceding : Nat
  deriving DecidableEq, Repr

/-- Allocated flag of a header: bit 15/31 of `preceding` is set (lines 186-194 and
253-256), read as `(n->preceding & MM_ALLOC_BIT) != 0`. -/
def mm_allocnode_s.allocated (n : mm_allocnode_s) (cfg : Config) : Bool :=
  (n.preceding &&& MM_ALLOC_BIT cfg) != 0

/-- Size part of `preceding`, the flag bit masked off: `n->preceding & ~MM_ALLOC_BIT`
at the width of `mmsize_t`. -/
def mm_allocnode_s.precedingSize (n : mm_allocnode_s) (cfg : Config) : Nat :=
  n.preceding &&& bitNot (mmsizeBits cfg) (MM_ALLOC_BIT cfg)

/-- Set the allocated flag: `n->preceding |= MM_ALLOC_BIT`. -/
def mm_allocnode_s.markAllocated (n : mm_allocnode_s) (cfg : Config) : mm_allocnode_s :=
  { n with preceding := to_mmsize_t cfg (n.preceding ||| MM_ALLOC_BIT cfg) }

/-- Clear the allocated flag: `n->preceding &= ~MM_ALLOC_BIT`. -/
def mm_allocnode_s.markFree (n : mm_allocnode_s) (cfg : Config) : mm_allocnode_s :=
  { n with preceding := n.preceding &&& bitNot (mmsizeBits cfg) (MM_ALLOC_BIT cfg) }

/-- Store the size `v` of the preceding chunk, keeping the flag:
`n->preceding = v | (n->preceding & MM_ALLOC_BIT)`. -/
def mm_allocnode_s.withPreceding (n : mm_allocnode_s) (cfg : Config) (v : Nat) :
    mm_allocnode_s :=
  { n with preceding := to_mmsize_t cfg (v ||| (n.preceding &&& MM_ALLOC_BIT cfg)) }

/-- Store the size of the chunk: `n->size = v`. -/
def mm_allocnode_s.withSize (n : mm_allocnode_s) (cfg : Config) (v : Nat) : mm_allocnode_s :=
  { n with size := to_mmsize_t cfg v }

/-- Header of a new free chunk: `n->size = size; n->preceding = preceding` (flag clear). -/
def freeNode (cfg : Config) (size preceding : Nat) : mm_allocnode_s :=
  { size := to_mmsize_t cfg size, preceding := to_mmsize_t cfg preceding }

/-- State of one heap over a single region: of `struct mm_heap_s` (lines 332-368) the
registered size `mm_heapsize`, the free lists `mm_nodelist` (each bucket the addresses
of its free chunks, most recently inserted first) and the usage totals; of the region's
memory the chunk headers between the two sentinels in memory order and the size
recorded in the `preceding` field of the tail sentinel `mm_heapend`. -/
structure Heap where
  mm_heapsize : Nat
  chunks : List mm_allocnode_s
  tail_preceding : Nat
  mm_nodelist : List (List Nat)
  total_alloc_size : Nat
  peak_alloc_size : Nat
  deriving DecidableEq, Repr

/-- Bytes taken by the head and tail sentinels of a region. -/
def sentinelOverhead (cfg : Config) : Nat := 2 * SIZEOF_MM_ALLOCNODE cfg

/-- Head sentinel of the region (section 3): size 0, no preceding chunk, permanently
allocated. -/
def headSentinel (cfg : Config) : mm_allocnode_s :=
  { size := 0, preceding := to_mmsize_t cfg (MM_ALLOC_BIT cfg) }

/-- Tail sentinel (section 3) recording `tail` as the size of the last real chunk:
size 0, permanently allocated, `preceding = tail | MM_ALLOC_BIT`. -/
def endNode (cfg : Config) (tail : Nat) : mm_allocnode_s :=
  { size := 0, preceding := to_mmsize_t cfg (tail ||| MM_ALLOC_BIT cfg) }

/-- Tail sentinel of the region. -/
def tailSentinel (cfg : Config) (h : Heap) : mm_allocnode_s := endNode cfg h.tail_preceding

/-- All headers of the region in memory order, sentinels included. -/
def physical (cfg : Config) (h : Heap) : List mm_allocnode_s :=
  headSentinel cfg :: (h.chunks ++ [tailSentinel cfg h])

/-- Walk the chunks in memory order from address `base`, each chunk ending `size` bytes
after its start, and split the list at the chunk that starts at address `target`. -/
def locate : List mm_allocnode_s → Nat → Nat →
    Option (List mm_allocnode_s × mm_allocnode_s × List mm_allocnode_s)
  | [], _, _ => none
  | c :: rest, base, target =>
    if base = target then some ([], c, rest)
    else (locate rest (base + c.size) target).map (fun r => (c :: r.1, r.2.1, r.2.2))

/-- Header of the chunk that starts at address `addr`. -/
def chunkAt (cfg : Config) (h : Heap) (addr : Nat) : Option mm_allocnode_s :=
  (locate h.chunks (SIZEOF_MM_ALLOCNODE cfg) addr).map (fun r => r.2.1)

/-- Modelled from the spec: `mm_addfreechunk` (section 4.2, insert): classify the
chunk's size and splice it at the head of that bucket. -/
def mm_addfreechunk (cfg : Config) (lists : List (List Nat)) (addr size : Nat) :
    List (List Nat) :=
  lists.set (mm_size2ndx cfg size) (addr :: lists.getD (mm_size2ndx cfg size) [])

/-- Modelled from the spec: section 4.2, remove: unlink the chunk at `addr` from its
bucket. -/
def unlink (lists : List (List Nat)) (addr : Nat) : List (List Nat) :=
  lists.map (fun b => b.filter (fun a => a != addr))

/-- Store `v` as the preceding size in the header that follows in memory: the first
chunk of `post`, whose flag is kept, or the tail sentinel when `post` is empty. -/
def setFollowing (cfg : Config) (post : List mm_allocnode_s) (tail v : Nat) :
    List mm_allocnode_s × Nat :=
  match post with
  | [] => ([], v)
  | n :: rest => (n.withPreceding cfg v :: rest, tail)

/-- Usage totals after `size` more bytes are allocated (diagnostics only). -/
def addUsage (cfg : Config) (h : Heap) (size : Nat) : Nat × Nat :=
  if cfg.CONFIG_DEBUG_MM_HEAPINFO then
    (h.total_alloc_size + size, max h.peak_alloc_size (h.total_alloc_size + size))
  else (h.total_alloc_size, h.peak_alloc_size)

/-- Usage total after `size` bytes are released (diagnostics only). -/
def subUsage (cfg : Config) (h : Heap) (size : Nat) : Nat :=
  if cfg.CONFIG_DEBUG_MM_HEAPINFO then h.total_alloc_size - size else h.total_alloc_size

/-- Modelled from the spec: `mm_addregion` (section 4.2, add_region) on a heap without
a region: install the sentinels and insert one free chunk covering the span after the
sentinel overhead, its size stored in the header's `size` field and in the tail
sentinel; fails when the region cannot hold a minimum chunk. -/
def mm_addregion (cfg : Config) (h : Heap) (heapsize : Nat) : Option Heap :=
  if heapsize < sentinelOverhead cfg + MM_MIN_CHUNK cfg then none
  else
    some { h with
      mm_heapsize := h.mm_heapsize + heapsize
      chunks := [freeNode cfg (heapsize - sentinelOverhead cfg) 0]
      tail_preceding := to_mmsize_t cfg (heapsize - sentinelOverhead cfg)
      mm_nodelist := mm_addfreechunk cfg h.mm_nodelist (SIZEOF_MM_ALLOCNODE cfg)
        (to_mmsize_t cfg (heapsize - sentinelOverhead cfg)) }

/-- Modelled from the spec: `mm_initialize` (section 6): empty buckets and zero totals,
then the initial region is added. -/
def mm_initialize (cfg : Config) (heap_size : Nat) : Option Heap :=
  mm_addregion cfg
    { mm_heapsize := 0, chunks := [], tail_preceding := 0,
      mm_nodelist := List.replicate (MM_NNODES cfg) [],
      total_alloc_size := 0, peak_alloc_size := 0 }
    heap_size

/-- Whether the free-list entry `addr` is a chunk of at least `need` bytes. -/
def fits (cfg : Config) (h : Heap) (need addr : Nat) : Bool :=
  match chunkAt cfg h addr with
  | some c => decide (need ≤ c.size)
  | none => false

/-- Segregated fit (section 4.3): scan the buckets from the size class of `need`
upward, first fit within each bucket. -/
def findFit (cfg : Config) (h : Heap) (need : Nat) : Option Nat :=
  ((h.mm_nodelist.drop (mm_size2ndx cfg need)).flatten).find? (fits cfg h need)

/-- Allocation of `need` bytes from the free chunk `c` at address `addr`, where the
chunk list is `pre ++ c :: post` (section 4.3): the chunk is unlinked; when it is
larger than needed by at least a minimum chunk it is split, the tail becoming a new
free chunk that is inserted in the free lists and recorded in the `preceding` field of
the header after it; the head is marked allocated and the usage totals are updated. -/
def takeChunk (cfg : Config) (h : Heap) (addr need : Nat) (pre : List mm_allocnode_s)
    (c : mm_allocnode_s) (post : List mm_allocnode_s) : Heap :=
  if MM_MIN_CHUNK cfg ≤ c.size - need then
    { h with
      chunks := pre ++
        (c.withSize cfg need).markAllocated cfg ::
        freeNode cfg (c.size - need) need ::
        (setFollowing cfg post h.tail_preceding (c.size - need)).1
      tail_preceding := (setFollowing cfg post h.tail_preceding (c.size - need)).2
      mm_nodelist := mm_addfreechunk cfg (unlink h.mm_nodelist addr) (addr + need)
        (to_mmsize_t cfg (c.size - need))
      total_alloc_size := (addUsage cfg h need).1
      peak_alloc_size := (addUsage cfg h need).2 }
  else
    { h with
      chunks := pre ++ c.markAllocated cfg :: post
      mm_nodelist := unlink h.mm_nodelist addr
      total_alloc_size := (addUsage cfg h c.size).1
      peak_alloc_size := (addUsage cfg h c.size).2 }

/-- Modelled from the spec: `mm_malloc` (section 4.3, allocate).  A size of zero or one
whose padding overflows is rejected; the padded size is
`MM_ALIGN_UP(size + SIZEOF_MM_ALLOCNODE)`, a multiple of the granularity as section 3
requires of every chunk size.  Returns the user pointer (chunk address plus header
size) or `none` for `NULL`, and the new heap. -/
def mm_malloc (cfg : Config) (h : Heap) (size : Nat) : Option Nat × Heap :=
  if size < 1 then (none, h)
  else if SIZE_MAX cfg - MM_GRAN_MASK cfg < size + SIZEOF_MM_ALLOCNODE cfg then (none, h)
  else
    match findFit cfg h (MM_ALIGN_UP cfg (size + SIZEOF_MM_ALLOCNODE cfg)) with
    | none => (none, h)
    | some addr =>
      match locate h.chunks (SIZEOF_MM_ALLOCNODE cfg) addr with
      | none => (none, h)
      | some (pre, c, post) =>
        (some (addr + SIZEOF_MM_ALLOCNODE cfg),
          takeChunk cfg h addr (MM_ALIGN_UP cfg (size + SIZEOF_MM_ALLOCNODE cfg)) pre c post)

/-- Forward coalescing step of `mm_free` for the chunk at `addr` of size `size`: when
the flag of the following chunk is clear that chunk is unlinked and absorbed, and the
header after it records the merged size.  Returns the size of the node, the headers
after it, the size recorded in the tail sentinel and the free lists. -/
def mergeNext (cfg : Config) (lists : List (List Nat)) (addr size : Nat)
    (post : List mm_allocnode_s) (tail : Nat) :
    Nat × List mm_allocnode_s × Nat × List (List Nat) :=
  match post with
  | [] => (size, [], tail, lists)
  | n :: rest =>
    if n.allocated cfg then (size, n :: rest, tail, lists)
    else
      (size + n.size, (setFollowing cfg rest tail (size + n.size)).1,
        (setFollowing cfg rest tail (size + n.size)).2, unlink lists (addr + size))

/-- Release of the allocated chunk `c` at address `addr`, where the chunk list is
`pre ++ c :: post` (section 4.3): the flag is cleared, a free following chunk is
absorbed, then the node is absorbed by a free preceding chunk (the chunk
`c.precedingSize` bytes before `addr`, which the boundary-tag invariant makes the last
chunk of `pre`); absorbed neighbours are unlinked, the header after a merged chunk
records the merged size and the result is inserted in the free lists. -/
def releaseChunk (cfg : Config) (h : Heap) (addr : Nat) (pre : List mm_allocnode_s)
    (c : mm_allocnode_s) (post : List mm_allocnode_s) : Heap :=
  match mergeNext cfg h.mm_nodelist addr c.size post h.tail_preceding with
  | (size1, post1, tail1, lists1) =>
    match pre.getLast? with
    | none =>
      { h with
        chunks := (c.markFree cfg).withSize cfg size1 :: post1
        tail_preceding := tail1
        mm_nodelist := mm_addfreechunk cfg lists1 addr (to_mmsize_t cfg size1)
        total_alloc_size := subUsage cfg h c.size }
    | some p =>
      if p.allocated cfg then
        { h with
          chunks := pre ++ (c.markFree cfg).withSize cfg size1 :: post1
          tail_preceding := tail1
          mm_nodelist := mm_addfreechunk cfg lists1 addr (to_mmsize_t cfg size1)
          total_alloc_size := subUsage cfg h c.size }
      else
        { h with
          chunks := pre.dropLast ++
            p.withSize cfg (p.size + size1) ::
            (setFollowing cfg post1 tail1 (p.size + size1)).1
          tail_preceding := (setFollowing cfg post1 tail1 (p.size + size1)).2
          mm_nodelist := mm_addfreechunk cfg
            (unlink lists1 (addr - c.precedingSize cfg)) (addr - c.precedingSize cfg)
            (to_mmsize_t cfg (p.size + size1))
          total_alloc_size := subUsage cfg h c.size }

/-- Modelled from the spec: `mm_free` (section 4.3, deallocate).  `none` is the fatal
stop for a pointer that is not the start of a chunk or whose chunk is not allocated. -/
def mm_free (cfg : Config) (h : Heap) (mem : Nat) : Option Heap :=
  match locate h.chunks (SIZEOF_MM_ALLOCNODE cfg) (mem - SIZEOF_MM_ALLOCNODE cfg) with
  | none => none
  | some (pre, c, post) =>
    if c.allocated cfg = false then none
    else some (releaseChunk cfg h (mem - SIZEOF_MM_ALLOCNODE cfg) pre c post)

/-- One call on a heap: an allocation or a release. -/
inductive Op where
  | malloc (size : Nat)
  | free (mem : Nat)
  deriving DecidableEq, Repr

/-- Heap after one call; `none` when the call is a fatal stop. -/
def step (cfg : Config) (h : Heap) : Op → Option Heap
  | .malloc size => some (mm_malloc cfg h size).2
  | .free mem => mm_free cfg h mem

/-- Heap states after each completed call of a sequence; the sequence ends at a fatal
stop. -/
def trace (cfg : Config) : Heap → List Op → List Heap
  | _, [] => []
  | h, op :: ops =>
    match step cfg h op with
    | none => []
    | some h' => h' :: trace cfg h' ops

/-- Sum of the `size` fields of a list of headers. -/
def sizeSum (l : List mm_allocnode_s) : Nat := (l.map mm_allocnode_s.size).sum

/-- Sum of the sizes of the allocated chunks. -/
def allocatedBytes (cfg : Config) (h : Heap) : Nat :=
  sizeSum (h.chunks.filter (fun c => c.allocated cfg))

/-- Sum of the sizes of the free chunks. -/
def freeBytes (cfg : Config) (h : Heap) : Nat :=
  sizeSum (h.chunks.filter (fun c => !c.allocated cfg))

/-- Size of the largest free chunk (0 when there is none). -/
def largestFree (cfg : Config) (h : Heap) : Nat :=
  ((h.chunks.filter (fun c => !c.allocated cfg)).map mm_allocnode_s.size).foldr max 0

/-- Header `b` records the size of header `a` in the size part of its `preceding`
field (flag bit masked off). -/
def tagRel (cfg : Config) (a b : mm_allocnode_s) : Prop := b.precedingSize cfg = a.size

/-- Headers `a` and `b` are not both free. -/
def adjRel (cfg : Config) (a b : mm_allocnode_s) : Prop :=
  a.allocated cfg = true ∨ b.allocated cfg = true

instance (cfg : Config) : DecidableRel (tagRel cfg) := fun a b =>
  inferInstanceAs (Decidable (b.precedingSize cfg = a.size))

instance (cfg : Config) : DecidableRel (adjRel cfg) := fun a b =>
  inferInstanceAs (Decidable (a.allocated cfg = true ∨ b.allocated cfg = true))

/-- Boundary-tag invariant: the size part of `preceding` of every header equals the
size of the header physically immediately before it. -/
def BoundaryTags (cfg : Config) (h : Heap) : Prop := List.Chain' (tagRel cfg) (physical cfg h)

/-- No two physically adjacent chunks are both free. -/
def NoAdjacentFree (cfg : Config) (h : Heap) : Prop :=
  List.Chain' (adjRel cfg) (physical cfg h)

/-- Every free-list entry is the address of a chunk whose allocated flag is clear. -/
def FreeListsSound (cfg : Config) (h : Heap) : Prop :=
  ∀ b ∈ h.mm_nodelist, ∀ a ∈ b, ∃ c, chunkAt cfg h a = some c ∧ c.allocated cfg = false

/-- Allocated flag of the chunk that starts at address `target`, walking `l` from
address `base`. -/
def flagAt (cfg : Config) (l : List mm_allocnode_s) (base target : Nat) : Option Bool :=
  (locate l base target).map (fun r => r.2.1.allocated cfg)

/-- Every chunk has a positive size. -/
def PositiveSizes (h : Heap) : Prop := ∀ c ∈ h.chunks, 0 < c.size

/-- The headers can record the heap: the flag bit lies inside an `mmsize_t`
(`MM_ALLOC_BIT ≤ MMSIZE_MAX`) and the chunk sizes sum to less than `MM_ALLOC_BIT`, so
that the size of every chunk, also of a chunk merged from neighbours, fits the `size`
field and the size part of `preceding` below the flag. -/
def Recordable (cfg : Config) (h : Heap) : Prop :=
  MM_ALLOC_BIT cfg ≤ MMSIZE_MAX cfg ∧ sizeSum h.chunks < MM_ALLOC_BIT cfg

instance (cfg : Config) (h : Heap) : Decidable (Recordable cfg h) :=
  inferInstanceAs (Decidable (_ ∧ _))

/-- Both fields of the header hold values of `mmsize_t`. -/
def InField (cfg : Config) (n : mm_allocnode_s) : Prop :=
  n.size ≤ MMSIZE_MAX cfg ∧ n.preceding ≤ MMSIZE_MAX cfg

/-- Every header of the region, sentinels included, holds values of `mmsize_t`. -/
def FieldsInRange (cfg : Config) (h : Heap) : Prop := ∀ n ∈ physical cfg h, InField cfg n

/-- Well-formed heap: boundary tags correct, no two adjacent free chunks, free lists
linking only free chunks, no empty chunk. -/
def WellFormed (cfg : Config) (h : Heap) : Prop :=
  BoundaryTags cfg h ∧ NoAdjacentFree cfg h ∧ FreeListsSound cfg h ∧ PositiveSizes h

/-- Decision procedure for a relation holding between all neighbours of a list of
headers. -/
def chainDecide (R : mm_allocnode_s → mm_allocnode_s → Prop) [DecidableRel R] :
    (l : List mm_allocnode_s) → Decidable (List.Chain' R l)
  | [] => isTrue List.chain'_nil
  | [a] => isTrue (List.chain'_singleton a)
  | a :: b :: rest =>
    have := chainDecide R (b :: rest)
    decidable_of_iff (R a b ∧ List.Chain' R (b :: rest)) List.chain'_cons.symm

instance (cfg : Config) (h : Heap) : Decidable (BoundaryTags cfg h) :=
  chainDecide (tagRel cfg) (physical cfg h)

instance (cfg : Config) (h : Heap) : Decidable (NoAdjacentFree cfg h) :=
  chainDecide (adjRel cfg) (physical cfg h)

/-- Size of an absorbed neighbour: the size of the header when there is one and its
allocated flag is clear, 0 otherwise. -/
def freeSize (cfg : Config) : Option mm_allocnode_s → Nat
  | some n => if n.allocated cfg then 0 else n.size
  | none => 0

/-! ## Allocation engine: `calloc`, `zalloc`, `memalign`, `realloc`

`mm.h` only declares these entry points; their bodies are modelled from section 4.3 of
the specification on the heap model above.  The contents of the payload are not part
of the model, so zero-filling and copying leave no trace in it. -/

/-- Split the chunk at address `addr` in two chunks of `keep` and `size - keep` bytes
that both carry its allocated flag; the header after them records the second size. -/
def splitChunk (cfg : Config) (h : Heap) (addr keep : Nat) : Option Heap :=
  match locate h.chunks (SIZEOF_MM_ALLOCNODE cfg) addr with
  | none => none
  | some (pre, c, post) =>
    some { h with
      chunks := pre ++ c.withSize cfg keep ::
        (c.withPreceding cfg keep).withSize cfg (c.size - keep) ::
        (setFollowing cfg post h.tail_preceding (c.size - keep)).1
      tail_preceding := (setFollowing cfg post h.tail_preceding (c.size - keep)).2 }

/-- Modelled from the spec: `mm_shrinkchunk` (section 4.3, shrink) for the allocated
chunk at address `addr`: when the unused tail beyond `size` bytes is at least a minimum
chunk it is split off and released, which coalesces it with a free following chunk;
otherwise the chunk is left oversized.  `none` when `addr` is not the start of a chunk. -/
def mm_shrinkchunk (cfg : Config) (h : Heap) (addr size : Nat) : Option Heap :=
  match chunkAt cfg h addr with
  | none => none
  | some c =>
    if MM_MIN_CHUNK cfg ≤ c.size - size then
      (splitChunk cfg h addr size).bind
        (fun h1 => mm_free cfg h1 (addr + size + SIZEOF_MM_ALLOCNODE cfg))
    else some h

/-- Modelled from the spec: `mm_zalloc` (section 4.3): allocate, then zero-fill the
returned span. -/
def mm_zalloc (cfg : Config) (h : Heap) (size : Nat) : Option Nat × Heap :=
  mm_malloc cfg h size

/-- Modelled from the spec: `mm_calloc` (section 4.3): the product of element count and
element size is overflow-checked before allocating. -/
def mm_calloc (cfg : Config) (h : Heap) (n elem_size : Nat) : Option Nat × Heap :=
  if SIZE_MAX cfg < n * elem_size then (none, h)
  else mm_zalloc cfg h (n * elem_size)

/-- The test `a != 0 && (a & (a - 1)) == 0` for a power of two. -/
def isPowerOfTwo (a : Nat) : Bool := a != 0 && (a &&& (a - 1)) == 0

/-- First pointer `p ≥ raw` such that `heap_start + p` is a multiple of `alignment` and
the bytes skipped, if any, can hold a minimum chunk. -/
def alignedPointer (cfg : Config) (heap_start raw alignment : Nat) : Nat :=
  if (heap_start + raw) % alignment = 0 then raw
  else
    (heap_start + raw + MM_MIN_CHUNK cfg + (alignment - 1)) / alignment * alignment - heap_start

/-- Modelled from the spec: `mm_memalign` (section 4.3, memalign) on a region that
starts at address `heap_start`.  The alignment must be a power of two or the call
fails; the request is allocated with enough slack (`alignment + MM_MIN_CHUNK`) to hold
an aligned pointer, the unaligned leading remainder is split off and released, and the
oversized trailing remainder is released by `mm_shrinkchunk`. -/
def mm_memalign (cfg : Config) (heap_start : Nat) (h : Heap) (alignment size : Nat) :
    Option (Option Nat × Heap) :=
  if isPowerOfTwo alignment = false then some (none, h)
  else if SIZE_MAX cfg < size + alignment + MM_MIN_CHUNK cfg then some (none, h)
  else
    match mm_malloc cfg h (size + alignment + MM_MIN_CHUNK cfg) with
    | (none, _) => some (none, h)
    | (some raw, h1) =>
      (if alignedPointer cfg heap_start raw alignment = raw then some h1
        else
          (splitChunk cfg h1 (raw - SIZEOF_MM_ALLOCNODE cfg)
            (alignedPointer cfg heap_start raw alignment - raw)).bind
            (fun h2 => mm_free cfg h2 raw)).bind
        (fun h3 =>
          (mm_shrinkchunk cfg h3
            (alignedPointer cfg heap_start raw alignment - SIZEOF_MM_ALLOCNODE cfg)
            (MM_ALIGN_UP cfg (size + SIZEOF_MM_ALLOCNODE cfg))).map
            (fun h4 => (some (alignedPointer cfg heap_start raw alignment), h4)))

/-- Growing in place (section 4.3, reallocate): when the chunk after `c` is free and the
two together hold `newsize` bytes, that chunk is unlinked and absorbed by `c`. -/
def growInPlace (cfg : Config) (h : Heap) (addr : Nat) (pre : List mm_allocnode_s)
    (c : mm_allocnode_s) (post : List mm_allocnode_s) (newsize : Nat) : Option Heap :=
  match post with
  | [] => none
  | n :: rest =>
    if n.allocated cfg = false ∧ newsize ≤ c.size + n.size then
      some { h with
        chunks := pre ++ c.withSize cfg (c.size + n.size) ::
          (setFollowing cfg rest h.tail_preceding (c.size + n.size)).1
        tail_preceding := (setFollowing cfg rest h.tail_preceding (c.size + n.size)).2
        mm_nodelist := unlink h.mm_nodelist (addr + c.size)
        total_alloc_size := (addUsage cfg h n.size).1
        peak_alloc_size := (addUsage cfg h n.size).2 }
    else none

/-- Modelled from the spec: `mm_realloc` (section 4.3, reallocate).  `oldmem = none` is
a null pointer.  A null pointer behaves as `mm_malloc`; a new size of zero behaves as
`mm_free` and returns `NULL`; a chunk that is large enough is shrunk in place; a chunk
followed by a large enough free chunk grows in place; otherwise the request is
allocated, copied and the old chunk released.  The outer `none` is the fatal stop of
`mm_free` for a pointer that is not an allocated chunk. -/
def mm_realloc (cfg : Config) (h : Heap) (oldmem : Option Nat) (size : Nat) :
    Option (Option Nat × Heap) :=
  match oldmem with
  | none => some (mm_malloc cfg h size)
  | some mem =>
    if size < 1 then (mm_free cfg h mem).map (fun h1 => (none, h1))
    else if SIZE_MAX cfg - MM_GRAN_MASK cfg < size + SIZEOF_MM_ALLOCNODE cfg then some (none, h)
    else
      match locate h.chunks (SIZEOF_MM_ALLOCNODE cfg) (mem - SIZEOF_MM_ALLOCNODE cfg) with
      | none => none
      | some (pre, c, post) =>
        if c.allocated cfg = false then none
        else if MM_ALIGN_UP cfg (size + SIZEOF_MM_ALLOCNODE cfg) ≤ c.size then
          (mm_shrinkchunk cfg h (mem - SIZEOF_MM_ALLOCNODE cfg)
            (MM_ALIGN_UP cfg (size + SIZEOF_MM_ALLOCNODE cfg))).map (fun h1 => (some mem, h1))
        else
          match growInPlace cfg h (mem - SIZEOF_MM_ALLOCNODE cfg) pre c post
              (MM_ALIGN_UP cfg (size + SIZEOF_MM_ALLOCNODE cfg)) with
          | some h1 =>
            (mm_shrinkchunk cfg h1 (mem - SIZEOF_MM_ALLOCNODE cfg)
              (MM_ALIGN_UP cfg (size + SIZEOF_MM_ALLOCNODE cfg))).map
              (fun h2 => (some mem, h2))
          | none =>
            match mm_malloc cfg h size with
            | (none, _) => some (none, h)
            | (some p, h1) => (mm_free cfg h1 mem).map (fun h2 => (some p, h2))

/-! ## The heap guard

`mm.h` only declares `mm_seminitialize`, `mm_takesemaphore` and `mm_givesemaphore`;
they are modelled from section 5 of the specification on the three guard fields of
`struct mm_heap_s`. -/

/-- The guard fields of `struct mm_heap_s`: the count of the semaphore `mm_semaphore`
(1 when it is available, 0 when it is taken), `mm_holder` (the task holding the guard,
-1 when there is none) and `mm_counts_held`. -/
structure Guard where
  mm_semaphore : Nat
  mm_holder : Int
  mm_counts_held : Int
  deriving DecidableEq, Repr

/-- Modelled from the spec: `mm_seminitialize`: the semaphore is available, nobody
holds the guard. -/
def mm_seminitialize : Guard := { mm_semaphore := 1, mm_holder := -1, mm_counts_held := 0 }

/-- Modelled from the spec: `mm_takesemaphore` called by task `my_pid` (section 5): the
current holder only increments the hold count; any other task waits on the semaphore,
then records itself as holder with a count of one.  `none` is a caller that blocks on
a semaphore that is taken. -/
def mm_takesemaphore (g : Guard) (my_pid : Nat) : Option Guard :=
  if g.mm_holder = (my_pid : Int) then
    some { g with mm_counts_held := g.mm_counts_held + 1 }
  else if g.mm_semaphore = 0 then none
  else
    some { mm_semaphore := g.mm_semaphore - 1, mm_holder := (my_pid : Int),
           mm_counts_held := 1 }

/-- Modelled from the spec: `mm_givesemaphore` called by task `my_pid` (section 5): the
hold count is decremented and the semaphore is only released when it reaches zero.
`none` is the stop for a caller that does not hold the guard. -/
def mm_givesemaphore (g : Guard) (my_pid : Nat) : Option Guard :=
  if g.mm_holder ≠ (my_pid : Int) then none
  else if 1 < g.mm_counts_held then
    some { g with mm_counts_held := g.mm_counts_held - 1 }
  else
    some { mm_semaphore := g.mm_semaphore + 1, mm_holder := -1, mm_counts_held := 0 }

/-- A guard call of the task. -/
inductive GuardOp where
  | take
  | give
  deriving DecidableEq, Repr

/-- Guard after one call by task `my_pid`; `none` when the call does not complete. -/
def guardStep (my_pid : Nat) (g : Guard) : GuardOp → Option Guard
  | .take => mm_takesemaphore g my_pid
  | .give => mm_givesemaphore g my_pid

/-- Guard states after each completed call of a sequence of calls by task `my_pid`. -/
def guardTrace (my_pid : Nat) : Guard → List GuardOp → List Guard
  | _, [] => []
  | g, op :: ops =>
    match guardStep my_pid g op with
    | none => []
    | some g' => g' :: guardTrace my_pid g' ops

/-! ## `fsync` (`os/fs/vfs/fs_fsync.c`)

The file system objects are reduced to what `file_fsync` and `fsync` read.  Calls
that leave the two functions (`enter_cancellation_point`, `fs_getfilep`, the
mountpoint's `sync` method, ...) are recorded, in order, in the `calls` list of the
state; `set_errno` stores into `errno`. -/

/-- Constants and flag values that `fs_fsync.c` takes from headers outside the sources
(`OK`, `ERROR`, `O_WROK`, `EBADF`, `EINVAL`). -/
structure FsConsts where
  OK : Int
  ERROR : Int
  O_WROK : Nat
  EBADF : Int
  EINVAL : Int
  deriving DecidableEq, Repr

/-- `INT_MIN` for the 32-bit `int`. -/
def INT_MIN : Int := -(2 ^ 31)

/-- `INT_MAX` for the 32-bit `int`. -/
def INT_MAX : Int := 2 ^ 31 - 1

/-- Reduction of an integer to the range of the 32-bit two's complement `int`. -/
def wrapInt (x : Int) : Int := (x + 2 ^ 31) % 2 ^ 32 - 2 ^ 31

/-- The C expression `-x` on `int`: the result is reduced to the range of `int`, so the
one value without a representable negation, `INT_MIN`, is mapped to itself. -/
def negInt (x : Int) : Int := wrapInt (-x)

/-- A call that leaves `file_fsync` / `fsync`, as recorded in the state. -/
inductive Event where
  | enter_cancellation_point
  | leave_cancellation_point
  | fs_getfilep (fd : Int)
  | file_fsync (filep : Nat)
  | sync (filep : Nat)
  deriving DecidableEq, Repr

/-- State that the two functions change: the task's `errno` and the record of calls. -/
structure World where
  errno : Int
  calls : List Event
  deriving DecidableEq, Repr

/-- The mountpoint operations table (`inode->u.i_mops`), reduced to its `sync` entry:
`none` is a null function pointer, otherwise the method maps the `struct file` pointer
it is called with to its `int` result. -/
structure MountptOps where
  sync : Option (Nat → Int)

/-- An inode, reduced to the result of `INODE_IS_MOUNTPT(inode)` and to `u.i_mops`
(`none` is a null pointer). -/
structure Inode where
  is_mountpt : Bool
  i_mops : Option MountptOps

/-- A `struct file`, reduced to `f_oflags` and `f_inode` (`none` is a null pointer). -/
structure File where
  f_oflags : Nat
  f_inode : Option Inode

/-- The label `errout` of `file_fsync`: `set_errno(ret); return ERROR;`. -/
def file_fsync_errout (k : FsConsts) (ret : Int) (w : World) : Int × World :=
  (k.ERROR, { w with errno := ret })

/-- `file_fsync`, lines 102-137; `filep` is the pointer and `f` the file it refers to. -/
def file_fsync (k : FsConsts) (filep : Nat) (f : File) (w : World) : Int × World :=
  if f.f_oflags &&& k.O_WROK = 0 then file_fsync_errout k k.EBADF w
  else
    match f.f_inode with
    | none => file_fsync_errout k k.EINVAL w
    | some inode =>
      if inode.is_mountpt = false then file_fsync_errout k k.EINVAL w
      else
        match inode.i_mops with
        | none => file_fsync_errout k k.EINVAL w
        | some mops =>
          match mops.sync with
          | none => file_fsync_errout k k.EINVAL w
          | some method =>
            let ret := method filep
            let w1 : World := { w with calls := w.calls ++ [Event.sync filep] }
            if ret ≥ 0 then (k.OK, w1)
            else file_fsync_errout k (negInt ret) w1

/-- What `fsync` takes from the rest of the file system: `fs_getfilep(fd, &filep)`
gives its return value and the pointer it stores in `filep` (0 is `NULL`), and `file`
gives the `struct file` a pointer refers to. -/
structure FsEnv where
  fs_getfilep : Int → Int × Nat
  file : Nat → File

/-- `fsync`, lines 147-173.  `none` is the stop at `DEBUGASSERT(filep != NULL)`. -/
def fsync (k : FsConsts) (env : FsEnv) (fd : Int) (w : World) : Option (Int × World) :=
  let w1 : World := { w with calls := w.calls ++ [Event.enter_cancellation_point] }
  let ret := (env.fs_getfilep fd).1
  let filep := (env.fs_getfilep fd).2
  let w2 : World := { w1 with calls := w1.calls ++ [Event.fs_getfilep fd] }
  if ret < 0 then
    let w3 : World := { w2 with calls := w2.calls ++ [Event.leave_cancellation_point] }
    some (k.ERROR, { w3 with errno := negInt ret })
  else if filep = 0 then none
  else
    let r := file_fsync k filep (env.file filep)
      { w2 with calls := w2.calls ++ [Event.file_fsync filep] }
    some (r.1, { r.2 with calls := r.2.calls ++ [Event.leave_cancellation_point] })

/-- The reading of `fsync` as "`file_fsync` on the descriptor's file": `file_fsync` applied
to the pointer that `fs_getfilep` stores for `fd` and to the file it refers to, in the
state `fsync` is called in. -/
def fsync_as_file_fsync (k : FsConsts) (env : FsEnv) (fd : Int) (w : World) : Int × World :=
  file_fsync k (env.fs_getfilep fd).2 (env.file (env.fs_getfilep fd).2) w

/-- The values TizenRT gives to the constants: `OK = 0`, `ERROR = -1`,
`O_WROK = O_WRONLY = 2`, `EBADF = 9`, `EINVAL = 22`. -/
def tizenrtConsts : FsConsts := { OK := 0, ERROR := -1, O_WROK := 2, EBADF := 9, EINVAL := 22 }

/-- A mountpoint whose `sync` method answers `r` for every file. -/
def mountptInode (r : Int) : Inode :=
  { is_mountpt := true, i_mops := some { sync := some (fun _ => r) } }

/-- A file opened read-write (`f_oflags = 3`) on a mountpoint whose `sync` answers `r`. -/
def rwFile (r : Int) : File := { f_oflags := 3, f_inode := some (mountptInode r) }

/-- A file opened read-only (`f_oflags = 1`) on a mountpoint whose `sync` answers 0. -/
def roFile : File := { f_oflags := 1, f_inode := some (mountptInode 0) }

/-- A file system in which descriptor 3 is the file at pointer 100, opened read-write on
a mountpoint whose `sync` answers `r`, and every other descriptor fails with `-EBADF`. -/
def sampleEnv (r : Int) : FsEnv :=
  { fs_getfilep := fun fd => if fd = 3 then (0, 100) else (-9, 0)
    file := fun _ => rwFile r }

/-- A state with `errno = 0` and no recorded calls. -/
def world0 : World := { errno := 0, calls := [] }

/-! ## Heap-selecting entry points (`mm.h`, lines 669-756)

With `CONFIG_MM_NHEAPS > 1` the five `*_at` entry points are functions; otherwise they
are function-like macros that drop their first argument.  An argument of a call is a C
expression, whose evaluation can change the program state or not complete, so that
dropping an argument is visible in the model. -/

/-- A C expression evaluated in a program state of type `σ`: its value and the state
after its side effects, `none` when its evaluation does not complete. -/
def CExpr (σ α : Type) : Type := σ → Option (α × σ)

/-- A constant expression. -/
def CExpr.const {σ α : Type} (v : α) : CExpr σ α := fun s => some (v, s)

/-- The call `f(a)`: the argument is evaluated, then the function runs. -/
def call1 {σ α ρ : Type} (f : α → CExpr σ ρ) (a : CExpr σ α) : CExpr σ ρ :=
  fun s => (a s).bind (fun r => f r.1 r.2)

/-- The call `f(a, b)`: the arguments are evaluated (first to last), then the function
runs. -/
def call2 {σ α β ρ : Type} (f : α → β → CExpr σ ρ) (a : CExpr σ α) (b : CExpr σ β) :
    CExpr σ ρ :=
  fun s => (a s).bind (fun ra => (b ra.2).bind (fun rb => f ra.1 rb.1 rb.2))

/-- The call `f(a, b, c)`: the arguments are evaluated (first to last), then the function
runs. -/
def call3 {σ α β γ ρ : Type} (f : α → β → γ → CExpr σ ρ) (a : CExpr σ α) (b : CExpr σ β)
    (c : CExpr σ γ) : CExpr σ ρ :=
  fun s => (a s).bind (fun ra => (b ra.2).bind (fun rb => (c rb.2).bind
    (fun rc => f ra.1 rb.1 rc.1 rc.2)))

/-- `INVALID_HEAP_IDX`, line 214. -/
def INVALID_HEAP_IDX : Int := -1

/-- The allocation functions of the C library that the macros expand to (`malloc`,
`calloc`, `memalign`, `realloc`, `zalloc`); their definitions are outside the sources.
Pointers are `Option Nat`, `none` being `NULL`. -/
structure Libc (σ : Type) where
  malloc : Nat → CExpr σ (Option Nat)
  calloc : Nat → Nat → CExpr σ (Option Nat)
  memalign : Nat → Nat → CExpr σ (Option Nat)
  realloc : Option Nat → Nat → CExpr σ (Option Nat)
  zalloc : Nat → CExpr σ (Option Nat)

/-- The functions `malloc_at` ... `zalloc_at` that lines 698-749 declare for
`CONFIG_MM_NHEAPS > 1`; their definitions are outside the sources. -/
structure HeapAt (σ : Type) where
  malloc_at : Int → Nat → CExpr σ (Option Nat)
  calloc_at : Int → Nat → Nat → CExpr σ (Option Nat)
  memalign_at : Int → Nat → Nat → CExpr σ (Option Nat)
  realloc_at : Int → Option Nat → Nat → CExpr σ (Option Nat)
  zalloc_at : Int → Nat → CExpr σ (Option Nat)

/-- The expression `malloc_at(heap_index, size)`: a call of the function of line 698 when
`CONFIG_MM_NHEAPS > 1`, otherwise the macro of line 751, `malloc(size)`. -/
def malloc_at {σ : Type} (CONFIG_MM_NHEAPS : Nat) (L : Libc σ) (M : HeapAt σ)
    (heap_index : CExpr σ Int) (size : CExpr σ Nat) : CExpr σ (Option Nat) :=
  if CONFIG_MM_NHEAPS > 1 then call2 M.malloc_at heap_index size
  else call1 L.malloc size

/-- The expression `calloc_at(heap_index, n, elem_size)`: a call of the function of line
711 when `CONFIG_MM_NHEAPS > 1`, otherwise the macro of line 752, `calloc(n, elem_size)`. -/
def calloc_at {σ : Type} (CONFIG_MM_NHEAPS : Nat) (L : Libc σ) (M : HeapAt σ)
    (heap_index : CExpr σ Int) (n elem_size : CExpr σ Nat) : CExpr σ (Option Nat) :=
  if CONFIG_MM_NHEAPS > 1 then call3 M.calloc_at heap_index n elem_size
  else call2 L.calloc n elem_size

/-- The expression `memalign_at(heap_index, alignment, size)`: a call of the function of
line 724 when `CONFIG_MM_NHEAPS > 1`, otherwise the macro of line 753,
`memalign(alignment, size)`. -/
def memalign_at {σ : Type} (CONFIG_MM_NHEAPS : Nat) (L : Libc σ) (M : HeapAt σ)
    (heap_index : CExpr σ Int) (alignment size : CExpr σ Nat) : CExpr σ (Option Nat) :=
  if CONFIG_MM_NHEAPS > 1 then call3 M.memalign_at heap_index alignment size
  else call2 L.memalign alignment size

/-- The expression `realloc_at(heap_index, oldmem, size)`: a call of the function of line
737 when `CONFIG_MM_NHEAPS > 1`, otherwise the macro of line 754, `realloc(oldmem, size)`. -/
def realloc_at {σ : Type} (CONFIG_MM_NHEAPS : Nat) (L : Libc σ) (M : HeapAt σ)
    (heap_index : CExpr σ Int) (oldmem : CExpr σ (Option Nat)) (size : CExpr σ Nat) :
    CExpr σ (Option Nat) :=
  if CONFIG_MM_NHEAPS > 1 then call3 M.realloc_at heap_index oldmem size
  else call2 L.realloc oldmem size

/-- The expression `zalloc_at(heap_index, size)`: a call of the function of line 749 when
`CONFIG_MM_NHEAPS > 1`, otherwise the macro of line 755, `zalloc(size)`. -/
def zalloc_at {σ : Type} (CONFIG_MM_NHEAPS : Nat) (L : Libc σ) (M : HeapAt σ)
    (heap_index : CExpr σ Int) (size : CExpr σ Nat) : CExpr σ (Option Nat) :=
  if CONFIG_MM_NHEAPS > 1 then call2 M.zalloc_at heap_index size
  else call1 L.zalloc size

/-- The claim's reading of the single-heap build: `malloc` applied to the remaining
argument. -/
def malloc_plain {σ : Type} (L : Libc σ) (size : CExpr σ Nat) : CExpr σ (Option Nat) :=
  call1 L.malloc size

/-- The claim's reading of the single-heap build: `calloc` applied to the remaining
arguments. -/
def calloc_plain {σ : Type} (L : Libc σ) (n elem_size : CExpr σ Nat) : CExpr σ (Option Nat) :=
  call2 L.calloc n elem_size

/-- The claim's reading of the single-heap build: `memalign` applied to the remaining
arguments. -/
def memalign_plain {σ : Type} (L : Libc σ) (alignment size : CExpr σ Nat) :
    CExpr σ (Option Nat) :=
  call2 L.memalign alignment size

/-- The claim's reading of the single-heap build: `realloc` applied to the remaining
arguments. -/
def realloc_plain {σ : Type} (L : Libc σ) (oldmem : CExpr σ (Option Nat))
    (size : CExpr σ Nat) : CExpr σ (Option Nat) :=
  call2 L.realloc oldmem size

/-- The claim's reading of the single-heap build: `zalloc` applied to the remaining
argument. -/
def zalloc_plain {σ : Type} (L : Libc σ) (size : CExpr σ Nat) : CExpr σ (Option Nat) :=
  call1 L.zalloc size

/-! ## Example configurations -/

/-- A conventional 32-bit build: `CONFIG_HAVE_LONG_LONG`, 4-byte pointers, no diagnostics. -/
def cfg32 : Config :=
  { CONFIG_SMALL_MEMORY := false, CONFIG_MM_SMALL := false, CONFIG_HAVE_LONG_LONG := true,
    CONFIG_DEBUG_MM_HEAPINFO := false, uintptr := .w32, size_t := .w32, pid_t_bytes := 2 }

/-- The 32-bit build with `CONFIG_DEBUG_MM_HEAPINFO`. -/
def cfg32dbg : Config := { cfg32 with CONFIG_DEBUG_MM_HEAPINFO := true }

/-- A 64-bit build: `CONFIG_HAVE_LONG_LONG`, 8-byte pointers and `size_t`. -/
def cfg64 : Config := { cfg32 with uintptr := .w64, size_t := .w64 }

/-- A `CONFIG_MM_SMALL` build on a target with 4-byte pointers. -/
def cfgSmall32 : Config := { cfg32 with CONFIG_MM_SMALL := true }

/-- A `CONFIG_MM_SMALL` build on a target with 2-byte pointers. -/
def cfgSmall16 : Config := { cfgSmall32 with uintptr := .w16, size_t := .w16 }

/-- The heap `mm_initialize` builds over a 4096-byte region on the 32-bit build: one
free chunk of 4080 bytes at address 8, linked in bucket 7. -/
def heap4096 : Heap :=
  { mm_heapsize := 4096, chunks := [⟨4080, 0⟩], tail_preceding := 4080,
    mm_nodelist := [[], [], [], [], [], [], [], [8], [], [], [], [], [], [], [], [], [], [], []],
    total_alloc_size := 0, peak_alloc_size := 0 }

/-- The heap `heap4096` after `mm_malloc(100)` and `mm_malloc(200)`: chunks of 112 and
208 bytes allocated at addresses 8 and 120 (flag `0x80000000` set in `preceding`),
3760 bytes free at address 328. -/
def heapTwoAllocs : Heap :=
  { mm_heapsize := 4096,
    chunks := [⟨112, 0x80000000⟩, ⟨208, 0x80000070⟩, ⟨3760, 208⟩],
    tail_preceding := 3760,
    mm_nodelist := [[], [], [], [], [], [], [], [328], [], [], [], [], [], [], [], [], [], [], []],
    total_alloc_size := 0, peak_alloc_size := 0 }

/-- The call sequence of the example in section 8 of the specification. -/
def exampleOps : List Op := [.malloc 100, .malloc 5000, .free 16, .malloc 4000]

/-- A C library whose functions run the allocation engine on the 32-bit build, the
program state being the heap (region at address 0); a fatal stop of the engine makes
the call not complete. -/
def heapLibc : Libc Heap :=
  { malloc := fun size h => some (mm_malloc cfg32 h size)
    calloc := fun n elem_size h => some (mm_calloc cfg32 h n elem_size)
    memalign := fun alignment size h => mm_memalign cfg32 0 h alignment size
    realloc := fun oldmem size h => mm_realloc cfg32 h oldmem size
    zalloc := fun size h => some (mm_zalloc cfg32 h size) }

/-- Multi-heap functions that never complete, standing for definitions that a
single-heap build does not have. -/
def noHeapAt : HeapAt Heap :=
  { malloc_at := fun _ _ _ => none
    calloc_at := fun _ _ _ _ => none
    memalign_at := fun _ _ _ _ => none
    realloc_at := fun _ _ _ _ => none
    zalloc_at := fun _ _ _ => none }

/-- A heap index expression with a side effect: it allocates 8 bytes before giving 0. -/
def allocatingIndex : CExpr Heap Int := fun h => some (0, (mm_malloc cfg32 h 8).2)

/-- A heap index expression whose evaluation does not complete. -/
def stuckIndex : CExpr Heap Int := fun _ => none

/-! ## Theorems -/

/-! ### Size-class index and bucket count -/

theorem highBitPos_eq_log2 (fuel v : Nat) (h : v ≤ fuel) : highBitPos fuel v = Nat.log2 v := by
  induction fuel generalizing v with
  | zero =>
    have : v = 0 := by omega
    subst this
    simp [highBitPos, Nat.log2]
  | succ f ih =>
    rw [highBitPos, Nat.log2]
    by_cases hv : 1 < v
    · have h2 : v ≥ 2 := hv
      rw [if_pos hv, if_pos h2, Nat.shiftRight_eq_div_pow, pow_one, ih (v / 2) (by omega)]
    · have h2 : ¬ v ≥ 2 := by omega
      rw [if_neg hv, if_neg h2]

theorem shift_cases (cfg : Config) :
    (MM_MIN_SHIFT cfg = 4 ∧ MM_MAX_SHIFT cfg = 15) ∨
    (MM_MIN_SHIFT cfg = 4 ∧ MM_MAX_SHIFT cfg = 22) ∨
    (MM_MIN_SHIFT cfg = 5 ∧ MM_MAX_SHIFT cfg = 22) := by
  unfold MM_MIN_SHIFT MM_MAX_SHIFT
  split <;> [skip; split <;> [split; skip]] <;> simp

theorem min_chunk_eq (cfg : Config) : MM_MIN_CHUNK cfg = 2 ^ MM_MIN_SHIFT cfg := by
  simp [MM_MIN_CHUNK, Nat.shiftLeft_eq]

theorem max_chunk_eq (cfg : Config) : MM_MAX_CHUNK cfg = 2 ^ MM_MAX_SHIFT cfg := by
  simp [MM_MAX_CHUNK, Nat.shiftLeft_eq]

theorem min_le_max_shift (cfg : Config) : MM_MIN_SHIFT cfg ≤ MM_MAX_SHIFT cfg := by
  rcases shift_cases cfg with h | h | h <;> omega

theorem size2ndx_below (cfg : Config) (s : Nat) (h : s < MM_MAX_CHUNK cfg) :
    mm_size2ndx cfg s = Nat.log2 (s / 2 ^ MM_MIN_SHIFT cfg) := by
  unfold mm_size2ndx
  rw [if_neg (by omega), Nat.shiftRight_eq_div_pow, highBitPos_eq_log2 _ _ le_rfl]

theorem log2_div_bounds (m s : Nat) (h : 2 ^ m ≤ s) :
    2 ^ (Nat.log2 (s / 2 ^ m) + m) ≤ s ∧ s < 2 ^ (Nat.log2 (s / 2 ^ m) + 1 + m) := by
  have hpos : 0 < 2 ^ m := Nat.pow_pos (by decide)
  have hq : s / 2 ^ m ≠ 0 := by
    have := (Nat.le_div_iff_mul_le hpos).2 (by simpa using h : 1 * 2 ^ m ≤ s)
    omega
  have h1 := Nat.log2_self_le hq
  have h2 := @Nat.lt_log2_self (s / 2 ^ m)
  constructor
  · rw [pow_add]
    exact (Nat.le_div_iff_mul_le hpos).1 h1
  · rw [pow_add]
    exact (Nat.div_lt_iff_lt_mul hpos).1 h2

theorem size2ndx_lt_nnodes (cfg : Config) (s : Nat) : mm_size2ndx cfg s < MM_NNODES cfg := by
  by_cases h : MM_MAX_CHUNK cfg ≤ s
  · simp [mm_size2ndx, h, MM_NNODES]
  · have hlt : s < MM_MAX_CHUNK cfg := by omega
    rw [size2ndx_below cfg s hlt]
    have hmM := min_le_max_shift cfg
    have hpos : 0 < 2 ^ MM_MIN_SHIFT cfg := Nat.pow_pos (by decide)
    by_cases hq : s / 2 ^ MM_MIN_SHIFT cfg = 0
    · rw [hq]
      simp [Nat.log2, MM_NNODES]
    · have hs : s < 2 ^ (MM_MAX_SHIFT cfg - MM_MIN_SHIFT cfg) * 2 ^ MM_MIN_SHIFT cfg := by
        rw [← pow_add, Nat.sub_add_cancel hmM, ← max_chunk_eq]
        exact hlt
      have := (Nat.log2_lt hq).2 ((Nat.div_lt_iff_lt_mul hpos).2 hs)
      unfold MM_NNODES
      omega

/-- C1: `mm_size2ndx` is the logarithmic bucket map: a size in
`[MM_MIN_CHUNK, MM_MAX_CHUNK)` gets the index `k` with
`2^(k+MM_MIN_SHIFT) ≤ s < 2^(k+1+MM_MIN_SHIFT)`, every size at or above
`MM_MAX_CHUNK` gets `MM_NNODES-1`, and every result is below `MM_NNODES`. -/
theorem mm_size2ndx_contract (cfg : Config) (s : Nat) :
    (MM_MIN_CHUNK cfg ≤ s → s < MM_MAX_CHUNK cfg →
      2 ^ (mm_size2ndx cfg s + MM_MIN_SHIFT cfg) ≤ s ∧
      s < 2 ^ (mm_size2ndx cfg s + 1 + MM_MIN_SHIFT cfg)) ∧
    (MM_MAX_CHUNK cfg ≤ s → mm_size2ndx cfg s = MM_NNODES cfg - 1) ∧
    0 ≤ mm_size2ndx cfg s ∧ mm_size2ndx cfg s < MM_NNODES cfg := by
  refine ⟨?_, ?_, Nat.zero_le _, ?_⟩
  · intro hlo hhi
    rw [size2ndx_below cfg s hhi]
    exact log2_div_bounds _ _ (by rwa [← min_chunk_eq])
  · intro h
    simp [mm_size2ndx, h]
  · exact size2ndx_lt_nnodes cfg s

/-- C1 at a concrete input: on the 32-bit build a 100-byte chunk lies in bucket 2's
range `[64, 128)`. -/
theorem mm_size2ndx_contract_witness :
    MM_MIN_CHUNK cfg32 ≤ 100 ∧ 100 < MM_MAX_CHUNK cfg32 ∧ mm_size2ndx cfg32 100 = 2 ∧
    2 ^ (mm_size2ndx cfg32 100 + MM_MIN_SHIFT cfg32) ≤ 100 ∧
    100 < 2 ^ (mm_size2ndx cfg32 100 + 1 + MM_MIN_SHIFT cfg32) :=
  ⟨by decide, by decide, by decide,
    (mm_size2ndx_contract cfg32 100).1 (by decide) (by decide)⟩

/-- C2: in every configuration the shifts are 4/15, 4/22 or 5/22, there is at least
one bucket, the last bucket starts exactly at `MM_MAX_CHUNK`, and the ranges of the
buckets `0 .. MM_NNODES-2` tile `[MM_MIN_CHUNK, MM_MAX_CHUNK)`: every size in that
interval lies in the range of exactly one of them. -/
theorem nnodes_matches_ranges (cfg : Config) :
    ((MM_MIN_SHIFT cfg = 4 ∧ MM_MAX_SHIFT cfg = 15) ∨
      (MM_MIN_SHIFT cfg = 4 ∧ MM_MAX_SHIFT cfg = 22) ∨
      (MM_MIN_SHIFT cfg = 5 ∧ MM_MAX_SHIFT cfg = 22)) ∧
    1 ≤ MM_NNODES cfg ∧
    2 ^ ((MM_NNODES cfg - 1) + MM_MIN_SHIFT cfg) = MM_MAX_CHUNK cfg ∧
    2 ^ (0 + MM_MIN_SHIFT cfg) = MM_MIN_CHUNK cfg ∧
    (∀ s, MM_MIN_CHUNK cfg ≤ s → s < MM_MAX_CHUNK cfg →
      ∃! k, k + 2 ≤ MM_NNODES cfg ∧
        2 ^ (k + MM_MIN_SHIFT cfg) ≤ s ∧ s < 2 ^ (k + 1 + MM_MIN_SHIFT cfg)) := by
  have hmM := min_le_max_shift cfg
  have hlast : 2 ^ ((MM_NNODES cfg - 1) + MM_MIN_SHIFT cfg) = MM_MAX_CHUNK cfg := by
    rw [max_chunk_eq]
    congr 1
    unfold MM_NNODES
    omega
  refine ⟨shift_cases cfg, by unfold MM_NNODES; omega, hlast, by simp [min_chunk_eq], ?_⟩
  intro s hlo hhi
  have hb := log2_div_bounds (MM_MIN_SHIFT cfg) s (by rwa [← min_chunk_eq])
  refine ⟨Nat.log2 (s / 2 ^ MM_MIN_SHIFT cfg), ⟨?_, hb.1, hb.2⟩, ?_⟩
  · have h3 := size2ndx_lt_nnodes cfg s
    rw [size2ndx_below cfg s hhi] at h3
    have hlt : 2 ^ (Nat.log2 (s / 2 ^ MM_MIN_SHIFT cfg) + MM_MIN_SHIFT cfg) <
        2 ^ ((MM_NNODES cfg - 1) + MM_MIN_SHIFT cfg) := by
      rw [hlast]; omega
    have := (Nat.pow_lt_pow_iff_right (by decide : 1 < 2)).1 hlt
    omega
  · rintro k ⟨_, hk1, hk2⟩
    have h1 : 2 ^ (k + MM_MIN_SHIFT cfg) <
        2 ^ (Nat.log2 (s / 2 ^ MM_MIN_SHIFT cfg) + 1 + MM_MIN_SHIFT cfg) :=
      lt_of_le_of_lt hk1 hb.2
    have h2 : 2 ^ (Nat.log2 (s / 2 ^ MM_MIN_SHIFT cfg) + MM_MIN_SHIFT cfg) <
        2 ^ (k + 1 + MM_MIN_SHIFT cfg) :=
      lt_of_le_of_lt hb.1 hk2
    have h1' := (Nat.pow_lt_pow_iff_right (by decide : 1 < 2)).1 h1
    have h2' := (Nat.pow_lt_pow_iff_right (by decide : 1 < 2)).1 h2
    omega

/-- C2 at a concrete input: on the 32-bit build exactly one bucket range contains 100. -/
theorem nnodes_matches_ranges_witness :
    MM_MIN_CHUNK cfg32 ≤ 100 ∧ 100 < MM_MAX_CHUNK cfg32 ∧
    ∃! k, k + 2 ≤ MM_NNODES cfg32 ∧
      2 ^ (k + MM_MIN_SHIFT cfg32) ≤ 100 ∧ 100 < 2 ^ (k + 1 + MM_MIN_SHIFT cfg32) :=
  ⟨by decide, by decide, (nnodes_matches_ranges cfg32).2.2.2.2 100 (by decide) (by decide)⟩

/-! ### Granularity rounding -/

theorem land_high_mask (w k x : Nat) (hk : k ≤ w) (hx : x < 2 ^ w) :
    x &&& (2 ^ w - 1 - (2 ^ k - 1)) = x / 2 ^ k * 2 ^ k := by
  have hm : 2 ^ w - 1 - (2 ^ k - 1) = 2 ^ k * (2 ^ (w - k) - 1) := by
    have h1 : 2 ^ w = 2 ^ k * 2 ^ (w - k) := by rw [← pow_add]; congr 1; omega
    have h2 : 0 < 2 ^ k := Nat.pow_pos (by decide)
    have h3 : 0 < 2 ^ (w - k) := Nat.pow_pos (by decide)
    rw [Nat.mul_sub, mul_one, ← h1]
    omega
  rw [hm, Nat.mul_comm (x / 2 ^ k)]
  apply Nat.eq_of_testBit_eq
  intro i
  rw [Nat.testBit_and, Nat.testBit_mul_pow_two, Nat.testBit_mul_pow_two,
    Nat.testBit_two_pow_sub_one, ← Nat.shiftRight_eq_div_pow, Nat.testBit_shiftRight]
  by_cases hi : i ≥ k
  · by_cases hw : i < w
    · have : i - k < w - k := by omega
      have e : k + (i - k) = i := by omega
      simp [hi, this, e]
    · have hf : x.testBit i = false :=
        Nat.testBit_eq_false_of_lt (lt_of_lt_of_le hx (Nat.pow_le_pow_right (by decide) (by omega)))
      have e : k + (i - k) = i := by omega
      simp [hf, e]
  · simp [hi]

theorem align_arith (c a : Nat) (hc : 0 < c) :
    a ≤ (a + (c - 1)) / c * c ∧ (a + (c - 1)) / c * c < a + c ∧
    (a + (c - 1)) / c * c % c = 0 ∧
    ∀ m, a ≤ m → m % c = 0 → (a + (c - 1)) / c * c ≤ m := by
  have h1 := Nat.div_add_mod (a + (c - 1)) c
  have h2 := Nat.mod_lt (a + (c - 1)) hc
  rw [Nat.mul_comm] at h1
  refine ⟨by omega, by omega, Nat.mul_mod_left _ _, ?_⟩
  intro m ham hm
  have h3 := Nat.div_add_mod m c
  rw [hm, Nat.add_zero, Nat.mul_comm] at h3
  have h4 : (a + (c - 1)) / c ≤ m / c := by
    apply Nat.le_of_lt_succ
    rw [Nat.div_lt_iff_lt_mul hc, Nat.succ_mul]
    omega
  calc (a + (c - 1)) / c * c ≤ m / c * c := Nat.mul_le_mul_right _ h4
    _ = m := h3

theorem arithBits_ge (cfg : Config) : cfg.size_t.bits ≤ arithBits cfg := le_max_left _ _

theorem min_shift_le_arithBits (cfg : Config) : MM_MIN_SHIFT cfg ≤ arithBits cfg := by
  have : INT_BITS ≤ arithBits cfg := le_max_right _ _
  unfold INT_BITS at this
  rcases shift_cases cfg with h | h | h <;> omega

theorem gran_mask_eq (cfg : Config) : MM_GRAN_MASK cfg = 2 ^ MM_MIN_SHIFT cfg - 1 := by
  rw [MM_GRAN_MASK, min_chunk_eq]

theorem size_max_lt (cfg : Config) : SIZE_MAX cfg < 2 ^ arithBits cfg := by
  have h1 : 2 ^ cfg.size_t.bits ≤ 2 ^ arithBits cfg :=
    Nat.pow_le_pow_right (by decide) (arithBits_ge cfg)
  have h2 : 0 < 2 ^ cfg.size_t.bits := Nat.pow_pos (by decide)
  unfold SIZE_MAX
  omega

theorem align_up_eq (cfg : Config) (a : Nat) (h : a ≤ SIZE_MAX cfg - MM_GRAN_MASK cfg) :
    MM_ALIGN_UP cfg a = (a + (MM_MIN_CHUNK cfg - 1)) / MM_MIN_CHUNK cfg * MM_MIN_CHUNK cfg := by
  have hmask : MM_GRAN_MASK cfg ≤ SIZE_MAX cfg := by
    have h1 : 2 ^ MM_MIN_SHIFT cfg ≤ 2 ^ cfg.size_t.bits := by
      apply Nat.pow_le_pow_right (by decide)
      rcases shift_cases cfg with h | h | h <;> cases hs : cfg.size_t <;> simp [Width.bits] <;> omega
    rw [gran_mask_eq]; unfold SIZE_MAX; omega
  have hlt : a + MM_GRAN_MASK cfg < 2 ^ arithBits cfg := by
    have := size_max_lt cfg
    omega
  unfold MM_ALIGN_UP bitNot
  rw [Nat.mod_eq_of_lt hlt, gran_mask_eq,
    land_high_mask _ _ _ (min_shift_le_arithBits cfg) (by rwa [gran_mask_eq] at hlt), min_chunk_eq]

/-- C3: for every `size_t` value `a ≤ SIZE_MAX - MM_GRAN_MASK`, `MM_ALIGN_UP(a)` is the
least multiple of `MM_MIN_CHUNK` that is at least `a`; in particular
`a ≤ MM_ALIGN_UP(a) < a + MM_MIN_CHUNK` and `MM_ALIGN_UP(a) mod MM_MIN_CHUNK = 0`. -/
theorem MM_ALIGN_UP_least_multiple (cfg : Config) (a : Nat)
    (h : a ≤ SIZE_MAX cfg - MM_GRAN_MASK cfg) :
    a ≤ MM_ALIGN_UP cfg a ∧ MM_ALIGN_UP cfg a < a + MM_MIN_CHUNK cfg ∧
    MM_ALIGN_UP cfg a % MM_MIN_CHUNK cfg = 0 ∧
    ∀ m, a ≤ m → m % MM_MIN_CHUNK cfg = 0 → MM_ALIGN_UP cfg a ≤ m := by
  rw [align_up_eq cfg a h]
  exact align_arith _ _ (by rw [min_chunk_eq]; exact Nat.pow_pos (by decide))

/-- C3 at a concrete input: on the 32-bit build `MM_ALIGN_UP(17) = 32`. -/
theorem MM_ALIGN_UP_least_multiple_witness :
    17 ≤ SIZE_MAX cfg32 - MM_GRAN_MASK cfg32 ∧ MM_ALIGN_UP cfg32 17 = 32 ∧
    17 ≤ MM_ALIGN_UP cfg32 17 ∧ MM_ALIGN_UP cfg32 17 % MM_MIN_CHUNK cfg32 = 0 :=
  ⟨by decide, by decide, (MM_ALIGN_UP_least_multiple cfg32 17 (by decide)).1,
    (MM_ALIGN_UP_least_multiple cfg32 17 (by decide)).2.2.1⟩

/-! ### The allocated flag -/

theorem flag31_iff (p : Nat) : p &&& 2 ^ 31 ≠ 0 ↔ 2 ^ 31 ≤ p % 2 ^ 32 := by
  rw [Nat.and_two_pow, Nat.testBit_to_div_mod]
  have : p % 2 ^ 32 = p % 2 ^ 31 + 2 ^ 31 * (p / 2 ^ 31 % 2) := by omega
  rcases Nat.mod_two_eq_zero_or_one (p / 2 ^ 31) with h | h <;> simp [h] <;> omega

theorem toSigned32_neg_iff (p : Nat) : toSigned 32 p < 0 ↔ 2 ^ 31 ≤ p % 2 ^ 32 := by
  unfold toSigned
  have hlt : p % 2 ^ 32 < 2 ^ 32 := Nat.mod_lt _ (by decide)
  split
  · constructor
    · intro h; omega
    · intro h; omega
  · constructor
    · intro _; omega
    · intro _
      push_cast
      omega

/-- With the default chunk header (no `CONFIG_MM_SMALL`) on a 32- or 64-bit target,
`MM_IS_ALLOCATED` tests exactly `preceding & MM_ALLOC_BIT`. -/
theorem MM_IS_ALLOCATED_default (cfg : Config) (p : Nat)
    (hs : cfg.mmSmall = false) (hsel : cfg.selected = true) (hp : p < 2 ^ mmsizeBits cfg) :
    MM_IS_ALLOCATED cfg p = true ↔ p &&& MM_ALLOC_BIT cfg ≠ 0 := by
  have hbit : MM_ALLOC_BIT cfg = 2 ^ 31 := by simp [MM_ALLOC_BIT, hs]
  have hm : mmsizeBits cfg = cfg.size_t.bits := by simp [mmsizeBits, hs]
  rw [hbit, flag31_iff]
  rw [hm] at hp
  unfold MM_IS_ALLOCATED intToPtr ptrToInt
  rw [hm, Nat.mod_eq_of_lt hp]
  simp only [Config.selected, hs] at hsel
  cases hst : cfg.size_t <;> cases hu : cfg.uintptr <;> simp [hst, hu] at hsel
  · simp only [hst, Width.bits] at hp
    simp only [Width.bits, INT_BITS, decide_eq_true_eq, le_refl, if_true]
    rw [toSigned32_neg_iff]
    simp
  · simp only [hst, Width.bits] at hp
    simp only [Width.bits, INT_BITS, decide_eq_true_eq]
    rw [if_pos (by decide), toSigned32_neg_iff]
    have : p % 2 ^ 64 = p := Nat.mod_eq_of_lt hp
    rw [this]

/-- The default-header case at a concrete input: a header whose `preceding` is
`0x80000010` is reported as allocated on the 32-bit build. -/
theorem MM_IS_ALLOCATED_default_witness :
    MM_IS_ALLOCATED cfg32 0x80000010 = true ↔ 0x80000010 &&& MM_ALLOC_BIT cfg32 ≠ 0 :=
  MM_IS_ALLOCATED_default cfg32 0x80000010 (by decide) (by decide) (by decide)

/-- C4 (fails in the code): under `CONFIG_MM_SMALL` with 4-byte pointers and a 32-bit
`int`, the 16-bit `preceding` field is zero-extended by the casts, so
`MM_IS_ALLOCATED` is false for a header whose flag `preceding & MM_ALLOC_BIT` is set;
in fact it is false for every value of the field. -/
theorem MM_IS_ALLOCATED_small_never_true :
    cfgSmall32.selected = true ∧ mmsizeBits cfgSmall32 = 16 ∧
    MM_ALLOC_BIT cfgSmall32 = 0x8000 ∧
    0x8000 &&& MM_ALLOC_BIT cfgSmall32 ≠ 0 ∧
    MM_IS_ALLOCATED cfgSmall32 0x8000 = false ∧
    ∀ p, MM_IS_ALLOCATED cfgSmall32 p = false := by
  refine ⟨by decide, by decide, by decide, by decide, by decide, ?_⟩
  intro p
  have h16 : mmsizeBits cfgSmall32 = 16 := by decide
  have hb : cfgSmall32.uintptr.bits = 32 := by decide
  unfold MM_IS_ALLOCATED intToPtr ptrToInt
  rw [h16, hb]
  simp only [INT_BITS, le_refl, if_true, decide_eq_false_iff_not, not_lt]
  have h1 : p % 2 ^ 16 < 2 ^ 16 := Nat.mod_lt _ (by decide)
  have h2 : p % 2 ^ 16 % 2 ^ 32 = p % 2 ^ 16 := Nat.mod_eq_of_lt (by omega)
  have := toSigned32_neg_iff (p % 2 ^ 16 % 2 ^ 32)
  rw [h2] at this ⊢
  have h3 : ¬ (2 ^ 31 ≤ p % 2 ^ 16 % 2 ^ 32) := by omega
  exact not_lt.1 (fun h => h3 (this.1 h))

/-- C5 as stated fails on the 64-bit build: `mmsize_t` is the 64-bit `size_t` but the
flag is bit 31, not bit 63. -/
theorem MM_ALLOC_BIT_not_msb_64 :
    cfg64.selected = true ∧ mmsizeBits cfg64 = 64 ∧
    MM_ALLOC_BIT cfg64 ≠ 2 ^ (mmsizeBits cfg64 - 1) := by
  decide

/-- C5 (amended): `MM_ALLOC_BIT` is `2^15` under `CONFIG_MM_SMALL` and `2^31`
otherwise; this is the most significant bit of `mmsize_t` when `mmsize_t` is 16 bits
(small header) or 32 bits wide, and bit 31 of a 64-bit `mmsize_t`. -/
theorem MM_ALLOC_BIT_value (cfg : Config) :
    MM_ALLOC_BIT cfg = (if cfg.mmSmall then 2 ^ 15 else 2 ^ 31) ∧
    (cfg.mmSmall = true → mmsizeBits cfg = 16 ∧ MM_ALLOC_BIT cfg = 2 ^ (mmsizeBits cfg - 1)) ∧
    (cfg.mmSmall = false → cfg.size_t = .w32 →
      mmsizeBits cfg = 32 ∧ MM_ALLOC_BIT cfg = 2 ^ (mmsizeBits cfg - 1)) ∧
    (cfg.mmSmall = false → cfg.size_t = .w64 →
      mmsizeBits cfg = 64 ∧ MM_ALLOC_BIT cfg = 2 ^ 31 ∧
      MM_ALLOC_BIT cfg < 2 ^ (mmsizeBits cfg - 1)) := by
  refine ⟨?_, ?_, ?_, ?_⟩
  · unfold MM_ALLOC_BIT; split <;> simp
  · intro h; simp [MM_ALLOC_BIT, mmsizeBits, h]
  · intro h hs; simp [MM_ALLOC_BIT, mmsizeBits, h, hs, Width.bits]
  · intro h hs; simp [MM_ALLOC_BIT, mmsizeBits, h, hs, Width.bits]

/-- C5 (amended) at concrete inputs: the small header, the 32-bit and the 64-bit build. -/
theorem MM_ALLOC_BIT_value_witness :
    (mmsizeBits cfgSmall32 = 16 ∧ MM_ALLOC_BIT cfgSmall32 = 2 ^ (mmsizeBits cfgSmall32 - 1)) ∧
    (mmsizeBits cfg32 = 32 ∧ MM_ALLOC_BIT cfg32 = 2 ^ (mmsizeBits cfg32 - 1)) ∧
    (mmsizeBits cfg64 = 64 ∧ MM_ALLOC_BIT cfg64 = 2 ^ 31 ∧
      MM_ALLOC_BIT cfg64 < 2 ^ (mmsizeBits cfg64 - 1)) :=
  ⟨(MM_ALLOC_BIT_value cfgSmall32).2.1 (by decide),
   (MM_ALLOC_BIT_value cfg32).2.2.1 (by decide) (by decide),
   (MM_ALLOC_BIT_value cfg64).2.2.2 (by decide) (by decide)⟩

/-! ### Minimum chunk and node sizes -/

/-- The free-node size never counts the diagnostic fields: in every configuration
`SIZEOF_MM_FREENODE = 2*sizeof(mmsize_t) + 2*MM_PTR_SIZE`. -/
theorem freenode_size_eq (cfg : Config) :
    SIZEOF_MM_FREENODE cfg = 2 * sizeof_mmsize_t cfg + 2 * MM_PTR_SIZE cfg := by
  unfold SIZEOF_MM_FREENODE SIZEOF_MM_ALLOCNODE
  cases cfg.mmSmall <;> cases cfg.CONFIG_DEBUG_MM_HEAPINFO <;> simp <;> omega

/-- C6: in every configuration the header provides for, a minimum chunk can hold a
free-list node: `SIZEOF_MM_FREENODE = 2*sizeof(mmsize_t) + 2*MM_PTR_SIZE ≤ MM_MIN_CHUNK`. -/
theorem min_chunk_holds_freenode (cfg : Config) (h : cfg.selected = true) :
    SIZEOF_MM_FREENODE cfg = 2 * sizeof_mmsize_t cfg + 2 * MM_PTR_SIZE cfg ∧
    SIZEOF_MM_FREENODE cfg ≤ MM_MIN_CHUNK cfg := by
  refine ⟨freenode_size_eq cfg, ?_⟩
  rw [freenode_size_eq]
  obtain ⟨sm, ms, ll, dbg, up, st, pid⟩ := cfg
  cases sm <;> cases ms <;> cases ll <;> cases up <;> cases st <;>
    simp [Config.selected, Config.mmSmall] at h <;>
    simp [sizeof_mmsize_t, MM_PTR_SIZE, MM_MIN_CHUNK, MM_MIN_SHIFT, Config.mmSmall,
      Config.ptrLe32, Width.bytes, Width.bits]

/-- C6 at concrete inputs: the 32-bit build (16 ≤ 16) and the 64-bit build (32 ≤ 32). -/
theorem min_chunk_holds_freenode_witness :
    (SIZEOF_MM_FREENODE cfg32 = 16 ∧ MM_MIN_CHUNK cfg32 = 16 ∧
      SIZEOF_MM_FREENODE cfg32 ≤ MM_MIN_CHUNK cfg32) ∧
    (SIZEOF_MM_FREENODE cfg64 = 32 ∧ MM_MIN_CHUNK cfg64 = 32 ∧
      SIZEOF_MM_FREENODE cfg64 ≤ MM_MIN_CHUNK cfg64) :=
  ⟨⟨by decide, by decide, (min_chunk_holds_freenode cfg32 (by decide)).2⟩,
   ⟨by decide, by decide, (min_chunk_holds_freenode cfg64 (by decide)).2⟩⟩

/-- C7 as stated fails with diagnostics enabled: on the 32-bit build with
`CONFIG_DEBUG_MM_HEAPINFO` the header is 16 bytes, so header plus two pointers is 24
bytes and rounds up to 32, while `MM_MIN_CHUNK` is 16. -/
theorem min_chunk_ne_aligned_header_dbg :
    cfg32dbg.selected = true ∧ SIZEOF_MM_ALLOCNODE cfg32dbg = 16 ∧
    MM_PTR_SIZE cfg32dbg = 4 ∧ MM_MIN_CHUNK cfg32dbg = 16 ∧
    MM_ALIGN_UP cfg32dbg (SIZEOF_MM_ALLOCNODE cfg32dbg + 2 * MM_PTR_SIZE cfg32dbg) = 32 ∧
    MM_MIN_CHUNK cfg32dbg ≠
      MM_ALIGN_UP cfg32dbg (SIZEOF_MM_ALLOCNODE cfg32dbg + 2 * MM_PTR_SIZE cfg32dbg) := by
  decide

/-- C7 (amended): in every configuration the header provides for, `MM_MIN_CHUNK` is the
free-node size (the two size fields plus two pointers, without the diagnostic fields)
rounded up to the granularity; with diagnostics disabled this is
`MM_ALIGN_UP(SIZEOF_MM_ALLOCNODE + 2*MM_PTR_SIZE)`. -/
theorem min_chunk_is_aligned_freenode (cfg : Config) (h : cfg.selected = true) :
    MM_MIN_CHUNK cfg = MM_ALIGN_UP cfg (SIZEOF_MM_FREENODE cfg) ∧
    MM_MIN_CHUNK cfg = MM_ALIGN_UP cfg (2 * sizeof_mmsize_t cfg + 2 * MM_PTR_SIZE cfg) ∧
    (cfg.CONFIG_DEBUG_MM_HEAPINFO = false →
      MM_MIN_CHUNK cfg = MM_ALIGN_UP cfg (SIZEOF_MM_ALLOCNODE cfg + 2 * MM_PTR_SIZE cfg)) := by
  have key : MM_MIN_CHUNK cfg = MM_ALIGN_UP cfg (2 * sizeof_mmsize_t cfg + 2 * MM_PTR_SIZE cfg) := by
    obtain ⟨sm, ms, ll, dbg, up, st, pid⟩ := cfg
    cases sm <;> cases ms <;> cases ll <;> cases up <;> cases st <;>
      simp [Config.selected, Config.mmSmall] at h <;>
      simp [sizeof_mmsize_t, MM_PTR_SIZE, MM_MIN_CHUNK, MM_MIN_SHIFT, Config.mmSmall,
        Config.ptrLe32, Width.bytes, Width.bits, MM_ALIGN_UP, MM_GRAN_MASK, arithBits,
        INT_BITS, bitNot] <;> rfl
  refine ⟨by rw [freenode_size_eq]; exact key, key, ?_⟩
  intro hd
  have : SIZEOF_MM_ALLOCNODE cfg + 2 * MM_PTR_SIZE cfg = SIZEOF_MM_FREENODE cfg := by
    simp [SIZEOF_MM_FREENODE, hd]
  rw [this, freenode_size_eq]
  exact key

/-- C7 (amended) at concrete inputs: the 32-bit build without and with diagnostics. -/
theorem min_chunk_is_aligned_freenode_witness :
    MM_MIN_CHUNK cfg32 = MM_ALIGN_UP cfg32 (SIZEOF_MM_ALLOCNODE cfg32 + 2 * MM_PTR_SIZE cfg32) ∧
    MM_MIN_CHUNK cfg32dbg = MM_ALIGN_UP cfg32dbg (SIZEOF_MM_FREENODE cfg32dbg) :=
  ⟨(min_chunk_is_aligned_freenode cfg32 (by decide)).2.2 (by decide),
   (min_chunk_is_aligned_freenode cfg32dbg (by decide)).1⟩

/-! ### Packed header fields -/

theorem MM_ALLOC_BIT_pow (cfg : Config) :
    MM_ALLOC_BIT cfg = 2 ^ (if cfg.mmSmall then 15 else 31) := by
  unfold MM_ALLOC_BIT
  split <;> rfl

theorem MMSIZE_MAX_pow (cfg : Config) : MMSIZE_MAX cfg = 2 ^ mmsizeBits cfg - 1 := by
  unfold MMSIZE_MAX mmsizeBits SIZE_MAX
  split <;> rfl

/-- The flag bit lies inside an `mmsize_t`: `MM_ALLOC_BIT = 2 ^ k` with `k` below the
width of the field. -/
theorem flag_in_field (cfg : Config) (hk : MM_ALLOC_BIT cfg ≤ MMSIZE_MAX cfg) :
    ∃ k, MM_ALLOC_BIT cfg = 2 ^ k ∧ k < mmsizeBits cfg := by
  refine ⟨_, MM_ALLOC_BIT_pow cfg, ?_⟩
  rw [MM_ALLOC_BIT_pow, MMSIZE_MAX_pow] at hk
  have hpos : 0 < 2 ^ mmsizeBits cfg := Nat.pow_pos (by decide)
  have hlt : 2 ^ (if cfg.mmSmall then 15 else 31) < 2 ^ mmsizeBits cfg := by omega
  exact (Nat.pow_lt_pow_iff_right (by decide)).1 hlt

theorem and_bit_ne_zero (p k : Nat) : ((p &&& 2 ^ k) != 0) = p.testBit k := by
  rw [Nat.and_two_pow]
  have hpos : 0 < 2 ^ k := Nat.pow_pos (by decide)
  cases p.testBit k <;> simp

theorem testBit_bitNot (w k i : Nat) (hk : k < w) :
    (bitNot w (2 ^ k)).testBit i = (decide (i < w) && !decide (k = i)) := by
  have hlt : 2 ^ k < 2 ^ w := Nat.pow_lt_pow_right (by decide) hk
  have e : bitNot w (2 ^ k) = 2 ^ w - (2 ^ k + 1) := by unfold bitNot; omega
  rw [e, Nat.testBit_two_pow_sub_succ hlt, Nat.testBit_two_pow]

theorem testBit_of_lt_pow {v k i : Nat} (hv : v < 2 ^ k) (hi : k ≤ i) : v.testBit i = false :=
  Nat.testBit_lt_two_pow (lt_of_lt_of_le hv (Nat.pow_le_pow_right (by decide) hi))

theorem flag_or_bit (p k w : Nat) (hk : k < w) : ((p ||| 2 ^ k) % 2 ^ w).testBit k = true := by
  simp [Nat.testBit_mod_two_pow, Nat.testBit_or, hk]

theorem flag_and_mask (p k w : Nat) (hk : k < w) :
    (p &&& bitNot w (2 ^ k)).testBit k = false := by
  simp [Nat.testBit_and, testBit_bitNot w k k hk]

theorem mask_or_bit (p k w : Nat) (hk : k < w) :
    ((p ||| 2 ^ k) % 2 ^ w) &&& bitNot w (2 ^ k) = p &&& bitNot w (2 ^ k) := by
  apply Nat.eq_of_testBit_eq
  intro i
  simp only [Nat.testBit_and, Nat.testBit_mod_two_pow, Nat.testBit_or, testBit_bitNot w k i hk,
    Nat.testBit_two_pow]
  by_cases h1 : i < w <;> by_cases h2 : k = i <;> simp [h1, h2]

theorem mask_of_lt (v k w : Nat) (hv : v < 2 ^ k) (hk : k < w) :
    v &&& bitNot w (2 ^ k) = v := by
  apply Nat.eq_of_testBit_eq
  intro i
  simp only [Nat.testBit_and, testBit_bitNot w k i hk]
  by_cases h1 : k ≤ i
  · simp [testBit_of_lt_pow hv h1]
  · have h2 : i < w := by omega
    have h3 : ¬ k = i := by omega
    simp [h2, h3]

theorem flag_keep (v q k w : Nat) (hv : v < 2 ^ k) (hk : k < w) :
    ((v ||| (q &&& 2 ^ k)) % 2 ^ w).testBit k = q.testBit k := by
  simp [Nat.testBit_mod_two_pow, Nat.testBit_or, Nat.testBit_and, hk,
    testBit_of_lt_pow hv (le_refl k)]

theorem mask_keep (v q k w : Nat) (hv : v < 2 ^ k) (hk : k < w) :
    ((v ||| (q &&& 2 ^ k)) % 2 ^ w) &&& bitNot w (2 ^ k) = v := by
  apply Nat.eq_of_testBit_eq
  intro i
  simp only [Nat.testBit_and, Nat.testBit_mod_two_pow, Nat.testBit_or, testBit_bitNot w k i hk,
    Nat.testBit_two_pow]
  by_cases h1 : k ≤ i
  · rw [testBit_of_lt_pow hv h1]
    by_cases h2 : k = i <;> simp [h2]
  · have h2 : i < w := by omega
    have h3 : ¬ k = i := by omega
    simp [h2, h3]

theorem lt_field {cfg : Config} {v : Nat} (hk : MM_ALLOC_BIT cfg ≤ MMSIZE_MAX cfg)
    (hv : v < MM_ALLOC_BIT cfg) : v < 2 ^ mmsizeBits cfg := by
  rw [MMSIZE_MAX_pow] at hk
  omega

/-- A size below the flag bit is stored unchanged in an `mmsize_t`. -/
theorem to_mmsize_t_of_lt {cfg : Config} {v : Nat} (hk : MM_ALLOC_BIT cfg ≤ MMSIZE_MAX cfg)
    (hv : v < MM_ALLOC_BIT cfg) : to_mmsize_t cfg v = v :=
  Nat.mod_eq_of_lt (lt_field hk hv)

theorem allocated_eq_testBit (cfg : Config) (n : mm_allocnode_s) (k : Nat)
    (hK : MM_ALLOC_BIT cfg = 2 ^ k) : n.allocated cfg = n.preceding.testBit k := by
  unfold mm_allocnode_s.allocated
  rw [hK, and_bit_ne_zero]

theorem allocated_markAllocated {cfg : Config} (hk : MM_ALLOC_BIT cfg ≤ MMSIZE_MAX cfg)
    (n : mm_allocnode_s) : (n.markAllocated cfg).allocated cfg = true := by
  obtain ⟨k, hK, hkw⟩ := flag_in_field cfg hk
  rw [allocated_eq_testBit cfg _ k hK]
  simp only [mm_allocnode_s.markAllocated, to_mmsize_t, hK]
  exact flag_or_bit _ k _ hkw

theorem precedingSize_markAllocated {cfg : Config} (hk : MM_ALLOC_BIT cfg ≤ MMSIZE_MAX cfg)
    (n : mm_allocnode_s) : (n.markAllocated cfg).precedingSize cfg = n.precedingSize cfg := by
  obtain ⟨k, hK, hkw⟩ := flag_in_field cfg hk
  simp only [mm_allocnode_s.precedingSize, mm_allocnode_s.markAllocated, to_mmsize_t, hK]
  exact mask_or_bit _ k _ hkw

theorem allocated_markFree {cfg : Config} (hk : MM_ALLOC_BIT cfg ≤ MMSIZE_MAX cfg)
    (n : mm_allocnode_s) : (n.markFree cfg).allocated cfg = false := by
  obtain ⟨k, hK, hkw⟩ := flag_in_field cfg hk
  rw [allocated_eq_testBit cfg _ k hK]
  simp only [mm_allocnode_s.markFree, hK]
  exact flag_and_mask _ k _ hkw

theorem precedingSize_markFree (cfg : Config) (n : mm_allocnode_s) :
    (n.markFree cfg).precedingSize cfg = n.precedingSize cfg := by
  simp only [mm_allocnode_s.precedingSize, mm_allocnode_s.markFree, Nat.and_assoc, Nat.and_self]

theorem allocated_withPreceding {cfg : Config} (hk : MM_ALLOC_BIT cfg ≤ MMSIZE_MAX cfg)
    (n : mm_allocnode_s) {v : Nat} (hv : v < MM_ALLOC_BIT cfg) :
    (n.withPreceding cfg v).allocated cfg = n.allocated cfg := by
  obtain ⟨k, hK, hkw⟩ := flag_in_field cfg hk
  rw [allocated_eq_testBit cfg _ k hK, allocated_eq_testBit cfg _ k hK]
  simp only [mm_allocnode_s.withPreceding, to_mmsize_t, hK]
  exact flag_keep v _ k _ (hK ▸ hv) hkw

theorem precedingSize_withPreceding {cfg : Config} (hk : MM_ALLOC_BIT cfg ≤ MMSIZE_MAX cfg)
    (n : mm_allocnode_s) {v : Nat} (hv : v < MM_ALLOC_BIT cfg) :
    (n.withPreceding cfg v).precedingSize cfg = v := by
  obtain ⟨k, hK, hkw⟩ := flag_in_field cfg hk
  simp only [mm_allocnode_s.precedingSize, mm_allocnode_s.withPreceding, to_mmsize_t, hK]
  exact mask_keep v _ k _ (hK ▸ hv) hkw

theorem allocated_freeNode {cfg : Config} (hk : MM_ALLOC_BIT cfg ≤ MMSIZE_MAX cfg)
    (s : Nat) {v : Nat} (hv : v < MM_ALLOC_BIT cfg) : (freeNode cfg s v).allocated cfg = false := by
  obtain ⟨k, hK, hkw⟩ := flag_in_field cfg hk
  rw [allocated_eq_testBit cfg _ k hK]
  simp only [freeNode, to_mmsize_t_of_lt hk hv]
  exact testBit_of_lt_pow (hK ▸ hv) (le_refl k)

theorem precedingSize_freeNode {cfg : Config} (hk : MM_ALLOC_BIT cfg ≤ MMSIZE_MAX cfg)
    (s : Nat) {v : Nat} (hv : v < MM_ALLOC_BIT cfg) :
    (freeNode cfg s v).precedingSize cfg = v := by
  obtain ⟨k, hK, hkw⟩ := flag_in_field cfg hk
  simp only [mm_allocnode_s.precedingSize, freeNode, to_mmsize_t_of_lt hk hv, hK]
  exact mask_of_lt v k _ (hK ▸ hv) hkw

theorem size_freeNode {cfg : Config} (hk : MM_ALLOC_BIT cfg ≤ MMSIZE_MAX cfg)
    {s : Nat} (hs : s < MM_ALLOC_BIT cfg) (v : Nat) : (freeNode cfg s v).size = s :=
  to_mmsize_t_of_lt hk hs

theorem size_withSize {cfg : Config} (hk : MM_ALLOC_BIT cfg ≤ MMSIZE_MAX cfg)
    (n : mm_allocnode_s) {s : Nat} (hs : s < MM_ALLOC_BIT cfg) : (n.withSize cfg s).size = s :=
  to_mmsize_t_of_lt hk hs

theorem allocated_withSize (cfg : Config) (n : mm_allocnode_s) (s : Nat) :
    (n.withSize cfg s).allocated cfg = n.allocated cfg := rfl

theorem precedingSize_withSize (cfg : Config) (n : mm_allocnode_s) (s : Nat) :
    (n.withSize cfg s).precedingSize cfg = n.precedingSize cfg := rfl

theorem size_markAllocated (cfg : Config) (n : mm_allocnode_s) :
    (n.markAllocated cfg).size = n.size := rfl

theorem size_markFree (cfg : Config) (n : mm_allocnode_s) : (n.markFree cfg).size = n.size := rfl

theorem size_withPreceding (cfg : Config) (n : mm_allocnode_s) (v : Nat) :
    (n.withPreceding cfg v).size = n.size := rfl

theorem allocated_headSentinel {cfg : Config} (hk : MM_ALLOC_BIT cfg ≤ MMSIZE_MAX cfg) :
    (headSentinel cfg).allocated cfg = true := by
  have := allocated_markAllocated hk ⟨0, 0⟩
  simpa [mm_allocnode_s.markAllocated, headSentinel] using this

theorem allocated_endNode {cfg : Config} (hk : MM_ALLOC_BIT cfg ≤ MMSIZE_MAX cfg) (tail : Nat) :
    (endNode cfg tail).allocated cfg = true :=
  allocated_markAllocated hk ⟨0, tail⟩

theorem precedingSize_endNode {cfg : Config} (hk : MM_ALLOC_BIT cfg ≤ MMSIZE_MAX cfg)
    {tail : Nat} (ht : tail < MM_ALLOC_BIT cfg) : (endNode cfg tail).precedingSize cfg = tail := by
  obtain ⟨k, hK, hkw⟩ := flag_in_field cfg hk
  have h1 := precedingSize_markAllocated hk ⟨0, tail⟩
  have h2 : (⟨0, tail⟩ : mm_allocnode_s).precedingSize cfg = tail := by
    simp only [mm_allocnode_s.precedingSize, hK]
    exact mask_of_lt tail k _ (hK ▸ ht) hkw
  rw [h2] at h1
  exact h1

theorem size_endNode (cfg : Config) (tail : Nat) : (endNode cfg tail).size = 0 := rfl

theorem size_headSentinel (cfg : Config) : (headSentinel cfg).size = 0 := rfl

/-- With the default chunk header on a 32- or 64-bit target, the flag test of the engine
agrees with the macro `MM_IS_ALLOCATED` of the header (line 195) on every value of the
`preceding` field. -/
theorem allocated_iff_MM_IS_ALLOCATED (cfg : Config) (n : mm_allocnode_s)
    (hs : cfg.mmSmall = false) (hsel : cfg.selected = true)
    (hp : n.preceding < 2 ^ mmsizeBits cfg) :
    n.allocated cfg = true ↔ MM_IS_ALLOCATED cfg n.preceding = true := by
  rw [MM_IS_ALLOCATED_default cfg n.preceding hs hsel hp]
  simp [mm_allocnode_s.allocated]

/-! ### Byte conservation -/

theorem sizeSum_nil : sizeSum [] = 0 := rfl

theorem sizeSum_cons (x : mm_allocnode_s) (l : List mm_allocnode_s) :
    sizeSum (x :: l) = x.size + sizeSum l := by
  simp [sizeSum]

theorem sizeSum_append (l m : List mm_allocnode_s) :
    sizeSum (l ++ m) = sizeSum l + sizeSum m := by
  simp [sizeSum]

theorem locate_eq_append {l : List mm_allocnode_s} {base target : Nat}
    {pre : List mm_allocnode_s} {c : mm_allocnode_s} {post : List mm_allocnode_s}
    (h : locate l base target = some (pre, c, post)) :
    l = pre ++ c :: post := by
  induction l generalizing base pre with
  | nil => simp [locate] at h
  | cons x rest ih =>
    unfold locate at h
    split at h
    · simp only [Option.some.injEq, Prod.mk.injEq] at h
      obtain ⟨rfl, rfl, rfl⟩ := h
      rfl
    · cases hr : locate rest (base + x.size) target with
      | none => simp [hr] at h
      | some r =>
        obtain ⟨p, d, q⟩ := r
        simp only [hr, Option.map_some', Option.some.injEq, Prod.mk.injEq] at h
        obtain ⟨rfl, rfl, rfl⟩ := h
        rw [ih hr]
        rfl

theorem setFollowing_sizes (cfg : Config) (post : List mm_allocnode_s) (tail v : Nat) :
    sizeSum (setFollowing cfg post tail v).1 = sizeSum post := by
  cases post <;> simp [setFollowing, sizeSum_cons, size_withPreceding]

theorem fits_size {cfg : Config} {h : Heap} {need addr : Nat} {pre : List mm_allocnode_s}
    {c : mm_allocnode_s} {post : List mm_allocnode_s} (hf : fits cfg h need addr = true)
    (hl : locate h.chunks (SIZEOF_MM_ALLOCNODE cfg) addr = some (pre, c, post)) :
    need ≤ c.size := by
  simpa [fits, chunkAt, hl] using hf

theorem takeChunk_sizes (cfg : Config) (h : Heap) (addr need : Nat)
    (pre : List mm_allocnode_s) (c : mm_allocnode_s) (post : List mm_allocnode_s)
    (hk : MM_ALLOC_BIT cfg ≤ MMSIZE_MAX cfg) (hb : sizeSum h.chunks < MM_ALLOC_BIT cfg)
    (hch : h.chunks = pre ++ c :: post) (hfit : need ≤ c.size) :
    sizeSum (takeChunk cfg h addr need pre c post).chunks = sizeSum h.chunks ∧
    (takeChunk cfg h addr need pre c post).mm_heapsize = h.mm_heapsize := by
  rw [hch, sizeSum_append, sizeSum_cons] at hb
  unfold takeChunk
  split
  · refine ⟨?_, rfl⟩
    simp only [hch, sizeSum_append, sizeSum_cons, setFollowing_sizes, size_markAllocated]
    rw [size_withSize hk c (by omega), size_freeNode hk (by omega)]
    omega
  · refine ⟨?_, rfl⟩
    simp only [hch, sizeSum_append, sizeSum_cons, size_markAllocated]

theorem mm_malloc_sizes (cfg : Config) (h : Heap) (size : Nat)
    (hk : MM_ALLOC_BIT cfg ≤ MMSIZE_MAX cfg) (hb : sizeSum h.chunks < MM_ALLOC_BIT cfg) :
    sizeSum (mm_malloc cfg h size).2.chunks = sizeSum h.chunks ∧
    (mm_malloc cfg h size).2.mm_heapsize = h.mm_heapsize := by
  unfold mm_malloc
  split
  · exact ⟨rfl, rfl⟩
  split
  · exact ⟨rfl, rfl⟩
  split
  · exact ⟨rfl, rfl⟩
  rename_i addr hfind
  split
  · exact ⟨rfl, rfl⟩
  rename_i pre c post hl
  exact takeChunk_sizes cfg h addr _ pre c post hk hb (locate_eq_append hl)
    (fits_size (List.find?_some hfind) hl)

theorem mergeNext_sizes (cfg : Config) (lists : List (List Nat)) (addr size : Nat)
    (post : List mm_allocnode_s) (tail : Nat) :
    (mergeNext cfg lists addr size post tail).1 +
      sizeSum (mergeNext cfg lists addr size post tail).2.1 =
    size + sizeSum post := by
  unfold mergeNext
  split
  · rfl
  · split
    · rfl
    · simp only [setFollowing_sizes, sizeSum_cons]
      omega

theorem releaseChunk_sizes (cfg : Config) (h : Heap) (addr : Nat) (pre : List mm_allocnode_s)
    (c : mm_allocnode_s) (post : List mm_allocnode_s)
    (hk : MM_ALLOC_BIT cfg ≤ MMSIZE_MAX cfg) (hb : sizeSum h.chunks < MM_ALLOC_BIT cfg)
    (hch : h.chunks = pre ++ c :: post) :
    sizeSum (releaseChunk cfg h addr pre c post).chunks = sizeSum h.chunks ∧
    (releaseChunk cfg h addr pre c post).mm_heapsize = h.mm_heapsize := by
  have hm := mergeNext_sizes cfg h.mm_nodelist addr c.size post h.tail_preceding
  rw [hch, sizeSum_append, sizeSum_cons] at hb
  unfold releaseChunk
  split
  rename_i size1 post1 tail1 lists1 hmn
  rw [hmn] at hm
  simp only at hm
  split
  · rename_i hlast
    rw [List.getLast?_eq_none_iff] at hlast
    refine ⟨?_, rfl⟩
    simp only [hch, hlast, List.nil_append, sizeSum_cons]
    rw [size_withSize hk _ (by omega)]
    omega
  · rename_i p hlast
    have hpre := List.dropLast_append_getLast? p hlast
    have e : sizeSum pre = sizeSum pre.dropLast + p.size := by
      conv_lhs => rw [← hpre]
      simp [sizeSum_append, sizeSum_cons, sizeSum_nil]
    split
    · refine ⟨?_, rfl⟩
      simp only [hch, sizeSum_append, sizeSum_cons]
      rw [size_withSize hk _ (by omega)]
      omega
    · refine ⟨?_, rfl⟩
      simp only [hch, sizeSum_append, sizeSum_cons, setFollowing_sizes]
      rw [size_withSize hk _ (by omega)]
      omega

theorem mm_free_sizes (cfg : Config) (h h' : Heap) (mem : Nat)
    (hk : MM_ALLOC_BIT cfg ≤ MMSIZE_MAX cfg) (hb : sizeSum h.chunks < MM_ALLOC_BIT cfg)
    (hf : mm_free cfg h mem = some h') :
    sizeSum h'.chunks = sizeSum h.chunks ∧ h'.mm_heapsize = h.mm_heapsize := by
  unfold mm_free at hf
  split at hf
  · simp at hf
  rename_i pre c post hl
  split at hf
  · simp at hf
  simp only [Option.some.injEq] at hf
  subst hf
  exact releaseChunk_sizes cfg h _ pre c post hk hb (locate_eq_append hl)

theorem step_sizes (cfg : Config) (h h' : Heap) (op : Op)
    (hk : MM_ALLOC_BIT cfg ≤ MMSIZE_MAX cfg) (hb : sizeSum h.chunks < MM_ALLOC_BIT cfg)
    (hs : step cfg h op = some h') :
    sizeSum h'.chunks = sizeSum h.chunks ∧ h'.mm_heapsize = h.mm_heapsize := by
  cases op with
  | malloc size =>
    simp only [step, Option.some.injEq] at hs
    subst hs
    exact mm_malloc_sizes cfg h size hk hb
  | free mem => exact mm_free_sizes cfg h h' mem hk hb hs

theorem mm_initialize_sizes (cfg : Config) (heap_size : Nat) (h0 : Heap)
    (hk : MM_ALLOC_BIT cfg ≤ MMSIZE_MAX cfg)
    (hfit : heap_size - sentinelOverhead cfg < MM_ALLOC_BIT cfg)
    (hinit : mm_initialize cfg heap_size = some h0) :
    sizeSum h0.chunks + sentinelOverhead cfg = heap_size ∧ h0.mm_heapsize = heap_size := by
  unfold mm_initialize mm_addregion at hinit
  split at hinit
  · simp at hinit
  · simp only [Option.some.injEq] at hinit
    subst hinit
    simp only [sizeSum_cons, sizeSum_nil, size_freeNode hk hfit]
    omega

theorem chain_snoc_replace {R : mm_allocnode_s → mm_allocnode_s → Prop}
    {X : List mm_allocnode_s} {a a' : mm_allocnode_s}
    (h : List.Chain' R (X ++ [a])) (hr : ∀ x, R x a → R x a') : List.Chain' R (X ++ [a']) := by
  rw [List.chain'_append] at h ⊢
  refine ⟨h.1, List.chain'_singleton _, ?_⟩
  intro x hx y hy
  simp only [List.head?_cons, Option.mem_def, Option.some.injEq] at hy
  subst hy
  exact hr x (h.2.2 x hx a (by simp))

theorem chain_cons_replace {R : mm_allocnode_s → mm_allocnode_s → Prop}
    {Y : List mm_allocnode_s} {a a' : mm_allocnode_s}
    (h : List.Chain' R (a :: Y)) (hr : ∀ y, R a y → R a' y) : List.Chain' R (a' :: Y) := by
  rw [List.chain'_cons'] at h ⊢
  exact ⟨fun y hy => hr y (h.1 y hy), h.2⟩

theorem cons_mid (a b : mm_allocnode_s) (X Y Z : List mm_allocnode_s) :
    a :: (X ++ b :: Y ++ Z) = (a :: X) ++ b :: (Y ++ Z) := by simp

theorem snoc_two (a p n : mm_allocnode_s) (X : List mm_allocnode_s) :
    a :: (X ++ [p]) ++ [n] = (a :: X) ++ p :: [n] := by simp

theorem physical_eq (cfg : Config) (h : Heap) :
    physical cfg h = headSentinel cfg :: (h.chunks ++ [endNode cfg h.tail_preceding]) := rfl

/-- Effect of storing the size of `x'` in the header that follows a free chunk `x`. -/
theorem chain_setFollowing (cfg : Config) (x x' : mm_allocnode_s) (post : List mm_allocnode_s)
    (tail : Nat) (hk : MM_ALLOC_BIT cfg ≤ MMSIZE_MAX cfg)
    (hx : x.allocated cfg = false) (hx' : x'.size < MM_ALLOC_BIT cfg)
    (ht : List.Chain' (tagRel cfg) (x :: (post ++ [endNode cfg tail])))
    (ha : List.Chain' (adjRel cfg) (x :: (post ++ [endNode cfg tail]))) :
    List.Chain' (tagRel cfg) (x' :: ((setFollowing cfg post tail x'.size).1 ++
      [endNode cfg (setFollowing cfg post tail x'.size).2])) ∧
    List.Chain' (adjRel cfg) (x' :: ((setFollowing cfg post tail x'.size).1 ++
      [endNode cfg (setFollowing cfg post tail x'.size).2])) := by
  cases post with
  | nil =>
    simp only [setFollowing, List.nil_append, List.chain'_cons, List.chain'_singleton, and_true,
      tagRel, adjRel]
    exact ⟨precedingSize_endNode hk hx', Or.inr (allocated_endNode hk _)⟩
  | cons y ys =>
    simp only [List.cons_append, List.chain'_cons, tagRel, adjRel, hx] at ht ha
    have hy : y.allocated cfg = true := by
      rcases ha.1 with h1 | h1
      · simp at h1
      · exact h1
    simp only [setFollowing, List.cons_append, List.chain'_cons]
    refine ⟨⟨precedingSize_withPreceding hk y hx', chain_cons_replace ht.2 (fun z hz => hz)⟩,
      ⟨Or.inr ?_, chain_cons_replace ha.2 (fun z hz => ?_)⟩⟩
    · rw [allocated_withPreceding hk y hx']
      exact hy
    · exact Or.inl (by rw [allocated_withPreceding hk y hx']; exact hy)

/-- Size of the node after the forward coalescing step. -/
theorem mergeNext_fst (cfg : Config) (lists : List (List Nat)) (addr size : Nat)
    (post : List mm_allocnode_s) (tail : Nat) :
    (mergeNext cfg lists addr size post tail).1 = size + freeSize cfg post.head? := by
  unfold mergeNext
  split
  · rfl
  · rename_i n rest
    cases hn : n.allocated cfg <;> simp [freeSize, hn]

/-- Effect of the forward coalescing step on the headers after the freed chunk `c`: any
free header `m` of the size of the node is followed by correct tags. -/
theorem mergeNext_right (cfg : Config) (lists : List (List Nat)) (addr : Nat)
    (c m : mm_allocnode_s) (post : List mm_allocnode_s) (tail : Nat)
    (hk : MM_ALLOC_BIT cfg ≤ MMSIZE_MAX cfg)
    (hb : c.size + sizeSum post < MM_ALLOC_BIT cfg)
    (hm : m.size = (mergeNext cfg lists addr c.size post tail).1)
    (ht : List.Chain' (tagRel cfg) (c :: (post ++ [endNode cfg tail])))
    (ha : List.Chain' (adjRel cfg) (c :: (post ++ [endNode cfg tail]))) :
    List.Chain' (tagRel cfg) (m :: ((mergeNext cfg lists addr c.size post tail).2.1 ++
      [endNode cfg (mergeNext cfg lists addr c.size post tail).2.2.1])) ∧
    List.Chain' (adjRel cfg) (m :: ((mergeNext cfg lists addr c.size post tail).2.1 ++
      [endNode cfg (mergeNext cfg lists addr c.size post tail).2.2.1])) := by
  cases post with
  | nil =>
    simp only [mergeNext] at hm
    simp only [List.nil_append, List.chain'_cons, List.chain'_singleton, and_true, tagRel,
      adjRel] at ht ha
    simp only [mergeNext, List.nil_append, List.chain'_cons, List.chain'_singleton, and_true,
      tagRel, adjRel]
    exact ⟨by rw [hm]; exact ht, Or.inr (allocated_endNode hk _)⟩
  | cons n rest =>
    by_cases hn : n.allocated cfg = true
    · simp only [mergeNext, hn, if_true] at hm
      simp only [List.cons_append, List.chain'_cons, tagRel, adjRel] at ht ha
      simp only [mergeNext, hn, if_true, List.cons_append, List.chain'_cons]
      exact ⟨⟨show n.precedingSize cfg = m.size by rw [hm]; exact ht.1, ht.2⟩,
        ⟨Or.inr hn, ha.2⟩⟩
    · have hn' : n.allocated cfg = false := by simpa using hn
      simp only [mergeNext, hn', Bool.false_eq_true, if_false] at hm
      simp only [sizeSum_cons] at hb
      simp only [List.cons_append] at ht ha
      rw [List.chain'_cons] at ht ha
      have hR := chain_setFollowing cfg n m rest tail hk hn' (by omega) ht.2 ha.2
      simp only [mergeNext, hn', Bool.false_eq_true, if_false]
      rw [← hm]
      exact hR

/-- The three ways `releaseChunk` rebuilds the chunk list around the freed chunk. -/
theorem releaseChunk_tags_adj (cfg : Config) (h : Heap) (addr : Nat) (pre : List mm_allocnode_s)
    (c' : mm_allocnode_s) (post : List mm_allocnode_s)
    (hk : MM_ALLOC_BIT cfg ≤ MMSIZE_MAX cfg) (hb : sizeSum h.chunks < MM_ALLOC_BIT cfg)
    (htags : BoundaryTags cfg h) (hadj : NoAdjacentFree cfg h)
    (hch : h.chunks = pre ++ c' :: post) :
    BoundaryTags cfg (releaseChunk cfg h addr pre c' post) ∧
    NoAdjacentFree cfg (releaseChunk cfg h addr pre c' post) ∧
    ∃ pre' m post', (releaseChunk cfg h addr pre c' post).chunks = pre' ++ m :: post' ∧
      m.allocated cfg = false ∧
      m.size = freeSize cfg pre.getLast? + c'.size + freeSize cfg post.head? ∧
      sizeSum pre' + freeSize cfg pre.getLast? = sizeSum pre := by
  unfold BoundaryTags at htags
  unfold NoAdjacentFree at hadj
  rw [physical_eq, hch] at htags hadj
  rw [hch, sizeSum_append, sizeSum_cons] at hb
  have e1 : headSentinel cfg :: (pre ++ c' :: post ++ [endNode cfg h.tail_preceding]) =
      (headSentinel cfg :: pre) ++ c' :: (post ++ [endNode cfg h.tail_preceding]) := by simp
  rw [e1, List.chain'_split] at htags hadj
  have hfst := mergeNext_fst cfg h.mm_nodelist addr c'.size post h.tail_preceding
  have hle : freeSize cfg post.head? ≤ sizeSum post := by
    cases post with
    | nil => simp [freeSize]
    | cons n rest =>
      simp only [List.head?_cons, freeSize, sizeSum_cons]
      split <;> omega
  have hF := fun m hm => mergeNext_right cfg h.mm_nodelist addr c' m post
    h.tail_preceding hk (by omega) hm htags.2 hadj.2
  unfold releaseChunk
  generalize mergeNext cfg h.mm_nodelist addr c'.size post
    h.tail_preceding = M at hF hfst
  obtain ⟨size1, post1, tail1, lists1⟩ := M
  simp only at hF hfst ⊢
  have hs1 : size1 < MM_ALLOC_BIT cfg := by omega
  have hm0 : ((c'.markFree cfg).withSize cfg size1).size = size1 := size_withSize hk _ hs1
  cases hlast : pre.getLast? with
  | none =>
    rw [List.getLast?_eq_none_iff] at hlast
    subst hlast
    have hF0 := hF _ hm0
    refine ⟨?_, ?_, [], _, post1, rfl, ?_, ?_, ?_⟩
    · unfold BoundaryTags
      rw [physical_eq]
      simp only [List.cons_append, List.chain'_cons]
      refine ⟨?_, hF0.1⟩
      have := htags.1
      simp only [List.cons_append, List.nil_append, List.chain'_cons, tagRel] at this
      simp only [tagRel, precedingSize_withSize, precedingSize_markFree]
      exact this.1
    · unfold NoAdjacentFree
      rw [physical_eq]
      simp only [List.cons_append, List.chain'_cons]
      exact ⟨Or.inl (allocated_headSentinel hk), hF0.2⟩
    · rw [allocated_withSize]
      exact allocated_markFree hk _
    · rw [hm0, hfst]
      simp [freeSize]
    · simp [freeSize, sizeSum_nil]
  | some p =>
    have hpre := List.dropLast_append_getLast? p hlast
    generalize pre.dropLast = pre' at hpre
    subst hpre
    have e2 : headSentinel cfg :: (pre' ++ [p]) ++ [c'] =
        (headSentinel cfg :: pre') ++ p :: [c'] := by
      simp
    rw [e2, List.chain'_split] at htags hadj
    simp only [sizeSum_append, sizeSum_cons, sizeSum_nil] at hb
    by_cases hp : p.allocated cfg = true
    · simp only [hp, if_true]
      have hF0 := hF _ hm0
      refine ⟨?_, ?_, pre' ++ [p], _, post1, rfl, ?_, ?_, ?_⟩
      · unfold BoundaryTags
        rw [physical_eq, cons_mid, List.chain'_split, snoc_two, List.chain'_split]
        refine ⟨⟨htags.1.1, ?_⟩, hF0.1⟩
        have := htags.1.2
        simp only [List.chain'_cons, List.chain'_singleton, and_true, tagRel] at this ⊢
        simp only [precedingSize_withSize, precedingSize_markFree]
        exact this
      · unfold NoAdjacentFree
        rw [physical_eq, cons_mid, List.chain'_split, snoc_two, List.chain'_split]
        refine ⟨⟨hadj.1.1, ?_⟩, hF0.2⟩
        simp only [List.chain'_cons, List.chain'_singleton, and_true, adjRel]
        exact Or.inl hp
      · rw [allocated_withSize]
        exact allocated_markFree hk _
      · rw [hm0, hfst]
        simp [freeSize, hp]
      · simp [freeSize, hp]
    · have hp' : p.allocated cfg = false := by simpa using hp
      simp only [hp', Bool.false_eq_true, if_false]
      have hF0 := hF _ hm0
      have hps : p.size + size1 < MM_ALLOC_BIT cfg := by omega
      have hmsz : (p.withSize cfg (p.size + size1)).size = p.size + size1 :=
        size_withSize hk _ hps
      have hR := chain_setFollowing cfg _ (p.withSize cfg (p.size + size1)) post1 tail1 hk
        (by rw [allocated_withSize]; exact allocated_markFree hk _) (by rw [hmsz]; exact hps)
        hF0.1 hF0.2
      rw [hmsz] at hR
      refine ⟨?_, ?_, pre', p.withSize cfg (p.size + size1),
        (setFollowing cfg post1 tail1 (p.size + size1)).1, rfl, ?_, ?_, ?_⟩
      · unfold BoundaryTags
        rw [physical_eq, cons_mid, List.chain'_split]
        exact ⟨chain_snoc_replace htags.1.1 (fun x hx => hx), hR.1⟩
      · unfold NoAdjacentFree
        rw [physical_eq, cons_mid, List.chain'_split]
        refine ⟨chain_snoc_replace hadj.1.1 (fun x hx => ?_), hR.2⟩
        simpa [adjRel, hp', allocated_withSize] using hx
      · rw [allocated_withSize]
        exact hp'
      · rw [hmsz, hfst]
        simp only [freeSize, hp', Bool.false_eq_true, if_false]
        omega
      · simp [freeSize, hp', sizeSum_append, sizeSum_cons, sizeSum_nil]

theorem chunkAt_mem {cfg : Config} {h : Heap} {addr : Nat} {c : mm_allocnode_s}
    (hc : chunkAt cfg h addr = some c) : c ∈ h.chunks := by
  unfold chunkAt at hc
  cases hl : locate h.chunks (SIZEOF_MM_ALLOCNODE cfg) addr with
  | none => simp [hl] at hc
  | some r =>
    obtain ⟨pre, c', post⟩ := r
    simp only [hl, Option.map_some', Option.some.injEq] at hc
    subst hc
    rw [locate_eq_append hl]
    simp

theorem le_foldr_max (l : List Nat) (x : Nat) (hx : x ∈ l) : x ≤ l.foldr max 0 := by
  induction l with
  | nil => simp at hx
  | cons y ys ih =>
    simp only [List.foldr_cons]
    rcases List.mem_cons.1 hx with rfl | h
    · exact le_max_left _ _
    · exact le_trans (ih h) (le_max_right _ _)

theorem le_largestFree {cfg : Config} {h : Heap} {c : mm_allocnode_s} (hc : c ∈ h.chunks)
    (hf : c.allocated cfg = false) : c.size ≤ largestFree cfg h := by
  unfold largestFree
  apply le_foldr_max
  rw [List.mem_map]
  exact ⟨c, List.mem_filter.2 ⟨hc, by simp [hf]⟩, rfl⟩

theorem findFit_none_of_large (cfg : Config) (h : Heap) (need : Nat)
    (hsound : FreeListsSound cfg h) (hbig : largestFree cfg h < need) :
    findFit cfg h need = none := by
  unfold findFit
  rw [List.find?_eq_none]
  intro a ha hfit
  rw [List.mem_flatten] at ha
  obtain ⟨b, hb, hab⟩ := ha
  obtain ⟨c, hc, hfree⟩ := hsound b (List.mem_of_mem_drop hb) a hab
  have hle : need ≤ c.size := by simpa [fits, hc] using hfit
  have := le_largestFree (chunkAt_mem hc) hfree
  omega

theorem mm_malloc_none_of_large (cfg : Config) (h : Heap) (size : Nat)
    (hsound : FreeListsSound cfg h)
    (hbig : size + SIZEOF_MM_ALLOCNODE cfg ≤ SIZE_MAX cfg - MM_GRAN_MASK cfg →
      largestFree cfg h < MM_ALIGN_UP cfg (size + SIZEOF_MM_ALLOCNODE cfg)) :
    mm_malloc cfg h size = (none, h) := by
  unfold mm_malloc
  split
  · rfl
  split
  · rfl
  · rename_i h1 h2
    rw [findFit_none_of_large cfg h _ hsound (hbig (by omega))]

theorem flagAt_nil (cfg : Config) (base t : Nat) : flagAt cfg [] base t = none := rfl

theorem flagAt_cons (cfg : Config) (x : mm_allocnode_s) (l : List mm_allocnode_s)
    (base t : Nat) :
    flagAt cfg (x :: l) base t =
      if base = t then some (x.allocated cfg) else flagAt cfg l (base + x.size) t := by
  unfold flagAt
  rw [locate]
  split
  · rfl
  · cases locate l (base + x.size) t <;> rfl

theorem flagAt_append (cfg : Config) (pre X : List mm_allocnode_s) (base t : Nat) :
    flagAt cfg (pre ++ X) base t =
      (flagAt cfg pre base t).or (flagAt cfg X (base + sizeSum pre) t) := by
  induction pre generalizing base with
  | nil => simp [flagAt_nil, sizeSum_nil]
  | cons x xs ih =>
    rw [List.cons_append, flagAt_cons, flagAt_cons, ih, sizeSum_cons]
    split
    · rfl
    · simp [Nat.add_assoc]

theorem flagAt_none_of_lt (cfg : Config) (l : List mm_allocnode_s) (base t : Nat)
    (h : base + sizeSum l < t) : flagAt cfg l base t = none := by
  induction l generalizing base with
  | nil => rfl
  | cons x xs ih =>
    simp only [sizeSum_cons] at h
    rw [flagAt_cons, if_neg (by omega)]
    exact ih _ (by omega)

theorem flagAt_none_of_le (cfg : Config) (l : List mm_allocnode_s) (base t : Nat)
    (hpos : ∀ c ∈ l, 0 < c.size) (h : base + sizeSum l ≤ t) : flagAt cfg l base t = none := by
  induction l generalizing base with
  | nil => rfl
  | cons x xs ih =>
    simp only [sizeSum_cons] at h
    have hx := hpos x (List.mem_cons_self _ _)
    rw [flagAt_cons, if_neg (by omega)]
    exact ih _ (fun c hc => hpos c (List.mem_cons_of_mem _ hc)) (by omega)

theorem flagAt_setFollowing (cfg : Config) (post : List mm_allocnode_s) (tail v base t : Nat)
    (hk : MM_ALLOC_BIT cfg ≤ MMSIZE_MAX cfg) (hv : v < MM_ALLOC_BIT cfg) :
    flagAt cfg (setFollowing cfg post tail v).1 base t = flagAt cfg post base t := by
  cases post with
  | nil => rfl
  | cons n rest =>
    simp only [setFollowing, flagAt_cons, allocated_withPreceding hk n hv, size_withPreceding]

theorem locate_target (cfg : Config) {l : List mm_allocnode_s} {base target : Nat}
    {pre : List mm_allocnode_s} {c : mm_allocnode_s} {post : List mm_allocnode_s}
    (h : locate l base target = some (pre, c, post)) :
    target = base + sizeSum pre ∧ flagAt cfg pre base target = none := by
  induction l generalizing base pre with
  | nil => simp [locate] at h
  | cons x rest ih =>
    unfold locate at h
    split at h
    · simp only [Option.some.injEq, Prod.mk.injEq] at h
      obtain ⟨rfl, rfl, rfl⟩ := h
      rename_i hb
      simp [hb, flagAt_nil, sizeSum_nil]
    · rename_i hb
      cases hr : locate rest (base + x.size) target with
      | none => simp [hr] at h
      | some r =>
        obtain ⟨p, d, q⟩ := r
        simp only [hr, Option.map_some', Option.some.injEq, Prod.mk.injEq] at h
        obtain ⟨rfl, rfl, rfl⟩ := h
        have := ih hr
        refine ⟨by simp only [sizeSum_cons]; omega, ?_⟩
        rw [flagAt_cons, if_neg hb]
        exact this.2

theorem chunkAt_flag {cfg : Config} {h : Heap} {a : Nat} :
    (∃ c, chunkAt cfg h a = some c ∧ c.allocated cfg = false) ↔
      flagAt cfg h.chunks (SIZEOF_MM_ALLOCNODE cfg) a = some false := by
  unfold chunkAt flagAt
  cases locate h.chunks (SIZEOF_MM_ALLOCNODE cfg) a with
  | none => simp
  | some r => simp

theorem sound_iff (cfg : Config) (h : Heap) :
    FreeListsSound cfg h ↔
      ∀ b ∈ h.mm_nodelist, ∀ a ∈ b,
        flagAt cfg h.chunks (SIZEOF_MM_ALLOCNODE cfg) a = some false := by
  unfold FreeListsSound
  constructor
  · intro hs b hb a ha
    exact chunkAt_flag.1 (hs b hb a ha)
  · intro hs b hb a ha
    exact chunkAt_flag.2 (hs b hb a ha)

theorem mem_unlink {lists : List (List Nat)} {x : Nat} {b : List Nat} {a : Nat}
    (hb : b ∈ unlink lists x) (ha : a ∈ b) : a ≠ x ∧ ∃ b' ∈ lists, a ∈ b' := by
  unfold unlink at hb
  rw [List.mem_map] at hb
  obtain ⟨b', hb', rfl⟩ := hb
  rw [List.mem_filter] at ha
  exact ⟨by simpa using ha.2, b', hb', ha.1⟩

theorem mem_addfreechunk {cfg : Config} {lists : List (List Nat)} {addr size : Nat}
    {b : List Nat} {a : Nat}
    (hb : b ∈ mm_addfreechunk cfg lists addr size) (ha : a ∈ b) :
    a = addr ∨ ∃ b' ∈ lists, a ∈ b' := by
  unfold mm_addfreechunk at hb
  rcases List.mem_or_eq_of_mem_set hb with h | h
  · exact Or.inr ⟨b, h, ha⟩
  · subst h
    rcases List.mem_cons.1 ha with h | h
    · exact Or.inl h
    · right
      by_cases hi : mm_size2ndx cfg size < lists.length
      · rw [List.getD_eq_getElem _ _ hi] at h
        exact ⟨_, List.getElem_mem _, h⟩
      · rw [List.getD_eq_default _ _ (by omega)] at h
        simp at h

theorem min_chunk_pos (cfg : Config) : 0 < MM_MIN_CHUNK cfg := by
  rw [min_chunk_eq]; exact Nat.pow_pos (by decide)

theorem takeChunk_tags_adj (cfg : Config) (h : Heap) (addr need : Nat)
    (pre : List mm_allocnode_s) (c : mm_allocnode_s) (post : List mm_allocnode_s)
    (hk : MM_ALLOC_BIT cfg ≤ MMSIZE_MAX cfg) (hb : sizeSum h.chunks < MM_ALLOC_BIT cfg)
    (htags : BoundaryTags cfg h) (hadj : NoAdjacentFree cfg h)
    (hch : h.chunks = pre ++ c :: post) (hfree : c.allocated cfg = false)
    (hfit : need ≤ c.size) :
    BoundaryTags cfg (takeChunk cfg h addr need pre c post) ∧
    NoAdjacentFree cfg (takeChunk cfg h addr need pre c post) := by
  unfold BoundaryTags at htags
  unfold NoAdjacentFree at hadj
  rw [physical_eq, hch, cons_mid, List.chain'_split] at htags hadj
  rw [hch, sizeSum_append, sizeSum_cons] at hb
  have hn : need < MM_ALLOC_BIT cfg := by omega
  have hr : c.size - need < MM_ALLOC_BIT cfg := by omega
  have hA : ((c.withSize cfg need).markAllocated cfg).allocated cfg = true :=
    allocated_markAllocated hk _
  have hB : (c.markAllocated cfg).allocated cfg = true := allocated_markAllocated hk _
  unfold takeChunk
  split
  · have hR := chain_setFollowing cfg c (freeNode cfg (c.size - need) need) post
      h.tail_preceding hk hfree (by rw [size_freeNode hk hr]; exact hr) htags.2 hadj.2
    rw [size_freeNode hk hr] at hR
    constructor
    · unfold BoundaryTags
      rw [physical_eq, cons_mid, List.chain'_split]
      refine ⟨chain_snoc_replace htags.1 (fun x hx => ?_), ?_⟩
      · simp only [tagRel, precedingSize_markAllocated hk, precedingSize_withSize] at hx ⊢
        exact hx
      · simp only [List.cons_append, List.chain'_cons]
        refine ⟨?_, hR.1⟩
        simp only [tagRel, precedingSize_freeNode hk _ hn, size_markAllocated,
          size_withSize hk c hn]
    · unfold NoAdjacentFree
      rw [physical_eq, cons_mid, List.chain'_split]
      refine ⟨chain_snoc_replace hadj.1 (fun x _ => Or.inr hA), ?_⟩
      simp only [List.cons_append, List.chain'_cons]
      exact ⟨Or.inl hA, hR.2⟩
  · constructor
    · unfold BoundaryTags
      rw [physical_eq, cons_mid, List.chain'_split]
      refine ⟨chain_snoc_replace htags.1 (fun x hx => ?_),
        chain_cons_replace htags.2 (fun y hy => hy)⟩
      simp only [tagRel, precedingSize_markAllocated hk] at hx ⊢
      exact hx
    · unfold NoAdjacentFree
      rw [physical_eq, cons_mid, List.chain'_split]
      exact ⟨chain_snoc_replace hadj.1 (fun x _ => Or.inr hB),
        chain_cons_replace hadj.2 (fun y _ => Or.inl hB)⟩

theorem takeChunk_sound (cfg : Config) (h : Heap) (addr need : Nat) (pre : List mm_allocnode_s)
    (c : mm_allocnode_s) (post : List mm_allocnode_s)
    (hk : MM_ALLOC_BIT cfg ≤ MMSIZE_MAX cfg) (hb : sizeSum h.chunks < MM_ALLOC_BIT cfg)
    (hs : FreeListsSound cfg h)
    (hl : locate h.chunks (SIZEOF_MM_ALLOCNODE cfg) addr = some (pre, c, post))
    (hneed : 0 < need) (hfit : need ≤ c.size) :
    FreeListsSound cfg (takeChunk cfg h addr need pre c post) := by
  have hch := locate_eq_append hl
  obtain ⟨haddr, hpre⟩ := locate_target cfg hl
  rw [hch, sizeSum_append, sizeSum_cons] at hb
  have hn : need < MM_ALLOC_BIT cfg := by omega
  have hr : c.size - need < MM_ALLOC_BIT cfg := by omega
  rw [sound_iff] at hs ⊢
  have hold : ∀ a, a ≠ addr →
      flagAt cfg h.chunks (SIZEOF_MM_ALLOCNODE cfg) a = some false →
      (flagAt cfg pre (SIZEOF_MM_ALLOCNODE cfg) a).or
        (flagAt cfg post (addr + c.size) a) = some false := by
    intro a hne hf
    rw [hch, flagAt_append, flagAt_cons, ← haddr, if_neg (Ne.symm hne)] at hf
    exact hf
  unfold takeChunk
  split
  · intro b hb' a ha
    simp only at hb' ⊢
    rw [flagAt_append, flagAt_cons, flagAt_cons, flagAt_setFollowing cfg _ _ _ _ _ hk hr,
      ← haddr, size_markAllocated, size_withSize hk c hn, size_freeNode hk hr,
      allocated_freeNode hk _ hn, allocated_markAllocated hk]
    have hbase : addr + need + (c.size - need) = addr + c.size := by omega
    rcases mem_addfreechunk hb' ha with h1 | ⟨b', hb', hab'⟩
    · subst h1
      rw [flagAt_none_of_lt cfg pre _ _ (by omega)]
      simp
      omega
    · obtain ⟨hne, b'', hb'', hab''⟩ := mem_unlink hb' hab'
      have := hold a hne (hs b'' hb'' a hab'')
      rw [if_neg (Ne.symm hne), hbase]
      by_cases h2 : addr + need = a
      · rw [if_pos h2]
        cases hp : flagAt cfg pre (SIZEOF_MM_ALLOCNODE cfg) a with
        | none => rfl
        | some v => rw [hp] at this; simpa using this
      · rw [if_neg h2]
        exact this
  · intro b hb' a ha
    simp only at hb' ⊢
    obtain ⟨hne, b'', hb'', hab''⟩ := mem_unlink hb' ha
    rw [flagAt_append, flagAt_cons, ← haddr, if_neg (Ne.symm hne), size_markAllocated]
    exact hold a hne (hs b'' hb'' a hab'')

theorem setFollowing_mem {cfg : Config} {post : List mm_allocnode_s} {tail v : Nat}
    {x : mm_allocnode_s}
    (hx : x ∈ (setFollowing cfg post tail v).1) : ∃ y ∈ post, x.size = y.size := by
  cases post with
  | nil => simp [setFollowing] at hx
  | cons n rest =>
    simp only [setFollowing, List.mem_cons] at hx
    rcases hx with rfl | hx
    · exact ⟨n, List.mem_cons_self _ _, rfl⟩
    · exact ⟨x, List.mem_cons_of_mem _ hx, rfl⟩

theorem takeChunk_pos (cfg : Config) (h : Heap) (addr need : Nat) (pre : List mm_allocnode_s)
    (c : mm_allocnode_s) (post : List mm_allocnode_s)
    (hk : MM_ALLOC_BIT cfg ≤ MMSIZE_MAX cfg) (hb : sizeSum h.chunks < MM_ALLOC_BIT cfg)
    (hp : PositiveSizes h)
    (hch : h.chunks = pre ++ c :: post) (hneed : 0 < need) (hfit : need ≤ c.size) :
    PositiveSizes (takeChunk cfg h addr need pre c post) := by
  have hmin := min_chunk_pos cfg
  rw [hch, sizeSum_append, sizeSum_cons] at hb
  unfold PositiveSizes at hp ⊢
  rw [hch] at hp
  unfold takeChunk
  split
  · intro x hx
    simp only [List.mem_append, List.mem_cons] at hx
    rcases hx with hx | rfl | rfl | hx
    · exact hp x (by simp [hx])
    · rw [size_markAllocated, size_withSize hk c (by omega)]
      exact hneed
    · rw [size_freeNode hk (by omega)]
      omega
    · obtain ⟨y, hy, hxy⟩ := setFollowing_mem hx
      rw [hxy]
      exact hp y (by simp [hy])
  · intro x hx
    simp only [List.mem_append, List.mem_cons] at hx
    rcases hx with hx | rfl | hx
    · exact hp x (by simp [hx])
    · exact hp c (by simp)
    · exact hp x (by simp [hx])

theorem align_up_pos (cfg : Config) (a : Nat) (ha : 0 < a)
    (h : a ≤ SIZE_MAX cfg - MM_GRAN_MASK cfg) : 0 < MM_ALIGN_UP cfg a := by
  rw [align_up_eq cfg a h]
  have := (align_arith (MM_MIN_CHUNK cfg) a (min_chunk_pos cfg)).1
  omega

theorem findFit_mem {cfg : Config} {h : Heap} {need addr : Nat}
    (hf : findFit cfg h need = some addr) : ∃ b ∈ h.mm_nodelist, addr ∈ b := by
  unfold findFit at hf
  have := List.mem_of_find?_eq_some hf
  rw [List.mem_flatten] at this
  obtain ⟨b, hb, hab⟩ := this
  exact ⟨b, List.mem_of_mem_drop hb, hab⟩

theorem mm_malloc_wellFormed (cfg : Config) (h : Heap) (size : Nat)
    (hrec : Recordable cfg h) (hwf : WellFormed cfg h) :
    WellFormed cfg (mm_malloc cfg h size).2 := by
  obtain ⟨hk, hb⟩ := hrec
  unfold mm_malloc
  split
  · exact hwf
  split
  · exact hwf
  rename_i hsz hov
  split
  · exact hwf
  rename_i addr hfind
  split
  · exact hwf
  rename_i pre c post hl
  obtain ⟨htags, hadj, hs, hp⟩ := hwf
  have hfit := fits_size (List.find?_some hfind) hl
  have hch := locate_eq_append hl
  have hneed := align_up_pos cfg (size + SIZEOF_MM_ALLOCNODE cfg) (by omega) (by omega)
  have hfree : c.allocated cfg = false := by
    obtain ⟨b, hb, hab⟩ := findFit_mem hfind
    obtain ⟨c', hc', hf'⟩ := hs b hb addr hab
    simp only [chunkAt, hl, Option.map_some', Option.some.injEq] at hc'
    rw [hc']
    exact hf'
  have h1 := takeChunk_tags_adj cfg h addr (MM_ALIGN_UP cfg (size + SIZEOF_MM_ALLOCNODE cfg))
    pre c post hk hb htags hadj hch hfree hfit
  exact ⟨h1.1, h1.2, takeChunk_sound cfg h addr _ pre c post hk hb hs hl hneed hfit,
    takeChunk_pos cfg h addr _ pre c post hk hb hp hch hneed hfit⟩

theorem mergeNext_flag (cfg : Config) (lists : List (List Nat)) (addr size : Nat)
    (post : List mm_allocnode_s) (tail : Nat)
    (hk : MM_ALLOC_BIT cfg ≤ MMSIZE_MAX cfg) (hb : size + sizeSum post < MM_ALLOC_BIT cfg) :
    ∀ b ∈ (mergeNext cfg lists addr size post tail).2.2.2, ∀ a ∈ b,
      (∃ b' ∈ lists, a ∈ b') ∧
      (flagAt cfg post (addr + size) a = some false →
        flagAt cfg (mergeNext cfg lists addr size post tail).2.1
          (addr + (mergeNext cfg lists addr size post tail).1) a = some false) := by
  intro b hb' a ha
  unfold mergeNext at hb' ⊢
  split
  · exact ⟨⟨b, hb', ha⟩, fun hf => hf⟩
  · rename_i n rest
    simp only [sizeSum_cons] at hb
    split
    · rename_i hn
      simp only [hn, if_true] at hb'
      exact ⟨⟨b, hb', ha⟩, fun hf => hf⟩
    · rename_i hn
      simp only [hn, if_false] at hb'
      obtain ⟨hne, b', hb'', hab'⟩ := mem_unlink hb' ha
      refine ⟨⟨b', hb'', hab'⟩, ?_⟩
      intro hf
      rw [flagAt_cons, if_neg (Ne.symm hne)] at hf
      simp only
      rw [flagAt_setFollowing cfg _ _ _ _ _ hk (by omega), ← Nat.add_assoc]
      exact hf

theorem mergeNext_pos (cfg : Config) (lists : List (List Nat)) (addr size : Nat)
    (post : List mm_allocnode_s) (tail : Nat) (hsize : 0 < size)
    (hpost : ∀ x ∈ post, 0 < x.size) :
    0 < (mergeNext cfg lists addr size post tail).1 ∧
    ∀ x ∈ (mergeNext cfg lists addr size post tail).2.1, 0 < x.size := by
  unfold mergeNext
  split
  · exact ⟨hsize, hpost⟩
  · rename_i n rest
    split
    · exact ⟨hsize, hpost⟩
    · refine ⟨by simp only; omega, ?_⟩
      intro x hx
      obtain ⟨y, hy, hxy⟩ := setFollowing_mem hx
      rw [hxy]
      exact hpost y (List.mem_cons_of_mem _ hy)

theorem or_some_false_of {a b b' : Option Bool} (h : a.or b = some false)
    (hb : b = some false → b' = some false) : a.or b' = some false := by
  cases a with
  | none => simpa using hb (by simpa using h)
  | some v => simpa using h

theorem releaseChunk_sound (cfg : Config) (h : Heap) (addr : Nat) (pre : List mm_allocnode_s)
    (c : mm_allocnode_s) (post : List mm_allocnode_s)
    (hk : MM_ALLOC_BIT cfg ≤ MMSIZE_MAX cfg) (hb : sizeSum h.chunks < MM_ALLOC_BIT cfg)
    (htags : BoundaryTags cfg h) (hs : FreeListsSound cfg h)
    (hp : PositiveSizes h)
    (hl : locate h.chunks (SIZEOF_MM_ALLOCNODE cfg) addr = some (pre, c, post))
    (hc : c.allocated cfg = true) :
    FreeListsSound cfg (releaseChunk cfg h addr pre c post) := by
  have hch := locate_eq_append hl
  obtain ⟨haddr, hpre⟩ := locate_target cfg hl
  rw [hch, sizeSum_append, sizeSum_cons] at hb
  rw [sound_iff] at hs ⊢
  have hM := mergeNext_flag cfg h.mm_nodelist addr c.size post h.tail_preceding hk (by omega)
  have hMs := mergeNext_sizes cfg h.mm_nodelist addr c.size post h.tail_preceding
  unfold BoundaryTags at htags
  rw [physical_eq, hch, cons_mid, List.chain'_split] at htags
  unfold PositiveSizes at hp
  rw [hch] at hp
  unfold releaseChunk
  generalize mergeNext cfg h.mm_nodelist addr c.size post h.tail_preceding = M at hM hMs
  obtain ⟨size1, post1, tail1, lists1⟩ := M
  simp only at hM hMs ⊢
  have hs1 : size1 < MM_ALLOC_BIT cfg := by omega
  have hmF : ((c.markFree cfg).withSize cfg size1).allocated cfg = false := by
    rw [allocated_withSize]
    exact allocated_markFree hk _
  have hmS : ((c.markFree cfg).withSize cfg size1).size = size1 := size_withSize hk _ hs1
  -- the old lookup, past the prefix `pre`
  have hold : ∀ a, flagAt cfg h.chunks (SIZEOF_MM_ALLOCNODE cfg) a = some false →
      (flagAt cfg pre (SIZEOF_MM_ALLOCNODE cfg) a).or
        (if addr = a then some true else flagAt cfg post (addr + c.size) a) = some false := by
    intro a hf
    rw [hch, flagAt_append, flagAt_cons, ← haddr, hc] at hf
    exact hf
  -- the new lookup when the node stays at `addr`
  have hnew : ∀ sz, ∀ b ∈ mm_addfreechunk cfg lists1 addr sz, ∀ a ∈ b,
      (flagAt cfg pre (SIZEOF_MM_ALLOCNODE cfg) a).or
        (if addr = a then some false else flagAt cfg post1 (addr + size1) a) = some false := by
    intro sz b hb' a ha
    rcases mem_addfreechunk hb' ha with h1 | ⟨b', hb', hab'⟩
    · subst h1
      rw [hpre]
      simp
    · obtain ⟨⟨b'', hb'', hab''⟩, hflag⟩ := hM b' hb' a hab'
      refine or_some_false_of (hold a (hs b'' hb'' a hab'')) ?_
      intro h2
      by_cases h3 : addr = a
      · rw [if_pos h3]
      · rw [if_neg h3] at h2 ⊢
        exact hflag h2
  cases hlast : pre.getLast? with
  | none =>
    rw [List.getLast?_eq_none_iff] at hlast
    subst hlast
    intro b hb' a ha
    have := hnew _ b hb' a ha
    simp only [flagAt_nil, Option.none_or] at this
    simp only [sizeSum_nil, Nat.add_zero] at haddr
    simp only
    rw [flagAt_cons, ← haddr, hmF, hmS]
    exact this
  | some p =>
    by_cases hpa : p.allocated cfg = true
    · simp only [hpa, if_true]
      intro b hb' a ha
      rw [flagAt_append, flagAt_cons, ← haddr, hmF, hmS]
      exact hnew _ b hb' a ha
    · have hpa' : p.allocated cfg = false := by simpa using hpa
      simp only [hpa', Bool.false_eq_true, if_false]
      have hpre' := List.dropLast_append_getLast? p hlast
      generalize pre.dropLast = pre' at hpre'
      subst hpre'
      have htag : c.precedingSize cfg = p.size := by
        have := htags.1
        rw [snoc_two, List.chain'_split] at this
        have := this.2
        simp only [List.chain'_cons, tagRel] at this
        exact this.1
      simp only [sizeSum_append, sizeSum_cons, sizeSum_nil, Nat.add_zero] at haddr hb
      have hps : p.size + size1 < MM_ALLOC_BIT cfg := by omega
      have hA : addr - c.precedingSize cfg = SIZEOF_MM_ALLOCNODE cfg + sizeSum pre' := by
        omega
      have hB : SIZEOF_MM_ALLOCNODE cfg + sizeSum pre' + (p.size + size1) =
          addr + size1 := by omega
      intro b hb' a ha
      rw [hA] at hb'
      rw [flagAt_append, flagAt_cons, flagAt_setFollowing cfg _ _ _ _ _ hk hps,
        allocated_withSize, size_withSize hk p hps, hB, hpa']
      rcases mem_addfreechunk hb' ha with h1 | ⟨b', hb', hab'⟩
      · subst h1
        rw [flagAt_none_of_le cfg pre' _ _ (fun x hx => hp x (by simp [hx])) le_rfl]
        simp
      · obtain ⟨hne, b2, hb2, hab2⟩ := mem_unlink hb' hab'
        obtain ⟨⟨b3, hb3, hab3⟩, hflag⟩ := hM b2 hb2 a hab2
        have ho := hold a (hs b3 hb3 a hab3)
        rw [flagAt_append, flagAt_cons, flagAt_nil, if_neg (Ne.symm hne)] at ho
        rw [if_neg (Ne.symm hne)]
        cases hq : flagAt cfg pre' (SIZEOF_MM_ALLOCNODE cfg) a with
        | some v => rw [hq] at ho; simpa using ho
        | none =>
          rw [hq] at ho
          simp only [Option.none_or] at ho ⊢
          by_cases h3 : addr = a
          · rw [if_pos h3] at ho; simp at ho
          · rw [if_neg h3] at ho
            exact hflag ho

/-- On a heap with correct boundary tags the chunk that `releaseChunk` takes as the
preceding one, the last chunk before `c` in memory order, is the chunk the boundary tag
of `c` leads to: it has the size recorded in `c.preceding` and starts that many bytes
before `c`. -/
theorem predecessor_through_tag (cfg : Config) (h : Heap) (addr : Nat)
    (pre : List mm_allocnode_s) (p c : mm_allocnode_s) (post : List mm_allocnode_s)
    (htags : BoundaryTags cfg h)
    (hl : locate h.chunks (SIZEOF_MM_ALLOCNODE cfg) addr = some (pre ++ [p], c, post)) :
    c.precedingSize cfg = p.size ∧
    addr - c.precedingSize cfg = SIZEOF_MM_ALLOCNODE cfg + sizeSum pre := by
  have hch := locate_eq_append hl
  obtain ⟨haddr, _⟩ := locate_target cfg hl
  unfold BoundaryTags at htags
  rw [physical_eq, hch, cons_mid, List.chain'_split] at htags
  have htag : c.precedingSize cfg = p.size := by
    have := htags.1
    rw [snoc_two, List.chain'_split] at this
    have := this.2
    simp only [List.chain'_cons, tagRel] at this
    exact this.1
  simp only [sizeSum_append, sizeSum_cons, sizeSum_nil, Nat.add_zero] at haddr
  exact ⟨htag, by omega⟩

theorem releaseChunk_pos (cfg : Config) (h : Heap) (addr : Nat) (pre : List mm_allocnode_s)
    (c : mm_allocnode_s) (post : List mm_allocnode_s)
    (hk : MM_ALLOC_BIT cfg ≤ MMSIZE_MAX cfg) (hb : sizeSum h.chunks < MM_ALLOC_BIT cfg)
    (hp : PositiveSizes h)
    (hch : h.chunks = pre ++ c :: post) :
    PositiveSizes (releaseChunk cfg h addr pre c post) := by
  unfold PositiveSizes at hp ⊢
  rw [hch] at hp
  rw [hch, sizeSum_append, sizeSum_cons] at hb
  have hM := mergeNext_pos cfg h.mm_nodelist addr c.size post h.tail_preceding
    (hp c (by simp)) (fun x hx => hp x (by simp [hx]))
  have hMs := mergeNext_sizes cfg h.mm_nodelist addr c.size post h.tail_preceding
  unfold releaseChunk
  generalize mergeNext cfg h.mm_nodelist addr c.size post h.tail_preceding = M at hM hMs
  obtain ⟨size1, post1, tail1, lists1⟩ := M
  simp only at hM hMs ⊢
  have hs1 : size1 < MM_ALLOC_BIT cfg := by omega
  have hmS : ((c.markFree cfg).withSize cfg size1).size = size1 := size_withSize hk _ hs1
  cases hlast : pre.getLast? with
  | none =>
    intro x hx
    simp only [List.mem_cons] at hx
    rcases hx with rfl | hx
    · rw [hmS]
      exact hM.1
    · exact hM.2 x hx
  | some p =>
    have hpre' := List.dropLast_append_getLast? p hlast
    have e : sizeSum pre = sizeSum pre.dropLast + p.size := by
      conv_lhs => rw [← hpre']
      simp [sizeSum_append, sizeSum_cons, sizeSum_nil]
    by_cases hpa : p.allocated cfg = true
    · simp only [hpa, if_true]
      intro x hx
      simp only [List.mem_append, List.mem_cons] at hx
      rcases hx with hx | rfl | hx
      · exact hp x (by simp [hx])
      · rw [hmS]
        exact hM.1
      · exact hM.2 x hx
    · have hpa' : p.allocated cfg = false := by simpa using hpa
      simp only [hpa', Bool.false_eq_true, if_false]
      intro x hx
      simp only [List.mem_append, List.mem_cons] at hx
      rcases hx with hx | rfl | hx
      · exact hp x (by simp [List.mem_of_mem_dropLast hx])
      · rw [size_withSize hk p (by omega)]
        have := hM.1
        omega
      · obtain ⟨y, hy, hxy⟩ := setFollowing_mem hx
        rw [hxy]
        exact hM.2 y hy

theorem mm_free_wellFormed (cfg : Config) (h h' : Heap) (mem : Nat)
    (hrec : Recordable cfg h) (hwf : WellFormed cfg h) (hf : mm_free cfg h mem = some h') :
    WellFormed cfg h' := by
  obtain ⟨hk, hb⟩ := hrec
  unfold mm_free at hf
  split at hf
  · simp at hf
  rename_i pre c post hl
  split at hf
  · simp at hf
  rename_i hc
  simp only [Option.some.injEq] at hf
  subst hf
  have hc' : c.allocated cfg = true := by simpa using hc
  obtain ⟨htags, hadj, hs, hp⟩ := hwf
  have hch := locate_eq_append hl
  have h1 := releaseChunk_tags_adj cfg h (mem - SIZEOF_MM_ALLOCNODE cfg) pre c post hk hb
    htags hadj hch
  exact ⟨h1.1, h1.2.1, releaseChunk_sound cfg h _ pre c post hk hb htags hs hp hl hc',
    releaseChunk_pos cfg h _ pre c post hk hb hp hch⟩

theorem mm_initialize_wellFormed (cfg : Config) (heap_size : Nat) (h0 : Heap)
    (hk : MM_ALLOC_BIT cfg ≤ MMSIZE_MAX cfg)
    (hfit : heap_size - sentinelOverhead cfg < MM_ALLOC_BIT cfg)
    (hinit : mm_initialize cfg heap_size = some h0) : WellFormed cfg h0 := by
  unfold mm_initialize mm_addregion at hinit
  split at hinit
  · simp at hinit
  rename_i hsz
  simp only [Option.some.injEq] at hinit
  subst hinit
  have hmin := min_chunk_pos cfg
  have hzero : 0 < MM_ALLOC_BIT cfg := by omega
  have hst := to_mmsize_t_of_lt hk hfit
  refine ⟨?_, ?_, ?_, ?_⟩
  · unfold BoundaryTags
    rw [physical_eq]
    simp only [List.cons_append, List.nil_append, List.chain'_cons, List.chain'_singleton,
      and_true, tagRel, precedingSize_freeNode hk _ hzero, size_headSentinel, hst,
      precedingSize_endNode hk hfit, size_freeNode hk hfit, and_self]
  · unfold NoAdjacentFree
    rw [physical_eq]
    simp only [List.cons_append, List.nil_append, List.chain'_cons, List.chain'_singleton,
      and_true, adjRel, allocated_headSentinel hk, allocated_endNode hk, true_or, or_true,
      and_self]
  · rw [sound_iff]
    intro b hb a ha
    rcases mem_addfreechunk hb ha with h1 | ⟨b', hb', hab'⟩
    · subst h1
      simp [flagAt_cons, allocated_freeNode hk _ hzero]
    · rw [List.mem_replicate] at hb'
      rw [hb'.2] at hab'
      simp at hab'
  · intro c hc
    simp only [List.mem_singleton] at hc
    subst hc
    rw [size_freeNode hk hfit]
    omega

/-- Every heap reached by `mm_malloc` / `mm_free` calls from a well-formed heap that the
headers can record is well formed and can be recorded. -/
theorem trace_wellFormed (cfg : Config) (h : Heap) (ops : List Op)
    (hrec : Recordable cfg h) (hwf : WellFormed cfg h) :
    ∀ h' ∈ trace cfg h ops, Recordable cfg h' ∧ WellFormed cfg h' := by
  induction ops generalizing h with
  | nil => simp [trace]
  | cons op ops ih =>
    intro h' hmem
    unfold trace at hmem
    cases hs : step cfg h op with
    | none => simp [hs] at hmem
    | some h1 =>
      simp only [hs, List.mem_cons] at hmem
      have hrec1 : Recordable cfg h1 :=
        ⟨hrec.1, by rw [(step_sizes cfg h h1 op hrec.1 hrec.2 hs).1]; exact hrec.2⟩
      have hwf1 : WellFormed cfg h1 := by
        cases op with
        | malloc size =>
          simp only [step, Option.some.injEq] at hs
          subst hs
          exact mm_malloc_wellFormed cfg h size hrec hwf
        | free mem => exact mm_free_wellFormed cfg h h1 mem hrec hwf hs
      rcases hmem with rfl | hmem
      · exact ⟨hrec1, hwf1⟩
      · exact ih h1 hrec1 hwf1 h' hmem

/-- Every heap reached from a successful `mm_initialize` over a region whose chunk span
is below `MM_ALLOC_BIT` is well formed (boundary tags correct, no two adjacent free
chunks, free lists linking only free chunks, no empty chunk) and can be recorded by its
headers. -/
theorem reachable_wellFormed (cfg : Config) (heap_size : Nat) (h0 : Heap) (ops : List Op)
    (hk : MM_ALLOC_BIT cfg ≤ MMSIZE_MAX cfg)
    (hfit : heap_size - sentinelOverhead cfg < MM_ALLOC_BIT cfg)
    (hinit : mm_initialize cfg heap_size = some h0) :
    (Recordable cfg h0 ∧ WellFormed cfg h0) ∧
    ∀ h ∈ trace cfg h0 ops, Recordable cfg h ∧ WellFormed cfg h := by
  have hrec : Recordable cfg h0 :=
    ⟨hk, by have := (mm_initialize_sizes cfg heap_size h0 hk hfit hinit).1; omega⟩
  have hwf := mm_initialize_wellFormed cfg heap_size h0 hk hfit hinit
  exact ⟨⟨hrec, hwf⟩, trace_wellFormed cfg h0 ops hrec hwf⟩

/-- On every heap reached from a successful `mm_initialize` over a region whose chunk
span is below `MM_ALLOC_BIT`, a request larger than the largest free chunk fails without
changing the heap, and releasing an allocated chunk completes and leaves a well-formed
heap. -/
theorem reachable_contracts (cfg : Config) (heap_size : Nat) (h0 h : Heap) (ops : List Op)
    (hk : MM_ALLOC_BIT cfg ≤ MMSIZE_MAX cfg)
    (hfit : heap_size - sentinelOverhead cfg < MM_ALLOC_BIT cfg)
    (hinit : mm_initialize cfg heap_size = some h0) (hmem : h ∈ h0 :: trace cfg h0 ops) :
    (∀ size, MM_ALIGN_UP cfg (size + SIZEOF_MM_ALLOCNODE cfg) > largestFree cfg h →
      mm_malloc cfg h size = (none, h)) ∧
    (∀ mem c, chunkAt cfg h (mem - SIZEOF_MM_ALLOCNODE cfg) = some c →
      c.allocated cfg = true → ∃ h', mm_free cfg h mem = some h' ∧ WellFormed cfg h') := by
  have hwf : Recordable cfg h ∧ WellFormed cfg h := by
    have hr := reachable_wellFormed cfg heap_size h0 ops hk hfit hinit
    rcases List.mem_cons.1 hmem with rfl | hm
    · exact hr.1
    · exact hr.2 h hm
  refine ⟨fun size hbig => mm_malloc_none_of_large cfg h size hwf.2.2.2.1 (fun _ => hbig), ?_⟩
  intro mem c hc halloc
  have hex : ∃ h', mm_free cfg h mem = some h' := by
    unfold chunkAt at hc
    unfold mm_free
    cases hl : locate h.chunks (SIZEOF_MM_ALLOCNODE cfg) (mem - SIZEOF_MM_ALLOCNODE cfg) with
    | none => simp [hl] at hc
    | some r =>
      obtain ⟨pre, c', post⟩ := r
      simp only [hl, Option.map_some', Option.some.injEq] at hc
      subst hc
      simp [halloc]
  obtain ⟨h', hf⟩ := hex
  exact ⟨h', hf, mm_free_wellFormed cfg h h' mem hwf.1 hwf.2 hf⟩

/-! ### Header fields stay within `mmsize_t` -/

theorem to_mmsize_t_le (cfg : Config) (v : Nat) : to_mmsize_t cfg v ≤ MMSIZE_MAX cfg := by
  rw [MMSIZE_MAX_pow]
  have hpos : 0 < 2 ^ mmsizeBits cfg := Nat.pow_pos (by decide)
  have := Nat.mod_lt v hpos
  unfold to_mmsize_t
  omega

theorem and_bitNot_le (cfg : Config) (p : Nat) :
    p &&& bitNot (mmsizeBits cfg) (MM_ALLOC_BIT cfg) ≤ MMSIZE_MAX cfg := by
  have h1 : p &&& bitNot (mmsizeBits cfg) (MM_ALLOC_BIT cfg) ≤
      bitNot (mmsizeBits cfg) (MM_ALLOC_BIT cfg) := Nat.and_le_right
  rw [MMSIZE_MAX_pow]
  unfold bitNot at h1 ⊢
  omega

theorem inField_sentinels (cfg : Config) (tail : Nat) :
    InField cfg (headSentinel cfg) ∧ InField cfg (endNode cfg tail) :=
  ⟨⟨Nat.zero_le _, to_mmsize_t_le cfg _⟩, ⟨Nat.zero_le _, to_mmsize_t_le cfg _⟩⟩

theorem fieldsInRange_iff (cfg : Config) (h : Heap) :
    FieldsInRange cfg h ↔ ∀ n ∈ h.chunks, InField cfg n := by
  unfold FieldsInRange physical tailSentinel
  constructor
  · intro hall n hn
    exact hall n (by simp [hn])
  · intro hall n hn
    simp only [List.mem_cons, List.mem_append, List.not_mem_nil, or_false] at hn
    rcases hn with rfl | hn | rfl
    · exact (inField_sentinels cfg 0).1
    · exact hall n hn
    · exact (inField_sentinels cfg _).2

theorem setFollowing_inField (cfg : Config) (post : List mm_allocnode_s) (tail v : Nat)
    (hpost : ∀ n ∈ post, InField cfg n) :
    ∀ n ∈ (setFollowing cfg post tail v).1, InField cfg n := by
  cases post with
  | nil => simp [setFollowing]
  | cons y ys =>
    intro n hn
    simp only [setFollowing, List.mem_cons] at hn
    rcases hn with rfl | hn
    · exact ⟨(hpost y (List.mem_cons_self _ _)).1, to_mmsize_t_le cfg _⟩
    · exact hpost n (List.mem_cons_of_mem _ hn)

theorem takeChunk_inField (cfg : Config) (h : Heap) (addr need : Nat)
    (pre : List mm_allocnode_s) (c : mm_allocnode_s) (post : List mm_allocnode_s)
    (hall : ∀ n ∈ h.chunks, InField cfg n) (hch : h.chunks = pre ++ c :: post) :
    ∀ n ∈ (takeChunk cfg h addr need pre c post).chunks, InField cfg n := by
  rw [hch] at hall
  have hpost := setFollowing_inField cfg post h.tail_preceding (c.size - need)
    (fun n hn => hall n (by simp [hn]))
  unfold takeChunk
  split
  · intro n hn
    simp only [List.mem_append, List.mem_cons] at hn
    rcases hn with hn | rfl | rfl | hn
    · exact hall n (by simp [hn])
    · exact ⟨to_mmsize_t_le cfg _, to_mmsize_t_le cfg _⟩
    · exact ⟨to_mmsize_t_le cfg _, to_mmsize_t_le cfg _⟩
    · exact hpost n hn
  · intro n hn
    simp only [List.mem_append, List.mem_cons] at hn
    rcases hn with hn | rfl | hn
    · exact hall n (by simp [hn])
    · exact ⟨(hall c (by simp)).1, to_mmsize_t_le cfg _⟩
    · exact hall n (by simp [hn])

theorem mergeNext_inField (cfg : Config) (lists : List (List Nat)) (addr size : Nat)
    (post : List mm_allocnode_s) (tail : Nat) (hpost : ∀ n ∈ post, InField cfg n) :
    ∀ n ∈ (mergeNext cfg lists addr size post tail).2.1, InField cfg n := by
  unfold mergeNext
  split
  · exact hpost
  · rename_i y ys
    split
    · exact hpost
    · exact setFollowing_inField cfg ys tail _ (fun n hn => hpost n (List.mem_cons_of_mem _ hn))

theorem releaseChunk_inField (cfg : Config) (h : Heap) (addr : Nat)
    (pre : List mm_allocnode_s) (c : mm_allocnode_s) (post : List mm_allocnode_s)
    (hall : ∀ n ∈ h.chunks, InField cfg n) (hch : h.chunks = pre ++ c :: post) :
    ∀ n ∈ (releaseChunk cfg h addr pre c post).chunks, InField cfg n := by
  rw [hch] at hall
  have hM := mergeNext_inField cfg h.mm_nodelist addr c.size post h.tail_preceding
    (fun n hn => hall n (by simp [hn]))
  unfold releaseChunk
  generalize mergeNext cfg h.mm_nodelist addr c.size post h.tail_preceding = M at hM
  obtain ⟨size1, post1, tail1, lists1⟩ := M
  simp only at hM ⊢
  have hm : InField cfg ((c.markFree cfg).withSize cfg size1) :=
    ⟨to_mmsize_t_le cfg _, and_bitNot_le cfg _⟩
  cases hlast : pre.getLast? with
  | none =>
    intro n hn
    simp only [List.mem_cons] at hn
    rcases hn with rfl | hn
    · exact hm
    · exact hM n hn
  | some p =>
    have hp : p ∈ pre := List.mem_of_getLast?_eq_some hlast
    by_cases hpa : p.allocated cfg = true
    · simp only [hpa, if_true]
      intro n hn
      simp only [List.mem_append, List.mem_cons] at hn
      rcases hn with hn | rfl | hn
      · exact hall n (by simp [hn])
      · exact hm
      · exact hM n hn
    · have hpa' : p.allocated cfg = false := by simpa using hpa
      simp only [hpa', Bool.false_eq_true, if_false]
      intro n hn
      simp only [List.mem_append, List.mem_cons] at hn
      rcases hn with hn | rfl | hn
      · exact hall n (by simp [List.mem_of_mem_dropLast hn])
      · exact ⟨to_mmsize_t_le cfg _, (hall p (by simp [hp])).2⟩
      · exact setFollowing_inField cfg post1 tail1 _ hM n hn

/-- The fields of every header of every heap reached from `mm_initialize`, whatever the
size of the region, hold values of `mmsize_t`: the engine never records a size that the
declared fields cannot hold. -/
theorem reachable_fields_in_range (cfg : Config) (heap_size : Nat) (h0 : Heap)
    (ops : List Op) (hinit : mm_initialize cfg heap_size = some h0) :
    FieldsInRange cfg h0 ∧ ∀ h ∈ trace cfg h0 ops, FieldsInRange cfg h := by
  have h0r : ∀ n ∈ h0.chunks, InField cfg n := by
    unfold mm_initialize mm_addregion at hinit
    split at hinit
    · simp at hinit
    · simp only [Option.some.injEq] at hinit
      subst hinit
      intro n hn
      simp only [List.mem_singleton] at hn
      subst hn
      exact ⟨to_mmsize_t_le cfg _, to_mmsize_t_le cfg _⟩
  have hstep : ∀ (h h1 : Heap) (op : Op), (∀ n ∈ h.chunks, InField cfg n) →
      step cfg h op = some h1 → ∀ n ∈ h1.chunks, InField cfg n := by
    intro h h1 op hall hs
    cases op with
    | malloc size =>
      simp only [step, Option.some.injEq] at hs
      subst hs
      unfold mm_malloc
      split
      · exact hall
      split
      · exact hall
      split
      · exact hall
      split
      · exact hall
      rename_i pre c post hl
      exact takeChunk_inField cfg h _ _ pre c post hall (locate_eq_append hl)
    | free mem =>
      simp only [step] at hs
      unfold mm_free at hs
      split at hs
      · simp at hs
      rename_i pre c post hl
      split at hs
      · simp at hs
      simp only [Option.some.injEq] at hs
      subst hs
      exact releaseChunk_inField cfg h _ pre c post hall (locate_eq_append hl)
  have htrace : ∀ (ops : List Op) (h : Heap), (∀ n ∈ h.chunks, InField cfg n) →
      ∀ h' ∈ trace cfg h ops, ∀ n ∈ h'.chunks, InField cfg n := by
    intro ops
    induction ops with
    | nil => intro h _ h' hmem; simp [trace] at hmem
    | cons op ops ih =>
      intro h hall h' hmem
      unfold trace at hmem
      cases hs : step cfg h op with
      | none => simp [hs] at hmem
      | some h1 =>
        simp only [hs, List.mem_cons] at hmem
        have h1r := hstep h h1 op hall hs
        rcases hmem with rfl | hmem
        · exact h1r
        · exact ih h1 h1r h' hmem
  exact ⟨(fieldsInRange_iff cfg h0).2 h0r,
    fun h hm => (fieldsInRange_iff cfg h).2 (htrace ops h0 h0r h hm)⟩

/-! ### Concrete instances of byte conservation and coalescing -/

theorem mm_size2ndx_samples :
    mm_size2ndx cfg32 15 = 0 ∧ mm_size2ndx cfg32 16 = 0 ∧ mm_size2ndx cfg32 31 = 0 ∧
    mm_size2ndx cfg32 32 = 1 ∧ mm_size2ndx cfg32 (2 ^ 22 - 1) = 17 ∧
    mm_size2ndx cfg32 (2 ^ 22) = 18 := by
  decide

theorem MM_ALIGN_UP_wraps_at_SIZE_MAX : MM_ALIGN_UP cfg32 (2 ^ 32 - 1) = 0 := by
  decide

theorem heap4096_is_initial : mm_initialize cfg32 4096 = some heap4096 := by
  decide

theorem heapTwoAllocs_is_reached :
    (mm_malloc cfg32 heap4096 100).1 = some 16 ∧
    (mm_malloc cfg32 (mm_malloc cfg32 heap4096 100).2 200).1 = some 128 ∧
    (mm_malloc cfg32 (mm_malloc cfg32 heap4096 100).2 200).2 = heapTwoAllocs := by
  decide

theorem malloc_then_free_is_identity :
    mm_free cfg32 (mm_malloc cfg32 heap4096 100).2 16 = some heap4096 := by
  decide

theorem exampleOps_chunks :
    (trace cfg32 heap4096 exampleOps).map (fun h => h.chunks) =
      [[⟨112, 0x80000000⟩, ⟨3968, 112⟩], [⟨112, 0x80000000⟩, ⟨3968, 112⟩],
       [⟨4080, 0⟩], [⟨4016, 0x80000000⟩, ⟨64, 4016⟩]] := by
  decide

/-- The headers of the example heap decoded: allocated flags and preceding sizes. -/
theorem heapTwoAllocs_decoded :
    heapTwoAllocs.chunks.map
        (fun c => (c.size, c.precedingSize cfg32, c.allocated cfg32)) =
      [(112, 0, true), (208, 112, true), (3760, 208, false)] ∧
    Recordable cfg32 heapTwoAllocs ∧ BoundaryTags cfg32 heapTwoAllocs ∧
    NoAdjacentFree cfg32 heapTwoAllocs := by
  decide

/-- The reachable-heap contracts on the example of section 8: after the four calls the
heap holds a 4016-byte allocated chunk and 64 free bytes, so a 100-byte request fails
and leaves the heap unchanged. -/
theorem reachable_contracts_witness :
    ∀ h ∈ trace cfg32 heap4096 exampleOps,
      MM_ALIGN_UP cfg32 (5000 + SIZEOF_MM_ALLOCNODE cfg32) > largestFree cfg32 h →
      mm_malloc cfg32 h 5000 = (none, h) :=
  fun h hm => (reachable_contracts cfg32 4096 heap4096 h exampleOps (by decide) (by decide)
    (by decide) (List.mem_cons_of_mem _ hm)).1 5000

/-! ### Rounding down to the granularity -/

theorem align_down_eq (cfg : Config) (a : Nat) (h : a ≤ SIZE_MAX cfg) :
    MM_ALIGN_DOWN cfg a = a / MM_MIN_CHUNK cfg * MM_MIN_CHUNK cfg := by
  have hlt : a < 2 ^ arithBits cfg := lt_of_le_of_lt h (size_max_lt cfg)
  unfold MM_ALIGN_DOWN bitNot
  rw [Nat.mod_eq_of_lt hlt, gran_mask_eq,
    land_high_mask _ _ _ (min_shift_le_arithBits cfg) hlt, min_chunk_eq]

theorem floor_arith (c a : Nat) :
    a / c * c ≤ a ∧ a / c * c % c = 0 ∧
    (∀ m, m ≤ a → m % c = 0 → m ≤ a / c * c) ∧
    (a / c * c = a ↔ a % c = 0) := by
  have h1 := Nat.div_add_mod a c
  rw [Nat.mul_comm] at h1
  refine ⟨by omega, Nat.mul_mod_left _ _, ?_, by omega⟩
  intro m hma hm
  have h3 := Nat.div_add_mod m c
  rw [hm, Nat.add_zero, Nat.mul_comm] at h3
  calc m = m / c * c := h3.symm
    _ ≤ a / c * c := Nat.mul_le_mul_right _ (Nat.div_le_div_right hma)

/-- C17: for every `size_t` value `a`, `MM_ALIGN_DOWN(a)` is the greatest multiple of
`MM_MIN_CHUNK` that is at most `a`, and it equals `a` exactly when `a` is a multiple of
`MM_MIN_CHUNK`. -/
theorem MM_ALIGN_DOWN_greatest_multiple (cfg : Config) (a : Nat) (h : a ≤ SIZE_MAX cfg) :
    MM_ALIGN_DOWN cfg a ≤ a ∧ MM_ALIGN_DOWN cfg a % MM_MIN_CHUNK cfg = 0 ∧
    (∀ m, m ≤ a → m % MM_MIN_CHUNK cfg = 0 → m ≤ MM_ALIGN_DOWN cfg a) ∧
    (MM_ALIGN_DOWN cfg a = a ↔ a % MM_MIN_CHUNK cfg = 0) := by
  rw [align_down_eq cfg a h]
  exact floor_arith _ _

/-- C17 at concrete inputs: on the 32-bit build `MM_ALIGN_DOWN(47) = 32`, and the largest
`size_t` value rounds down to `0xfffffff0`. -/
theorem MM_ALIGN_DOWN_greatest_multiple_witness :
    47 ≤ SIZE_MAX cfg32 ∧ MM_ALIGN_DOWN cfg32 47 = 32 ∧
    MM_ALIGN_DOWN cfg32 (SIZE_MAX cfg32) = 0xfffffff0 ∧
    MM_ALIGN_DOWN cfg32 47 ≤ 47 ∧ MM_ALIGN_DOWN cfg32 47 % MM_MIN_CHUNK cfg32 = 0 :=
  ⟨by decide, by decide, by decide,
    (MM_ALIGN_DOWN_greatest_multiple cfg32 47 (by decide)).1,
    (MM_ALIGN_DOWN_greatest_multiple cfg32 47 (by decide)).2.1⟩

/-! ### Documented free-node sizes -/

/-- C18 (fails in the code): the sizes documented for `CONFIG_MM_SMALL` (8 and 12) and
for 4-byte pointers without it (16) hold, but with 8-byte pointers `mmsize_t` is the
8-byte `size_t`, so `SIZEOF_MM_FREENODE` is 32 where the header documents 24. -/
theorem SIZEOF_MM_FREENODE_documented_sizes :
    (cfgSmall16.selected = true ∧ SIZEOF_MM_FREENODE cfgSmall16 = 8) ∧
    (cfgSmall32.selected = true ∧ SIZEOF_MM_FREENODE cfgSmall32 = 12) ∧
    (cfg32.selected = true ∧ SIZEOF_MM_FREENODE cfg32 = 16) ∧
    (cfg64.selected = true ∧ sizeof_mmsize_t cfg64 = 8 ∧ MM_PTR_SIZE cfg64 = 8 ∧
      SIZEOF_MM_FREENODE cfg64 = 32 ∧ SIZEOF_MM_FREENODE cfg64 ≠ 24) := by
  decide

/-- The free-node size of every non-small build as a function of the widths: with
8-byte pointers it is 24 only if `size_t` were 4 bytes wide. -/
theorem SIZEOF_MM_FREENODE_default (cfg : Config) (hs : cfg.mmSmall = false) :
    SIZEOF_MM_FREENODE cfg = 2 * cfg.size_t.bytes + 2 * cfg.uintptr.bytes := by
  rw [freenode_size_eq]
  simp [sizeof_mmsize_t, MM_PTR_SIZE, hs]

theorem fsync_eval_ok : fsync tizenrtConsts (sampleEnv 5) 3 world0 =
    some (0, { errno := 0, calls := [Event.enter_cancellation_point, Event.fs_getfilep 3,
      Event.file_fsync 100, Event.sync 100, Event.leave_cancellation_point] }) := by
  decide

theorem fsync_eval_sync_fails : fsync tizenrtConsts (sampleEnv (-5)) 3 world0 =
    some (-1, { errno := 5, calls := [Event.enter_cancellation_point, Event.fs_getfilep 3,
      Event.file_fsync 100, Event.sync 100, Event.leave_cancellation_point] }) := by
  decide

theorem fsync_eval_bad_fd : fsync tizenrtConsts (sampleEnv 0) 4 world0 =
    some (-1, { errno := 9, calls := [Event.enter_cancellation_point, Event.fs_getfilep 4,
      Event.leave_cancellation_point] }) := by
  decide
/-! ### `file_fsync` and `fsync` -/

theorem negInt_eq_neg (r : Int) (h1 : INT_MIN < r) (h2 : r < 0) : negInt r = -r := by
  unfold negInt wrapInt
  unfold INT_MIN at h1
  omega

theorem negInt_INT_MIN : negInt INT_MIN = INT_MIN := by decide

/-- C14: a file whose `f_oflags` has no `O_WROK` bit is rejected whatever its inode:
`file_fsync` returns `ERROR`, sets `errno` to `EBADF` and records no call, so no sync
method is invoked. -/
theorem file_fsync_rejects_not_writable (k : FsConsts) (filep : Nat) (f : File) (w : World)
    (h : f.f_oflags &&& k.O_WROK = 0) :
    file_fsync k filep f w = (k.ERROR, { errno := k.EBADF, calls := w.calls }) := by
  simp [file_fsync, h, file_fsync_errout]

/-- C14 at a concrete input: a read-only file on a mountpoint that has a `sync` method. -/
theorem file_fsync_rejects_not_writable_witness :
    roFile.f_oflags &&& tizenrtConsts.O_WROK = 0 ∧
    file_fsync tizenrtConsts 100 roFile world0 = (-1, { errno := 9, calls := [] }) :=
  ⟨by decide, file_fsync_rejects_not_writable tizenrtConsts 100 roFile world0 (by decide)⟩

/-- C15: a file opened for writing whose inode is null, or is not a mountpoint, or has no
mountpoint operations table, or whose table has no `sync` method is rejected:
`file_fsync` returns `ERROR`, sets `errno` to `EINVAL` and records no call, so no sync
method is invoked. -/
theorem file_fsync_rejects_unsyncable (k : FsConsts) (filep : Nat) (f : File) (w : World)
    (hw : f.f_oflags &&& k.O_WROK ≠ 0)
    (h : f.f_inode = none ∨
      ∃ inode, f.f_inode = some inode ∧
        (inode.is_mountpt = false ∨ inode.i_mops = none ∨
          ∃ mops, inode.i_mops = some mops ∧ mops.sync = none)) :
    file_fsync k filep f w = (k.ERROR, { errno := k.EINVAL, calls := w.calls }) := by
  unfold file_fsync
  rw [if_neg hw]
  rcases h with h | ⟨inode, hi, h⟩
  · simp [h, file_fsync_errout]
  · simp only [hi]
    rcases h with h | h | ⟨mops, hm, h⟩
    · simp [h, file_fsync_errout]
    · by_cases hmp : inode.is_mountpt = false
      · simp [hmp, file_fsync_errout]
      · simp [hmp, h, file_fsync_errout]
    · by_cases hmp : inode.is_mountpt = false
      · simp [hmp, file_fsync_errout]
      · simp [hmp, hm, h, file_fsync_errout]

/-- C15 at concrete inputs: a writable file with a null inode, and one on an inode that
is not a mountpoint. -/
theorem file_fsync_rejects_unsyncable_witness :
    file_fsync tizenrtConsts 100 { f_oflags := 3, f_inode := none } world0 =
      (-1, { errno := 22, calls := [] }) ∧
    file_fsync tizenrtConsts 100
      { f_oflags := 2, f_inode := some { mountptInode 0 with is_mountpt := false } } world0 =
      (-1, { errno := 22, calls := [] }) :=
  ⟨file_fsync_rejects_unsyncable tizenrtConsts 100 { f_oflags := 3, f_inode := none } world0
      (by decide) (Or.inl rfl),
   file_fsync_rejects_unsyncable tizenrtConsts 100
      { f_oflags := 2, f_inode := some { mountptInode 0 with is_mountpt := false } } world0
      (by decide) (Or.inr ⟨_, rfl, Or.inl rfl⟩)⟩

theorem file_fsync_ret (k : FsConsts) (filep : Nat) (f : File) (w : World) :
    (file_fsync k filep f w).1 = k.OK ∨ (file_fsync k filep f w).1 = k.ERROR := by
  unfold file_fsync
  simp only [file_fsync_errout]
  repeat' split
  all_goals first | exact Or.inl rfl | exact Or.inr rfl

/-- C16: on a file opened for writing on a mountpoint inode with a `sync` method,
`file_fsync` calls the method exactly once, on the file; when the method's result `r`
is non-negative it returns `OK` and leaves `errno` as it was, when `r` is negative it
returns `ERROR` with `errno` set to the C value `-r`, which is the integer `-r` for
every `r` above `INT_MIN`.  On every file the return value is `OK` or `ERROR`. -/
theorem file_fsync_maps_sync_result (k : FsConsts) (filep : Nat) (f : File) (w : World) :
    (∀ inode mops method, f.f_oflags &&& k.O_WROK ≠ 0 → f.f_inode = some inode →
      inode.is_mountpt = true → inode.i_mops = some mops → mops.sync = some method →
      (0 ≤ method filep →
        file_fsync k filep f w =
          (k.OK, { errno := w.errno, calls := w.calls ++ [Event.sync filep] })) ∧
      (method filep < 0 →
        file_fsync k filep f w =
          (k.ERROR, { errno := negInt (method filep),
                      calls := w.calls ++ [Event.sync filep] }) ∧
        (INT_MIN < method filep → (file_fsync k filep f w).2.errno = -(method filep)))) ∧
    ((file_fsync k filep f w).1 = k.OK ∨ (file_fsync k filep f w).1 = k.ERROR) := by
  refine ⟨?_, file_fsync_ret k filep f w⟩
  intro inode mops method hw hi hmp hm hs
  have e : file_fsync k filep f w =
      if method filep ≥ 0 then (k.OK, { w with calls := w.calls ++ [Event.sync filep] })
      else file_fsync_errout k (negInt (method filep))
        { w with calls := w.calls ++ [Event.sync filep] } := by
    unfold file_fsync
    rw [if_neg hw]
    simp [hi, hmp, hm, hs]
  constructor
  · intro h0
    rw [e, if_pos h0]
  · intro hneg
    have hn : ¬ method filep ≥ 0 := by omega
    rw [e, if_neg hn]
    refine ⟨rfl, ?_⟩
    intro hmin
    simp only [file_fsync_errout]
    exact negInt_eq_neg _ hmin hneg

/-- C16 at concrete inputs: a `sync` method answering 5 (collapsed to `OK`, `errno`
untouched) and one answering -5 (`ERROR`, `errno = 5`). -/
theorem file_fsync_maps_sync_result_witness :
    file_fsync tizenrtConsts 100 (rwFile 5) world0 =
      (0, { errno := 0, calls := [Event.sync 100] }) ∧
    file_fsync tizenrtConsts 100 (rwFile (-5)) world0 =
      (-1, { errno := negInt (-5), calls := [Event.sync 100] }) ∧
    (file_fsync tizenrtConsts 100 (rwFile (-5)) world0).2.errno = 5 :=
  ⟨((file_fsync_maps_sync_result tizenrtConsts 100 (rwFile 5) world0).1
      (mountptInode 5) { sync := some (fun _ => 5) } (fun _ => 5)
      (by decide) rfl rfl rfl rfl).1 (by decide),
   (((file_fsync_maps_sync_result tizenrtConsts 100 (rwFile (-5)) world0).1
      (mountptInode (-5)) { sync := some (fun _ => -5) } (fun _ => -5)
      (by decide) rfl rfl rfl rfl).2 (by decide)).1,
   (((file_fsync_maps_sync_result tizenrtConsts 100 (rwFile (-5)) world0).1
      (mountptInode (-5)) { sync := some (fun _ => -5) } (fun _ => -5)
      (by decide) rfl rfl rfl rfl).2 (by decide)).2 (by decide)⟩
/-- C19: when `fs_getfilep` returns `r < 0`, `fsync` returns `ERROR` with `errno` set to
the C value `-r` (the integer `-r` for every `r` above `INT_MIN`), and between entering
and leaving the cancellation point it makes no call but `fs_getfilep`: neither
`file_fsync` nor a sync method is called. -/
theorem fsync_propagates_lookup_failure (k : FsConsts) (env : FsEnv) (fd : Int) (w : World)
    (h : (env.fs_getfilep fd).1 < 0) :
    fsync k env fd w =
      some (k.ERROR,
        { errno := negInt (env.fs_getfilep fd).1
          calls := w.calls ++ [Event.enter_cancellation_point, Event.fs_getfilep fd,
            Event.leave_cancellation_point] }) ∧
    (INT_MIN < (env.fs_getfilep fd).1 →
      ∃ w', fsync k env fd w = some (k.ERROR, w') ∧ w'.errno = -(env.fs_getfilep fd).1) ∧
    (∀ p, Event.file_fsync p ∉ [Event.enter_cancellation_point, Event.fs_getfilep fd,
        Event.leave_cancellation_point] ∧
      Event.sync p ∉ [Event.enter_cancellation_point, Event.fs_getfilep fd,
        Event.leave_cancellation_point]) := by
  have e : fsync k env fd w =
      some (k.ERROR,
        { errno := negInt (env.fs_getfilep fd).1
          calls := w.calls ++ [Event.enter_cancellation_point, Event.fs_getfilep fd,
            Event.leave_cancellation_point] }) := by
    simp [fsync, h]
  refine ⟨e, ?_, ?_⟩
  · intro hmin
    exact ⟨_, e, negInt_eq_neg _ hmin h⟩
  · intro p
    simp

/-- C19 at a concrete input: descriptor 4 is not open, `fs_getfilep` answers -9. -/
theorem fsync_propagates_lookup_failure_witness :
    ((sampleEnv 0).fs_getfilep 4).1 = -9 ∧
    fsync tizenrtConsts (sampleEnv 0) 4 world0 =
      some (-1, { errno := negInt (-9), calls := [Event.enter_cancellation_point,
        Event.fs_getfilep 4, Event.leave_cancellation_point] }) ∧
    negInt (-9) = 9 :=
  ⟨by decide,
    (fsync_propagates_lookup_failure tizenrtConsts (sampleEnv 0) 4 world0 (by decide)).1,
    by decide⟩

theorem file_fsync_calls (k : FsConsts) (filep : Nat) (f : File) (w : World) :
    (file_fsync k filep f w).2.calls = w.calls ∨
    (file_fsync k filep f w).2.calls = w.calls ++ [Event.sync filep] := by
  unfold file_fsync
  simp only [file_fsync_errout]
  repeat' split
  all_goals first | exact Or.inl rfl | exact Or.inr rfl

/-- C20: `fsync` is a balanced cancellation point.  It returns whenever the lookup fails
or gives a non-null file pointer, and whenever it returns (lookup failure, `file_fsync`
failure, success) the calls it made are `enter_cancellation_point` first, then calls
that are neither of the two, then `leave_cancellation_point` last: each is called
exactly once. -/
theorem fsync_balanced_cancellation_point (k : FsConsts) (env : FsEnv) (fd : Int)
    (w : World) :
    (((env.fs_getfilep fd).1 < 0 ∨ (env.fs_getfilep fd).2 ≠ 0) →
      ∃ r w', fsync k env fd w = some (r, w')) ∧
    (∀ r w', fsync k env fd w = some (r, w') →
      ∃ mid, w'.calls = w.calls ++ [Event.enter_cancellation_point] ++ mid ++
          [Event.leave_cancellation_point] ∧
        Event.enter_cancellation_point ∉ mid ∧ Event.leave_cancellation_point ∉ mid) := by
  constructor
  · intro h
    simp only [fsync]
    by_cases hr : (env.fs_getfilep fd).1 < 0
    · rw [if_pos hr]
      exact ⟨_, _, rfl⟩
    · have hp : (env.fs_getfilep fd).2 ≠ 0 := by
        rcases h with h | h
        · exact absurd h hr
        · exact h
      rw [if_neg hr, if_neg hp]
      exact ⟨_, _, rfl⟩
  · intro r w' hf
    by_cases hr : (env.fs_getfilep fd).1 < 0
    · simp only [fsync, hr, if_true, Option.some.injEq, Prod.mk.injEq] at hf
      obtain ⟨_, rfl⟩ := hf
      exact ⟨[Event.fs_getfilep fd], by simp, by simp, by simp⟩
    · by_cases hp : (env.fs_getfilep fd).2 = 0
      · simp [fsync, hr, hp] at hf
      · simp only [fsync, hr, hp, if_false, Option.some.injEq, Prod.mk.injEq] at hf
        obtain ⟨_, rfl⟩ := hf
        rcases file_fsync_calls k (env.fs_getfilep fd).2 (env.file (env.fs_getfilep fd).2)
          { errno := w.errno
            calls := w.calls ++ [Event.enter_cancellation_point] ++ [Event.fs_getfilep fd] ++
              [Event.file_fsync (env.fs_getfilep fd).2] } with hc | hc
        · refine ⟨[Event.fs_getfilep fd, Event.file_fsync (env.fs_getfilep fd).2], ?_, ?_, ?_⟩
          · simp only [hc]
            simp
          · simp
          · simp
        · refine ⟨[Event.fs_getfilep fd, Event.file_fsync (env.fs_getfilep fd).2,
            Event.sync (env.fs_getfilep fd).2], ?_, ?_, ?_⟩
          · simp only [hc]
            simp
          · simp
          · simp

/-- C20 at concrete inputs: the three paths of `fsync` (success, `file_fsync` failure,
lookup failure) all return. -/
theorem fsync_balanced_cancellation_point_witness :
    (∃ r w', fsync tizenrtConsts (sampleEnv 5) 3 world0 = some (r, w')) ∧
    (∃ r w', fsync tizenrtConsts (sampleEnv (-5)) 3 world0 = some (r, w')) ∧
    (∃ r w', fsync tizenrtConsts (sampleEnv 0) 4 world0 = some (r, w')) :=
  ⟨(fsync_balanced_cancellation_point tizenrtConsts (sampleEnv 5) 3 world0).1
      (Or.inr (by decide)),
   (fsync_balanced_cancellation_point tizenrtConsts (sampleEnv (-5)) 3 world0).1
      (Or.inr (by decide)),
   (fsync_balanced_cancellation_point tizenrtConsts (sampleEnv 0) 4 world0).1
      (Or.inl (by decide))⟩

/-! ### Evaluation of `mm_memalign` and `mm_realloc` -/

theorem mm_memalign_sample :
    (mm_memalign cfg32 0 heap4096 64 100).map (fun r => (r.1, r.2.chunks, r.2.mm_nodelist)) =
      some (some 64, [⟨48, 0⟩, ⟨112, 0x80000030⟩, ⟨3920, 112⟩],
        [[], [8], [], [], [], [], [], [168], [], [], [], [], [], [], [], [], [], [], []]) ∧
    (∀ r ∈ mm_memalign cfg32 0 heap4096 64 100,
      BoundaryTags cfg32 r.2 ∧ NoAdjacentFree cfg32 r.2 ∧
      allocatedBytes cfg32 r.2 + freeBytes cfg32 r.2 + sentinelOverhead cfg32 = 4096) := by
  decide

theorem mm_realloc_samples :
    -- shrink in place: the 208-byte chunk at pointer 128 keeps 24 bytes of payload
    (mm_realloc cfg32 heapTwoAllocs (some 128) 24).map (fun r => (r.1, r.2.chunks)) =
      some (some 128, [⟨112, 0x80000000⟩, ⟨32, 0x80000070⟩, ⟨3936, 32⟩]) ∧
    -- grow in place: it absorbs part of the free chunk that follows it
    (mm_realloc cfg32 heapTwoAllocs (some 128) 1000).map (fun r => (r.1, r.2.chunks)) =
      some (some 128, [⟨112, 0x80000000⟩, ⟨1008, 0x80000070⟩, ⟨2960, 1008⟩]) ∧
    -- move: the first chunk cannot grow in place
    (mm_realloc cfg32 heapTwoAllocs (some 16) 500).map (fun r => (r.1, r.2.chunks)) =
      some (some 336, [⟨112, 0⟩, ⟨208, 0x80000070⟩, ⟨512, 0x800000d0⟩, ⟨3248, 512⟩]) ∧
    -- no room: the heap is left as it was
    mm_realloc cfg32 heapTwoAllocs (some 16) 5000 = some (none, heapTwoAllocs) ∧
    -- every result keeps the boundary tags, the coalescing and the byte count
    (∀ size ∈ [24, 1000, 500, 5000], ∀ mem ∈ [16, 128],
      ∀ r ∈ mm_realloc cfg32 heapTwoAllocs (some mem) size,
        BoundaryTags cfg32 r.2 ∧ NoAdjacentFree cfg32 r.2 ∧
        allocatedBytes cfg32 r.2 + freeBytes cfg32 r.2 + sentinelOverhead cfg32 = 4096) := by
  decide
/-! ### Invalid arguments -/

theorem testBit_of_between (n k : Nat) (h1 : 2 ^ k ≤ n) (h2 : n < 2 ^ (k + 1)) :
    n.testBit k = true := by
  rw [Nat.testBit_to_div_mod]
  have hpos : 0 < 2 ^ k := Nat.pow_pos (by decide)
  have hq : n / 2 ^ k = 1 := by
    apply Nat.div_eq_of_lt_le
    · simpa using h1
    · rw [pow_succ] at h2
      omega
  simp [hq]

theorem isPowerOfTwo_iff (a : Nat) : isPowerOfTwo a = true ↔ ∃ k, a = 2 ^ k := by
  constructor
  · intro h
    simp only [isPowerOfTwo, Bool.and_eq_true, bne_iff_ne, ne_eq, beq_iff_eq] at h
    obtain ⟨ha, hand⟩ := h
    refine ⟨Nat.log2 a, ?_⟩
    have h1 := Nat.log2_self_le ha
    have h2 := @Nat.lt_log2_self a
    by_contra hne
    have hgt : 2 ^ Nat.log2 a < a := lt_of_le_of_ne h1 (Ne.symm hne)
    have t1 := testBit_of_between a _ h1 h2
    have t2 := testBit_of_between (a - 1) (Nat.log2 a) (by omega) (by omega)
    have t3 : (a &&& (a - 1)).testBit (Nat.log2 a) = true := by
      rw [Nat.testBit_and, t1, t2]
      rfl
    rw [hand] at t3
    simp at t3
  · rintro ⟨k, rfl⟩
    have hpos : 0 < 2 ^ k := Nat.pow_pos (by decide)
    simp only [isPowerOfTwo, Bool.and_eq_true, bne_iff_ne, ne_eq, beq_iff_eq]
    refine ⟨by omega, ?_⟩
    rw [Nat.and_pow_two_sub_one_eq_mod, Nat.mod_self]

/-- C11: invalid arguments are rejected without touching the heap.  For every heap:
`mm_malloc` with size 0, or with a size whose padding by the header and to the
granularity overflows `size_t`; `mm_calloc` when `n * elem_size` overflows `size_t`;
and `mm_memalign` with an alignment that is not a power of two each return `NULL` and
the heap they return is the heap they were given. -/
theorem invalid_arguments_rejected (cfg : Config) (h : Heap) :
    mm_malloc cfg h 0 = (none, h) ∧
    (∀ size, SIZE_MAX cfg - MM_GRAN_MASK cfg < size + SIZEOF_MM_ALLOCNODE cfg →
      mm_malloc cfg h size = (none, h)) ∧
    (∀ n elem_size, SIZE_MAX cfg < n * elem_size → mm_calloc cfg h n elem_size = (none, h)) ∧
    (∀ heap_start alignment size, (¬ ∃ k, alignment = 2 ^ k) →
      mm_memalign cfg heap_start h alignment size = some (none, h)) := by
  refine ⟨by simp [mm_malloc], ?_, ?_, ?_⟩
  · intro size hov
    simp [mm_malloc, hov]
  · intro n e hov
    simp [mm_calloc, hov]
  · intro heap_start alignment size hnp
    have hb : isPowerOfTwo alignment = false := by
      cases hp : isPowerOfTwo alignment with
      | false => rfl
      | true => exact absurd ((isPowerOfTwo_iff alignment).1 hp) hnp
    simp [mm_memalign, hb]

theorem not_pow2_48 : ¬ ∃ k, (48 : Nat) = 2 ^ k := by
  intro h
  have := (isPowerOfTwo_iff 48).2 h
  revert this
  decide

/-- C11 at concrete inputs on the heap of the 4096-byte example: a request of
`SIZE_MAX - 6` bytes, `calloc(65536, 65536)` and `memalign(48, 100)`. -/
theorem invalid_arguments_rejected_witness :
    mm_malloc cfg32 heapTwoAllocs 0 = (none, heapTwoAllocs) ∧
    mm_malloc cfg32 heapTwoAllocs (SIZE_MAX cfg32 - 6) = (none, heapTwoAllocs) ∧
    mm_calloc cfg32 heapTwoAllocs 65536 65536 = (none, heapTwoAllocs) ∧
    mm_memalign cfg32 0 heapTwoAllocs 48 100 = some (none, heapTwoAllocs) :=
  ⟨(invalid_arguments_rejected cfg32 heapTwoAllocs).1,
   (invalid_arguments_rejected cfg32 heapTwoAllocs).2.1 (SIZE_MAX cfg32 - 6) (by decide),
   (invalid_arguments_rejected cfg32 heapTwoAllocs).2.2.1 65536 65536 (by decide),
   (invalid_arguments_rejected cfg32 heapTwoAllocs).2.2.2 0 48 100 not_pow2_48⟩

/-! ### Degenerate `mm_realloc` calls -/

theorem mm_free_of_allocated (cfg : Config) (h : Heap) (mem : Nat) (c : mm_allocnode_s)
    (hc : chunkAt cfg h (mem - SIZEOF_MM_ALLOCNODE cfg) = some c)
    (halloc : c.allocated cfg = true) : ∃ h', mm_free cfg h mem = some h' := by
  unfold chunkAt at hc
  unfold mm_free
  cases hl : locate h.chunks (SIZEOF_MM_ALLOCNODE cfg) (mem - SIZEOF_MM_ALLOCNODE cfg) with
  | none => simp [hl] at hc
  | some r =>
    obtain ⟨pre, c', post⟩ := r
    simp only [hl, Option.map_some', Option.some.injEq] at hc
    subst hc
    simp [halloc]

/-- C12: the degenerate cases of `mm_realloc`.  With a new size of zero it does what
`mm_free` does on the pointer and returns `NULL`; for the pointer of an allocated chunk
both complete.  With a null pointer it returns the pointer and the heap that
`mm_malloc` returns for the same size. -/
theorem mm_realloc_degenerate (cfg : Config) (h : Heap) :
    (∀ p, mm_realloc cfg h (some p) 0 = (mm_free cfg h p).map (fun h' => (none, h'))) ∧
    (∀ p c, chunkAt cfg h (p - SIZEOF_MM_ALLOCNODE cfg) = some c → c.allocated cfg = true →
      ∃ h', mm_free cfg h p = some h' ∧ mm_realloc cfg h (some p) 0 = some (none, h')) ∧
    (∀ n, mm_realloc cfg h none n = some (mm_malloc cfg h n)) := by
  have h1 : ∀ p, mm_realloc cfg h (some p) 0 =
      (mm_free cfg h p).map (fun h' => (none, h')) := by
    intro p
    simp [mm_realloc]
  refine ⟨h1, ?_, fun n => rfl⟩
  intro p c hc halloc
  obtain ⟨h', hf⟩ := mm_free_of_allocated cfg h p c hc halloc
  exact ⟨h', hf, by rw [h1, hf]; rfl⟩

/-- C12 at a concrete input: releasing the chunk at pointer 128 of the example heap
through `mm_realloc(heap, 128, 0)`, and allocating through `mm_realloc(heap, NULL, 100)`. -/
theorem mm_realloc_degenerate_witness :
    (∃ h', mm_free cfg32 heapTwoAllocs 128 = some h' ∧
      mm_realloc cfg32 heapTwoAllocs (some 128) 0 = some (none, h')) ∧
    mm_realloc cfg32 heapTwoAllocs none 100 = some (mm_malloc cfg32 heapTwoAllocs 100) ∧
    (mm_malloc cfg32 heapTwoAllocs 100).1 = some 336 :=
  ⟨(mm_realloc_degenerate cfg32 heapTwoAllocs).2.1 128 ⟨208, 0x80000070⟩ (by decide) (by decide),
   (mm_realloc_degenerate cfg32 heapTwoAllocs).2.2 100, by decide⟩
/-! ### Re-entrant guard accounting -/

theorem guard_inv_take (me : Nat) (g g' : Guard)
    (hinv : (g.mm_counts_held = 0 ∧ g.mm_holder = -1 ∧ g.mm_semaphore = 1) ∨
      (0 < g.mm_counts_held ∧ g.mm_holder = (me : Int) ∧ g.mm_semaphore = 0))
    (ht : mm_takesemaphore g me = some g') :
    0 < g'.mm_counts_held ∧ g'.mm_holder = (me : Int) ∧ g'.mm_semaphore = 0 ∧
    g'.mm_counts_held = g.mm_counts_held + 1 := by
  unfold mm_takesemaphore at ht
  rcases hinv with ⟨hc, hh, hs⟩ | ⟨hc, hh, hs⟩
  · have hne : ¬ g.mm_holder = (me : Int) := by omega
    rw [if_neg hne, if_neg (by omega)] at ht
    simp only [Option.some.injEq] at ht
    subst ht
    simp [hs, hc]
  · rw [if_pos hh] at ht
    simp only [Option.some.injEq] at ht
    subst ht
    refine ⟨?_, hh, hs, rfl⟩
    show 0 < g.mm_counts_held + 1
    omega

theorem guard_take_completes (me : Nat) (g : Guard)
    (hinv : (g.mm_counts_held = 0 ∧ g.mm_holder = -1 ∧ g.mm_semaphore = 1) ∨
      (0 < g.mm_counts_held ∧ g.mm_holder = (me : Int) ∧ g.mm_semaphore = 0)) :
    ∃ g', mm_takesemaphore g me = some g' := by
  unfold mm_takesemaphore
  rcases hinv with ⟨hc, hh, hs⟩ | ⟨hc, hh, hs⟩
  · have hne : ¬ g.mm_holder = (me : Int) := by omega
    rw [if_neg hne, if_neg (by omega)]
    exact ⟨_, rfl⟩
  · rw [if_pos hh]
    exact ⟨_, rfl⟩

theorem guard_inv_give (me : Nat) (g g' : Guard)
    (hinv : (g.mm_counts_held = 0 ∧ g.mm_holder = -1 ∧ g.mm_semaphore = 1) ∨
      (0 < g.mm_counts_held ∧ g.mm_holder = (me : Int) ∧ g.mm_semaphore = 0))
    (hg : mm_givesemaphore g me = some g') :
    g'.mm_counts_held = g.mm_counts_held - 1 ∧
    ((g'.mm_counts_held = 0 ∧ g'.mm_holder = -1 ∧ g'.mm_semaphore = 1 ∧
        g'.mm_semaphore = g.mm_semaphore + 1) ∨
      (0 < g'.mm_counts_held ∧ g'.mm_holder = (me : Int) ∧ g'.mm_semaphore = 0 ∧
        g'.mm_semaphore = g.mm_semaphore)) := by
  unfold mm_givesemaphore at hg
  rcases hinv with ⟨hc, hh, hs⟩ | ⟨hc, hh, hs⟩
  · have hne : g.mm_holder ≠ (me : Int) := by omega
    rw [if_pos hne] at hg
    simp at hg
  · rw [if_neg (by simpa using hh)] at hg
    by_cases h1 : 1 < g.mm_counts_held
    · rw [if_pos h1] at hg
      simp only [Option.some.injEq] at hg
      subst hg
      refine ⟨rfl, Or.inr ⟨?_, hh, hs, rfl⟩⟩
      show 0 < g.mm_counts_held - 1
      omega
    · rw [if_neg h1] at hg
      simp only [Option.some.injEq] at hg
      subst hg
      refine ⟨?_, Or.inl ⟨rfl, rfl, ?_, rfl⟩⟩
      · show (0 : Int) = g.mm_counts_held - 1
        omega
      · show g.mm_semaphore + 1 = 1
        omega

theorem guard_give_completes (me : Nat) (g : Guard) (hh : g.mm_holder = (me : Int)) :
    ∃ g', mm_givesemaphore g me = some g' := by
  unfold mm_givesemaphore
  rw [if_neg (by simpa using hh)]
  split <;> exact ⟨_, rfl⟩

theorem guardTrace_inv (me : Nat) (g0 : Guard) (ops : List GuardOp)
    (hinv : (g0.mm_counts_held = 0 ∧ g0.mm_holder = -1 ∧ g0.mm_semaphore = 1) ∨
      (0 < g0.mm_counts_held ∧ g0.mm_holder = (me : Int) ∧ g0.mm_semaphore = 0)) :
    ∀ g ∈ guardTrace me g0 ops,
      (g.mm_counts_held = 0 ∧ g.mm_holder = -1 ∧ g.mm_semaphore = 1) ∨
      (0 < g.mm_counts_held ∧ g.mm_holder = (me : Int) ∧ g.mm_semaphore = 0) := by
  induction ops generalizing g0 with
  | nil => simp [guardTrace]
  | cons op ops ih =>
    intro g hmem
    unfold guardTrace at hmem
    cases hs : guardStep me g0 op with
    | none => simp [hs] at hmem
    | some g1 =>
      simp only [hs, List.mem_cons] at hmem
      have h1 : (g1.mm_counts_held = 0 ∧ g1.mm_holder = -1 ∧ g1.mm_semaphore = 1) ∨
          (0 < g1.mm_counts_held ∧ g1.mm_holder = (me : Int) ∧ g1.mm_semaphore = 0) := by
        cases op with
        | take =>
          have := guard_inv_take me g0 g1 hinv hs
          exact Or.inr ⟨this.1, this.2.1, this.2.2.1⟩
        | give =>
          rcases (guard_inv_give me g0 g1 hinv hs).2 with h | h
          · exact Or.inl ⟨h.1, h.2.1, h.2.2.1⟩
          · exact Or.inr ⟨h.1, h.2.1, h.2.2.1⟩
      rcases hmem with rfl | hmem
      · exact h1
      · exact ih g1 h1 g hmem

/-- C13: re-entrant guard accounting.  A take by the current holder completes and only
increments `mm_counts_held`, whatever the guard state.  In every guard state reached
from `mm_seminitialize` by `mm_takesemaphore` / `mm_givesemaphore` calls of one task:
the count is not negative; a positive count means `mm_holder` is that task; the
semaphore is available exactly when the count is zero; a take completes and raises the
count by one; and, when the count is positive, a give completes, lowers the count by
one and releases the semaphore exactly when the count reaches zero. -/
theorem guard_accounting (my_pid : Nat) (ops : List GuardOp) :
    (∀ g : Guard, g.mm_holder = (my_pid : Int) →
      mm_takesemaphore g my_pid = some { g with mm_counts_held := g.mm_counts_held + 1 }) ∧
    (∀ g ∈ mm_seminitialize :: guardTrace my_pid mm_seminitialize ops,
      0 ≤ g.mm_counts_held ∧
      (0 < g.mm_counts_held → g.mm_holder = (my_pid : Int)) ∧
      (g.mm_semaphore = 1 ↔ g.mm_counts_held = 0) ∧
      (∃ g', mm_takesemaphore g my_pid = some g' ∧
        g'.mm_counts_held = g.mm_counts_held + 1) ∧
      (0 < g.mm_counts_held →
        ∃ g', mm_givesemaphore g my_pid = some g' ∧
          g'.mm_counts_held = g.mm_counts_held - 1 ∧
          (g'.mm_semaphore = g.mm_semaphore + 1 ↔ g'.mm_counts_held = 0) ∧
          (g'.mm_semaphore = g.mm_semaphore ↔ 0 < g'.mm_counts_held))) := by
  refine ⟨fun g hg => by simp [mm_takesemaphore, hg], ?_⟩
  intro g hmem
  have hinv : (g.mm_counts_held = 0 ∧ g.mm_holder = -1 ∧ g.mm_semaphore = 1) ∨
      (0 < g.mm_counts_held ∧ g.mm_holder = (my_pid : Int) ∧ g.mm_semaphore = 0) := by
    rcases List.mem_cons.1 hmem with rfl | hm
    · exact Or.inl ⟨rfl, rfl, rfl⟩
    · exact guardTrace_inv my_pid mm_seminitialize ops (Or.inl ⟨rfl, rfl, rfl⟩) g hm
  obtain ⟨gt, hgt⟩ := guard_take_completes my_pid g hinv
  have htake := guard_inv_take my_pid g gt hinv hgt
  refine ⟨?_, ?_, ?_, ⟨gt, hgt, htake.2.2.2⟩, ?_⟩
  · rcases hinv with h | h <;> omega
  · intro hpos
    rcases hinv with h | h
    · omega
    · exact h.2.1
  · rcases hinv with h | h
    · simp [h.1, h.2.2]
    · constructor
      · intro h1; omega
      · intro h1; omega
  · intro hpos
    have hh : g.mm_holder = (my_pid : Int) := by
      rcases hinv with h | h
      · omega
      · exact h.2.1
    obtain ⟨gg, hgg⟩ := guard_give_completes my_pid g hh
    have hgive := guard_inv_give my_pid g gg hinv hgg
    refine ⟨gg, hgg, hgive.1, ?_, ?_⟩
    · rcases hgive.2 with h | h
      · simp [h.1, h.2.2.2]
      · constructor
        · intro h1; omega
        · intro h1; omega
    · rcases hgive.2 with h | h
      · constructor
        · intro h1; omega
        · intro h1; omega
      · simp [h.1, h.2.2.2]

/-- C13 at a concrete input: task 7 takes the guard three times and gives it three
times; the counts are 1, 2, 3, 2, 1, 0 and the semaphore is available again only after
the last give. -/
theorem guard_accounting_witness :
    (guardTrace 7 mm_seminitialize
        [.take, .take, .take, .give, .give, .give]).map
      (fun g => (g.mm_semaphore, g.mm_holder, g.mm_counts_held)) =
      [(0, 7, 1), (0, 7, 2), (0, 7, 3), (0, 7, 2), (0, 7, 1), (1, -1, 0)] ∧
    ∀ g ∈ mm_seminitialize ::
        guardTrace 7 mm_seminitialize [.take, .take, .take, .give, .give, .give],
      0 ≤ g.mm_counts_held ∧ (g.mm_semaphore = 1 ↔ g.mm_counts_held = 0) :=
  ⟨by decide, fun g hg =>
    ⟨((guard_accounting 7 [.take, .take, .take, .give, .give, .give]).2 g hg).1,
     ((guard_accounting 7 [.take, .take, .take, .give, .give, .give]).2 g hg).2.2.1⟩⟩

/-! ### `fsync` as `file_fsync` on the descriptor's file -/

theorem file_fsync_frame (k : FsConsts) (filep : Nat) (f : File) (w w' : World)
    (h : w.errno = w'.errno) :
    (file_fsync k filep f w).1 = (file_fsync k filep f w').1 ∧
    (file_fsync k filep f w).2.errno = (file_fsync k filep f w').2.errno := by
  unfold file_fsync
  simp only [file_fsync_errout]
  repeat' split
  all_goals first | exact ⟨rfl, rfl⟩ | exact ⟨rfl, h⟩

/-- C21: for every `fd` for which `fs_getfilep` succeeds (a non-negative result and a
non-null file pointer), `fsync(fd)` completes, returns exactly the value that
`file_fsync` returns on that file and leaves `errno` exactly as `file_fsync` leaves it. -/
theorem fsync_is_file_fsync (k : FsConsts) (env : FsEnv) (fd : Int) (w : World)
    (hok : 0 ≤ (env.fs_getfilep fd).1) (hp : (env.fs_getfilep fd).2 ≠ 0) :
    ∃ w', fsync k env fd w = some ((fsync_as_file_fsync k env fd w).1, w') ∧
      w'.errno = (fsync_as_file_fsync k env fd w).2.errno := by
  have hr : ¬ (env.fs_getfilep fd).1 < 0 := by omega
  have hf := file_fsync_frame k (env.fs_getfilep fd).2 (env.file (env.fs_getfilep fd).2)
    { errno := w.errno
      calls := w.calls ++ [Event.enter_cancellation_point] ++ [Event.fs_getfilep fd] ++
        [Event.file_fsync (env.fs_getfilep fd).2] } w rfl
  simp only [fsync, if_neg hr, if_neg hp, fsync_as_file_fsync]
  rw [hf.1]
  exact ⟨_, rfl, hf.2⟩

/-- C21 at concrete inputs: descriptor 3 of the sample file system with a `sync` method
answering 5 (`OK`, `errno` left at 0) and -5 (`ERROR`, `errno = 5`). -/
theorem fsync_is_file_fsync_witness :
    fsync_as_file_fsync tizenrtConsts (sampleEnv 5) 3 world0 =
      (0, { errno := 0, calls := [Event.sync 100] }) ∧
    fsync_as_file_fsync tizenrtConsts (sampleEnv (-5)) 3 world0 =
      (-1, { errno := 5, calls := [Event.sync 100] }) ∧
    (∃ w', fsync tizenrtConsts (sampleEnv 5) 3 world0 =
        some ((fsync_as_file_fsync tizenrtConsts (sampleEnv 5) 3 world0).1, w') ∧
      w'.errno = (fsync_as_file_fsync tizenrtConsts (sampleEnv 5) 3 world0).2.errno) ∧
    (∃ w', fsync tizenrtConsts (sampleEnv (-5)) 3 world0 =
        some ((fsync_as_file_fsync tizenrtConsts (sampleEnv (-5)) 3 world0).1, w') ∧
      w'.errno = (fsync_as_file_fsync tizenrtConsts (sampleEnv (-5)) 3 world0).2.errno) :=
  ⟨by decide, by decide,
    fsync_is_file_fsync tizenrtConsts (sampleEnv 5) 3 world0 (by decide) (by decide),
    fsync_is_file_fsync tizenrtConsts (sampleEnv (-5)) 3 world0 (by decide) (by decide)⟩

/-! ### Heap-selecting entry points in a single-heap build -/

/-- C22: in a build with `CONFIG_MM_NHEAPS <= 1`, for every heap index expression
(`INVALID_HEAP_IDX`, one with side effects, one whose evaluation does not complete) and
all other arguments, `malloc_at`, `calloc_at`, `memalign_at`, `realloc_at` and
`zalloc_at` are `malloc`, `calloc`, `memalign`, `realloc` and `zalloc` applied to the
remaining arguments; the heap index is never evaluated, so replacing it by any other
expression changes nothing. -/
theorem at_entry_points_single_heap {σ : Type} (CONFIG_MM_NHEAPS : Nat)
    (hn : CONFIG_MM_NHEAPS ≤ 1) (L : Libc σ) (M : HeapAt σ) (heap_index : CExpr σ Int)
    (size n elem_size alignment : CExpr σ Nat) (oldmem : CExpr σ (Option Nat)) :
    (malloc_at CONFIG_MM_NHEAPS L M heap_index size = malloc_plain L size ∧
      calloc_at CONFIG_MM_NHEAPS L M heap_index n elem_size = calloc_plain L n elem_size ∧
      memalign_at CONFIG_MM_NHEAPS L M heap_index alignment size =
        memalign_plain L alignment size ∧
      realloc_at CONFIG_MM_NHEAPS L M heap_index oldmem size = realloc_plain L oldmem size ∧
      zalloc_at CONFIG_MM_NHEAPS L M heap_index size = zalloc_plain L size) ∧
    (∀ other : CExpr σ Int,
      malloc_at CONFIG_MM_NHEAPS L M other size =
        malloc_at CONFIG_MM_NHEAPS L M heap_index size ∧
      calloc_at CONFIG_MM_NHEAPS L M other n elem_size =
        calloc_at CONFIG_MM_NHEAPS L M heap_index n elem_size ∧
      memalign_at CONFIG_MM_NHEAPS L M other alignment size =
        memalign_at CONFIG_MM_NHEAPS L M heap_index alignment size ∧
      realloc_at CONFIG_MM_NHEAPS L M other oldmem size =
        realloc_at CONFIG_MM_NHEAPS L M heap_index oldmem size ∧
      zalloc_at CONFIG_MM_NHEAPS L M other size =
        zalloc_at CONFIG_MM_NHEAPS L M heap_index size) := by
  have h1 : ¬ CONFIG_MM_NHEAPS > 1 := by omega
  refine ⟨⟨?_, ?_, ?_, ?_, ?_⟩, fun other => ⟨?_, ?_, ?_, ?_, ?_⟩⟩
  · simp only [malloc_at, if_neg h1, malloc_plain]
  · simp only [calloc_at, if_neg h1, calloc_plain]
  · simp only [memalign_at, if_neg h1, memalign_plain]
  · simp only [realloc_at, if_neg h1, realloc_plain]
  · simp only [zalloc_at, if_neg h1, zalloc_plain]
  · simp only [malloc_at, if_neg h1]
  · simp only [calloc_at, if_neg h1]
  · simp only [memalign_at, if_neg h1]
  · simp only [realloc_at, if_neg h1]
  · simp only [zalloc_at, if_neg h1]

/-- C22 at concrete inputs, the C library running the allocation engine on the example
heap: with a heap index whose evaluation does not complete `malloc_at(…, 100)` still
returns pointer 336 as `malloc(100)` does, and with `INVALID_HEAP_IDX`
`realloc_at(…, 128, 24)` is `realloc(128, 24)`. -/
theorem at_entry_points_single_heap_witness :
    malloc_at 1 heapLibc noHeapAt stuckIndex (CExpr.const 100) heapTwoAllocs =
      malloc_plain heapLibc (CExpr.const 100) heapTwoAllocs ∧
    (malloc_plain heapLibc (CExpr.const 100) heapTwoAllocs).map (fun r => r.1) =
      some (some 336) ∧
    realloc_at 1 heapLibc noHeapAt (CExpr.const INVALID_HEAP_IDX) (CExpr.const (some 128))
        (CExpr.const 24) heapTwoAllocs =
      realloc_plain heapLibc (CExpr.const (some 128)) (CExpr.const 24) heapTwoAllocs :=
  ⟨congrFun (at_entry_points_single_heap 1 (by decide) heapLibc noHeapAt stuckIndex
      (CExpr.const 100) (CExpr.const 0) (CExpr.const 0) (CExpr.const 0)
      (CExpr.const none)).1.1 heapTwoAllocs,
   by decide,
   congrFun (at_entry_points_single_heap 1 (by decide) heapLibc noHeapAt
      (CExpr.const INVALID_HEAP_IDX) (CExpr.const 24) (CExpr.const 0) (CExpr.const 0)
      (CExpr.const 0) (CExpr.const (some 128))).1.2.2.2.1 heapTwoAllocs⟩

/-- In a multi-heap build the heap index is an argument of a function call and is
evaluated: an index expression with a side effect changes the state the function runs
in, and one whose evaluation does not complete stops the call. -/
theorem at_entry_points_multi_heap_evaluate_index {σ : Type} (CONFIG_MM_NHEAPS : Nat)
    (hn : 1 < CONFIG_MM_NHEAPS) (L : Libc σ) (M : HeapAt σ) (heap_index : CExpr σ Int)
    (size : CExpr σ Nat) (s : σ) :
    malloc_at CONFIG_MM_NHEAPS L M heap_index size s =
      (heap_index s).bind (fun ri => (size ri.2).bind (fun rs => M.malloc_at ri.1 rs.1 rs.2)) ∧
    (heap_index s = none → malloc_at CONFIG_MM_NHEAPS L M heap_index size s = none) := by
  have e : malloc_at CONFIG_MM_NHEAPS L M heap_index size s =
      (heap_index s).bind (fun ri => (size ri.2).bind (fun rs => M.malloc_at ri.1 rs.1 rs.2)) := by
    simp only [malloc_at, if_pos hn, call2]
  refine ⟨e, fun h => ?_⟩
  rw [e, h]
  rfl

/-- The side effect of a heap index expression is dropped in the single-heap build: with
an index that allocates 8 bytes, `malloc_at(…, 100)` leaves the heap as `malloc(100)`
does, with two allocated chunks and then the new 112-byte chunk. -/
theorem at_entry_points_drop_side_effect :
    (malloc_at 1 heapLibc noHeapAt allocatingIndex (CExpr.const 100) heapTwoAllocs).map
      (fun r => (r.1, r.2.chunks)) =
      some (some 336, [⟨112, 0x80000000⟩, ⟨208, 0x80000070⟩, ⟨112, 0x800000d0⟩,
        ⟨3648, 112⟩]) ∧
    (allocatingIndex heapTwoAllocs).map (fun r => r.2.chunks) =
      some [⟨112, 0x80000000⟩, ⟨208, 0x80000070⟩, ⟨16, 0x800000d0⟩, ⟨3744, 16⟩] := by
  decide

end TizenRT
